import Mathlib

/-!
# FreeWPC dot-matrix display (DMD) page manager

A shallow embedding of `kernel/dmd.c`: the shadow mapping registers, the page
allocator, the page-flip interrupt handler, the show operations and the generic
transition engine.

Conventions of the embedding.

* `U8` variables are natural numbers; every place where the C code can wrap an
  8-bit value (an increment, an addition passed as a `U8` argument) carries an
  explicit `% 256`.
* The global variables of `dmd.c`, the write-only hardware registers and the
  contents of the page pool are the fields of one record, `DmdState`; every C
  function is a function on that record.
* Functions that call out of the module (the descriptor callbacks, `task_sleep`)
  return a `Run`: the status, the state reached and the list of outside calls made,
  each callback call with the state it was entered in.
* The two unbounded loops of `dmd_do_transition` take a fuel argument; a run that
  exhausts it stops with status `out_of_fuel` and the trace produced so far.
* The date arithmetic of `common/rtc.c` works on its own record, `RtcState`; a table
  read outside its bounds and a loop that runs out of fuel give `none`.  The
  Gregorian calendar it is compared with is written separately, by counting days.
* The ball tables of the simulator (`platform/native/ball.c`) and the variables of
  the chaos multiball mode (`machine/tz/chaosmb.c`) have their own records,
  `SimBalls` and `ChaosState`; an array access outside its bounds gives `none`.
-/

namespace FreeWPC

/-! ## Constants -/

/-- The DMD controller has 16 pages (`dmd.c` header comment; `MAX_PAGES` and the
`0x0F` mask in `asciidmd.c`). -/
abbrev DMD_PAGE_COUNT : Nat := 16

/-- One page is 128 x 32 dots, one bit each (`asciidmd_alloc`). -/
abbrev DMD_PAGE_SIZE : Nat := 512

/-! ## State -/

/-- The variables of `dmd.c` (lines 68-122), the hardware registers it writes and the
page pool.  A null pointer is `none` for `dmd_transition`, which holds the address of
a descriptor, and `0` for the two private data pointers. -/
structure DmdState where
  /-- Allocation cursor, `dmd_free_page`. -/
  dmd_free_page : Nat
  dmd_low_page : Nat
  dmd_high_page : Nat
  dmd_dark_page : Nat
  dmd_bright_page : Nat
  dmd_page_flip_count : Nat
  dmd_in_transition : Bool
  dmd_transition : Option Nat
  dmd_trans_data_ptr : Nat
  dmd_trans_data_ptr2 : Nat
  dmd_composite_page : Nat
  /-- Last value written to the write-only register `WPC_DMD_LOW_PAGE`. -/
  port_low_page : Nat
  /-- Last value written to the write-only register `WPC_DMD_HIGH_PAGE`. -/
  port_high_page : Nat
  /-- Last value passed to `wpc_dmd_set_visible_page`. -/
  port_visible_page : Nat
  /-- Last value passed to `wpc_dmd_set_firq_row`. -/
  port_firq_row : Nat
  /-- Contents of the page pool: page number, then byte offset. -/
  page_store : Nat → Nat → Nat

/-- Page shown in the low mapping window: the register value masked to four bits,
as `asciidmd_map_page` does (`page &= 0x0F`). -/
def dmd_low_buffer (s : DmdState) : Nat := s.port_low_page % 16

/-- Page shown in the high mapping window (`asciidmd_map_page`, mapping 1). -/
def dmd_high_buffer (s : DmdState) : Nat := s.port_high_page % 16

/-- Memory as it is before `dmd_init` runs: every variable, register and page byte
is zero. -/
def power_on : DmdState :=
  { dmd_free_page := 0, dmd_low_page := 0, dmd_high_page := 0, dmd_dark_page := 0,
    dmd_bright_page := 0, dmd_page_flip_count := 0, dmd_in_transition := false,
    dmd_transition := none, dmd_trans_data_ptr := 0, dmd_trans_data_ptr2 := 0,
    dmd_composite_page := 0, port_low_page := 0, port_high_page := 0,
    port_visible_page := 0, port_firq_row := 0, page_store := fun _ _ => 0 }

/-! ## Shadow mapping registers (lines 133-151) -/

/-- `wpc_asic_write (WPC_DMD_LOW_PAGE, dmd_low_page = val)`; the argument is a `U8`. -/
def wpc_dmd_set_low_page (val : Nat) (s : DmdState) : DmdState :=
  { s with dmd_low_page := val % 256, port_low_page := val % 256 }

def wpc_dmd_get_low_page (s : DmdState) : Nat := s.dmd_low_page

/-- `wpc_asic_write (WPC_DMD_HIGH_PAGE, dmd_high_page = val)`; the argument is a `U8`. -/
def wpc_dmd_set_high_page (val : Nat) (s : DmdState) : DmdState :=
  { s with dmd_high_page := val % 256, port_high_page := val % 256 }

def wpc_dmd_get_high_page (s : DmdState) : Nat := s.dmd_high_page

def wpc_dmd_set_visible_page (val : Nat) (s : DmdState) : DmdState :=
  { s with port_visible_page := val % 256 }

def wpc_dmd_set_firq_row (v : Nat) (s : DmdState) : DmdState :=
  { s with port_firq_row := v % 256 }

/-! ## Initialisation (lines 157-169) -/

def dmd_init (s : DmdState) : DmdState :=
  let s := wpc_dmd_set_firq_row 30 s
  let s := { s with dmd_in_transition := false }
  let s := { s with dmd_transition := none }
  let s := wpc_dmd_set_low_page 0 s
  let s := wpc_dmd_set_high_page 0 s
  let s := { s with dmd_bright_page := 0 }
  let s := { s with dmd_dark_page := s.dmd_bright_page }
  let s := wpc_dmd_set_visible_page s.dmd_dark_page s
  let s := { s with dmd_free_page := 2 }
  { s with dmd_page_flip_count := 2 }

/-! ## Flicker driver (lines 184-203) -/

/-- Which of the two branches of `dmd_rtt` ran. -/
inductive Shown where
  | dark
  | bright
  deriving DecidableEq, Repr

/-- The FIRQ handler `dmd_rtt`; the first component records the branch taken. -/
def dmd_rtt (s : DmdState) : Shown × DmdState :=
  if s.dmd_page_flip_count ≥ 2 then
    let s := wpc_dmd_set_visible_page s.dmd_dark_page s
    let s := { s with dmd_page_flip_count := 0 }
    (Shown.dark, wpc_dmd_set_firq_row 30 s)
  else
    let s := wpc_dmd_set_visible_page s.dmd_bright_page s
    let s := { s with dmd_page_flip_count := (s.dmd_page_flip_count + 1) % 256 }
    (Shown.bright, wpc_dmd_set_firq_row 30 s)

/-- State after `n` consecutive invocations of `dmd_rtt`. -/
def dmd_rtt_times : Nat → DmdState → DmdState
  | 0, s => s
  | n + 1, s => dmd_rtt_times n (dmd_rtt s).2

/-- Branch taken by invocation number `n` (counting from 0). -/
def dmd_rtt_shown (n : Nat) (s : DmdState) : Shown := (dmd_rtt (dmd_rtt_times n s)).1

/-! ## Page allocator (lines 216-250) -/

/-- `dmd_alloc`: returns the cursor and advances it by two, modulo the pool size.
The `+= 2` is done in a `U8`. -/
def dmd_alloc (s : DmdState) : Nat × DmdState :=
  let page := s.dmd_free_page
  let s := { s with dmd_free_page := (s.dmd_free_page + 2) % 256 }
  let s := { s with dmd_free_page := s.dmd_free_page % DMD_PAGE_COUNT }
  (page, s)

/-- State after `n` consecutive calls of `dmd_alloc`. -/
def dmd_alloc_times : Nat → DmdState → DmdState
  | 0, s => s
  | n + 1, s => dmd_alloc_times n (dmd_alloc s).2

/-- Page returned by call number `n + 1` of `dmd_alloc`. -/
def dmd_alloc_nth (n : Nat) (s : DmdState) : Nat := (dmd_alloc (dmd_alloc_times n s)).1

def dmd_alloc_low (s : DmdState) : DmdState :=
  let (page, s) := dmd_alloc s
  let s := wpc_dmd_set_low_page page s
  wpc_dmd_set_high_page (wpc_dmd_get_low_page s) s

def dmd_alloc_high (s : DmdState) : DmdState :=
  let (page, s) := dmd_alloc s
  wpc_dmd_set_high_page page s

def dmd_alloc_low_high (s : DmdState) : DmdState :=
  let (page, s) := dmd_alloc s
  let s := wpc_dmd_set_low_page page s
  wpc_dmd_set_high_page (wpc_dmd_get_low_page s + 1) s

def dmd_flip_low_high (s : DmdState) : DmdState :=
  let tmp := wpc_dmd_get_low_page s
  let s := wpc_dmd_set_low_page (wpc_dmd_get_high_page s) s
  wpc_dmd_set_high_page tmp s

/-! ## Page copy (lines 348-356) -/

/-- `dmd_copy_page (dst, src)`: `__blockcopy16` of `DMD_PAGE_SIZE` bytes.  The
destination is a page of the pool; the source is the bytes found at `src` (a page of
the pool or an image in ROM), given by offset. -/
def dmd_copy_page (dst : Nat) (src : Nat → Nat) (s : DmdState) : DmdState :=
  { s with page_store := fun pg off =>
      if pg = dst ∧ off < DMD_PAGE_SIZE then src off else s.page_store pg off }

def dmd_copy_low_to_high (s : DmdState) : DmdState :=
  dmd_copy_page (dmd_high_buffer s) (s.page_store (dmd_low_buffer s)) s

/-! ## Drawing primitives (lines 403-450)

`wpc_push_page (XBM_PAGE)` and `wpc_pop_page` switch the ROM bank holding the images
and touch none of the DMD variables. -/

/-- `dmd_draw_image (image_bits)`: copy a mono image into the page mapped low. -/
def dmd_draw_image (image_bits : Nat → Nat) (s : DmdState) : DmdState :=
  dmd_copy_page (dmd_low_buffer s) image_bits s

/-- Store of one 16-bit word, as its two bytes, at byte offset `off` of a buffer. -/
def store16 (buf : Nat → Nat) (off b0 b1 : Nat) : Nat → Nat :=
  fun k => if k = off then b0 else if k = off + 1 then b1 else buf k

/-- The inner loop of `dmd_draw_bitmap`,
`for (i = 0; i < (width / 8) / 2; i++) dbuf[x + i] = *image_data++`, with `todo` passes
left.  `dbuf` and `image_data` are byte offsets; both pointers are `U16 *`, so the
index is scaled by two and the increment is two bytes. -/
def dmd_draw_bitmap_row (image_bits : Nat → Nat) (dbuf x : Nat) :
    Nat → Nat → Nat → (Nat → Nat) → (Nat → Nat) × Nat
  | 0, _, image_data, buf => (buf, image_data)
  | todo + 1, i, image_data, buf =>
    dmd_draw_bitmap_row image_bits dbuf x todo (i + 1) (image_data + 2)
      (store16 buf (dbuf + 2 * (x + i)) (image_bits image_data) (image_bits (image_data + 1)))

/-- The outer loop of `dmd_draw_bitmap`, `for (j = 0; j < height; j++)`, with `todo`
passes left; after each row `dbuf += 16 / 2` words. -/
def dmd_draw_bitmap_rows (image_bits : Nat → Nat) (x width : Nat) :
    Nat → Nat → Nat → (Nat → Nat) → (Nat → Nat)
  | 0, _, _, buf => buf
  | todo + 1, dbuf, image_data, buf =>
    let r := dmd_draw_bitmap_row image_bits dbuf x (width / 8 / 2) 0 image_data buf
    dmd_draw_bitmap_rows image_bits x width todo (dbuf + 2 * (16 / 2)) r.2 r.1

/-- `dmd_draw_bitmap (image_bits, x, y, width, height)`.  `dmd_low_buffer` is a byte
pointer (it is passed as `dmd_buffer_t`, to which `DMD_PAGE_SIZE` is added in bytes in
`dmd_draw_image2`), so `dbuf` starts `(16 / 2) * y` bytes into the page mapped low.
Offsets from `DMD_PAGE_SIZE` on stand for the memory that follows the window. -/
def dmd_draw_bitmap (image_bits : Nat → Nat) (x y width height : Nat) (s : DmdState) :
    DmdState :=
  let drawn :=
    dmd_draw_bitmap_rows image_bits x width height ((16 / 2) * y) 0
      (s.page_store (dmd_low_buffer s))
  { s with page_store := fun pg off =>
      if pg = dmd_low_buffer s then drawn off else s.page_store pg off }

/-! ## Calls out of the module -/

/-- Colour channel a transition cycle works on; a label for the trace only. -/
inductive Channel where
  | dark
  | bright
  deriving DecidableEq, Repr

/-- Calls that leave `dmd.c`.  A callback call carries the state in which the
callback was entered. -/
inductive Event where
  | composite_init (s : DmdState)
  | task_sleep (delay : Nat)
  | composite_old (ch : Channel) (s : DmdState)
  | composite_new (ch : Channel) (s : DmdState)

/-- How a run ended: normally, with the loop bound exhausted, or by calling through
the null `dmd_transition` pointer. -/
inductive Status where
  | done
  | out_of_fuel
  | null_deref
  deriving DecidableEq, Repr

/-- Result of running a function that makes outside calls. -/
structure Run where
  status : Status
  state : DmdState
  trace : List Event

/-- Return without an outside call. -/
def Run.ret (s : DmdState) : Run := ⟨Status.done, s, []⟩

/-- Sequencing: continue with `k` when `r` ended normally. -/
def Run.andThen (r : Run) (k : DmdState → Run) : Run :=
  match r.status with
  | Status.done => ⟨(k r.state).status, (k r.state).state, r.trace ++ (k r.state).trace⟩
  | _ => r

/-- Modelled from the spec: the transition descriptor `dmd_transition_t`, whose
declaration is not among the sources.  Its fields are the ones `dmd.c` uses: the
per-cycle delay, the optional initializer and the two mandatory compositor
callbacks.  A callback is a C function without arguments working on the globals, so
it is a function on the state. -/
structure dmd_transition_t where
  composite_init : Option (DmdState → DmdState)
  composite_old : DmdState → DmdState
  composite_new : DmdState → DmdState
  delay : Nat

/-! ## Show operations and transition engine (lines 258-309, 538-695)

`descs` is the memory holding the descriptors: `descs p` is the descriptor at
address `p`. -/

/-- `dmd_do_transition_cycle (old_page, new_page)`.  `dmd_transition` is read again
for each of the two calls, as in the C code. -/
def dmd_do_transition_cycle (descs : Nat → dmd_transition_t) (ch : Channel)
    (old_page new_page : Nat) (s : DmdState) : Run :=
  let s1 := wpc_dmd_set_low_page old_page s
  match s1.dmd_transition with
  | none => ⟨Status.null_deref, s1, []⟩
  | some p =>
    let s2 := (descs p).composite_old s1
    let s3 := wpc_dmd_set_low_page new_page s2
    match s3.dmd_transition with
    | none => ⟨Status.null_deref, s3, [Event.composite_old ch s1]⟩
    | some q =>
      ⟨Status.done, (descs q).composite_new s3,
        [Event.composite_old ch s1, Event.composite_new ch s3]⟩

/-- The flag computed at lines 583-591: both the incoming image (`dmd_low_page`,
`dmd_high_page`) and the outgoing image (`dmd_dark_page`, `dmd_bright_page`) are mono. -/
def one_copy_flag (s : DmdState) : Bool :=
  decide (s.dmd_low_page = s.dmd_high_page) && decide (s.dmd_dark_page = s.dmd_bright_page)

/-- The `else` branch at lines 588-612, entered when `one_copy_flag` is false;
`new_dark_page` is the value of `dmd_low_page` captured on entry. -/
def dmd_transition_normalize (new_dark_page new_bright_page : Nat) (s : DmdState) : DmdState :=
  let s := { s with dmd_trans_data_ptr2 := 0 }
  if new_dark_page ≠ new_bright_page then
    let s := wpc_dmd_set_low_page s.dmd_dark_page s
    let s := wpc_dmd_set_high_page (s.dmd_dark_page + 1) s
    let s := dmd_copy_low_to_high s
    let s := { s with dmd_bright_page := s.dmd_high_page }
    wpc_dmd_set_low_page new_dark_page s
  else
    let s := wpc_dmd_set_high_page (s.dmd_low_page + 1) s
    dmd_copy_low_to_high s

/-- The allocation retry loop at lines 631-633,
`do dmd_composite_page = dmd_alloc (); while (dmd_composite_page == new_dark_page)`.
One unit of fuel is spent per call of `dmd_alloc`. -/
def dmd_alloc_composite : Nat → Nat → DmdState → Run
  | 0, _, s => ⟨Status.out_of_fuel, s, []⟩
  | fuel + 1, new_dark_page, s =>
    let (page, s) := dmd_alloc s
    let s := { s with dmd_composite_page := page }
    if s.dmd_composite_page = new_dark_page then dmd_alloc_composite fuel new_dark_page s
    else Run.ret s

/-- The compositing of one pass, lines 635-663, entered with the page chosen by the
allocation loop in `dmd_composite_page`: the dark-channel cycle, the bright-channel
cycle unless the one-copy flag is set, and the new visible pages. -/
def dmd_transition_composite (descs : Nat → dmd_transition_t) (flag : Bool)
    (new_dark_page new_bright_page : Nat) (s : DmdState) : Run :=
  let s := wpc_dmd_set_high_page s.dmd_composite_page s
  (dmd_do_transition_cycle descs Channel.dark s.dmd_dark_page new_dark_page s).andThen fun s =>
  if !flag then
    let tmp_trans_data_ptr := s.dmd_trans_data_ptr
    let s := { s with dmd_trans_data_ptr := s.dmd_trans_data_ptr2 }
    let s := wpc_dmd_set_high_page (s.dmd_composite_page + 1) s
    (dmd_do_transition_cycle descs Channel.bright s.dmd_bright_page new_bright_page s).andThen
      fun s =>
    let s := { s with dmd_trans_data_ptr2 := s.dmd_trans_data_ptr }
    let s := { s with dmd_trans_data_ptr := tmp_trans_data_ptr }
    let s := { s with dmd_dark_page := s.dmd_composite_page }
    Run.ret { s with dmd_bright_page := (s.dmd_composite_page + 1) % 256 }
  else
    let s := { s with dmd_bright_page := s.dmd_composite_page }
    Run.ret { s with dmd_dark_page := s.dmd_bright_page }

/-- One pass through the body of the `while (dmd_in_transition)` loop, lines 620-663
(without `STEP_TRANSITION`): the sleep, the allocation loop and the compositing.
`afuel` bounds the allocation retry loop.  While the task sleeps other tasks and the
interrupt handler run; they are not part of this function. -/
def dmd_transition_frame (descs : Nat → dmd_transition_t) (afuel : Nat) (flag : Bool)
    (new_dark_page new_bright_page : Nat) (s : DmdState) : Run :=
  match s.dmd_transition with
  | none => ⟨Status.null_deref, s, []⟩
  | some p =>
    (Run.mk Status.done s [Event.task_sleep (descs p).delay]).andThen fun s =>
    (dmd_alloc_composite afuel new_dark_page s).andThen
      (dmd_transition_composite descs flag new_dark_page new_bright_page)

/-- The loop `while (dmd_in_transition)` at lines 619-664; one unit of fuel is spent
per pass. -/
def dmd_transition_loop (descs : Nat → dmd_transition_t) (afuel : Nat) (flag : Bool)
    (new_dark_page new_bright_page : Nat) : Nat → DmdState → Run
  | 0, s => if s.dmd_in_transition then ⟨Status.out_of_fuel, s, []⟩ else Run.ret s
  | fuel + 1, s =>
    if s.dmd_in_transition then
      (dmd_transition_frame descs afuel flag new_dark_page new_bright_page s).andThen
        (dmd_transition_loop descs afuel flag new_dark_page new_bright_page fuel)
    else Run.ret s

/-- `dmd_do_transition` (lines 574-667).  `fuel` bounds the number of passes of the
main loop and, in each pass, the number of allocation attempts.
`wpc_push_page (TRANS_PAGE)` and `wpc_pop_page` switch the ROM bank holding the
callbacks and touch none of the DMD variables. -/
def dmd_do_transition (descs : Nat → dmd_transition_t) (fuel : Nat) (s : DmdState) : Run :=
  let s := { s with dmd_trans_data_ptr := 0 }
  let new_dark_page := s.dmd_low_page
  let new_bright_page := s.dmd_high_page
  let flag := one_copy_flag s
  let s := if flag then s else dmd_transition_normalize new_dark_page new_bright_page s
  match s.dmd_transition with
  | none => ⟨Status.null_deref, s, []⟩
  | some p =>
    ((match (descs p).composite_init with
      | none => Run.ret s
      | some f => Run.mk Status.done (f s) [Event.composite_init s]).andThen
      (dmd_transition_loop descs fuel flag new_dark_page new_bright_page fuel)).andThen
      fun s => Run.ret { s with dmd_transition := none }

/-- The state in which `dmd_do_transition` reaches line 614, before the first
callback: lines 576-612. -/
def dmd_transition_entry (s : DmdState) : DmdState :=
  let s := { s with dmd_trans_data_ptr := 0 }
  if one_copy_flag s then s
  else dmd_transition_normalize s.dmd_low_page s.dmd_high_page s

/-- Lines 616-617: the optional initializer, called in the state `s`. -/
def dmd_transition_init (t : dmd_transition_t) (s : DmdState) : Run :=
  match t.composite_init with
  | none => Run.ret s
  | some f => Run.mk Status.done (f s) [Event.composite_init s]

def dmd_show_low (descs : Nat → dmd_transition_t) (fuel : Nat) (s : DmdState) : Run :=
  if s.dmd_transition.isSome then dmd_do_transition descs fuel s
  else
    let s := { s with dmd_bright_page := s.dmd_low_page }
    Run.ret { s with dmd_dark_page := s.dmd_bright_page }

def dmd_show_high (descs : Nat → dmd_transition_t) (fuel : Nat) (s : DmdState) : Run :=
  if s.dmd_transition.isSome then dmd_do_transition descs fuel s
  else
    let s := { s with dmd_bright_page := s.dmd_high_page }
    Run.ret { s with dmd_dark_page := s.dmd_bright_page }

def dmd_show_other (descs : Nat → dmd_transition_t) (fuel : Nat) (s : DmdState) : Run :=
  if s.dmd_dark_page = s.dmd_low_page then dmd_show_high descs fuel s
  else dmd_show_low descs fuel s

def dmd_show2 (descs : Nat → dmd_transition_t) (fuel : Nat) (s : DmdState) : Run :=
  if s.dmd_transition.isSome then dmd_do_transition descs fuel s
  else
    let s := { s with dmd_dark_page := s.dmd_low_page }
    Run.ret { s with dmd_bright_page := s.dmd_high_page }

def dmd_sched_transition (trans : Option Nat) (s : DmdState) : DmdState :=
  let s := { s with dmd_transition := trans }
  { s with dmd_in_transition := true }

def dmd_reset_transition (s : DmdState) : DmdState :=
  let s := { s with dmd_in_transition := false }
  { s with dmd_transition := none }

/-! ## Reading traces -/

/-- An outside call without the state it carries. -/
inductive Call where
  | init
  | sleep (delay : Nat)
  | old (ch : Channel)
  | new (ch : Channel)
  deriving DecidableEq, Repr

def Event.call : Event → Call
  | Event.composite_init _ => Call.init
  | Event.task_sleep d => Call.sleep d
  | Event.composite_old ch _ => Call.old ch
  | Event.composite_new ch _ => Call.new ch

/-- The state in which the first descriptor callback of a trace was entered. -/
def first_callback : List Event → Option DmdState
  | [] => none
  | Event.task_sleep _ :: rest => first_callback rest
  | Event.composite_init s :: _ => some s
  | Event.composite_old _ s :: _ => some s
  | Event.composite_new _ s :: _ => some s

/-- The state in which the last descriptor callback of a trace was entered. -/
def last_callback (tr : List Event) : Option DmdState := first_callback tr.reverse

/-- The calls of one animation cycle: the sleep, the dark-channel pair and, unless
the one-copy flag is set, the bright-channel pair. -/
def cycle_calls (flag : Bool) (delay : Nat) : List Call :=
  if flag then [Call.sleep delay, Call.old Channel.dark, Call.new Channel.dark]
  else [Call.sleep delay, Call.old Channel.dark, Call.new Channel.dark,
        Call.old Channel.bright, Call.new Channel.bright]

/-- The calls made before the first cycle. -/
def init_calls (t : dmd_transition_t) : List Call :=
  match t.composite_init with
  | none => []
  | some _ => [Call.init]

/-! ## What the engine expects of a descriptor

The callbacks draw into the mapped pages, keep their progress in
`dmd_trans_data_ptr` and clear `dmd_in_transition` when the animation is over.  They
are expected to leave the engine's own variables alone. -/

/-- The function leaves the cursor, the mapping and visible page numbers, the composite
page number and the descriptor pointer unchanged. -/
structure KeepsEngineVars (f : DmdState → DmdState) : Prop where
  free_page : ∀ s, (f s).dmd_free_page = s.dmd_free_page
  low_page : ∀ s, (f s).dmd_low_page = s.dmd_low_page
  high_page : ∀ s, (f s).dmd_high_page = s.dmd_high_page
  dark_page : ∀ s, (f s).dmd_dark_page = s.dmd_dark_page
  bright_page : ∀ s, (f s).dmd_bright_page = s.dmd_bright_page
  composite_page : ∀ s, (f s).dmd_composite_page = s.dmd_composite_page
  transition : ∀ s, (f s).dmd_transition = s.dmd_transition

/-- Every callback of the descriptor keeps the engine's variables. -/
structure TransitionContract (t : dmd_transition_t) : Prop where
  init : ∀ f, t.composite_init = some f → KeepsEngineVars f
  old : KeepsEngineVars t.composite_old
  new : KeepsEngineVars t.composite_new

/-! ## Sample descriptor and states -/

/-- A descriptor without initializer that finishes in its second cycle:
`composite_old` starts the composite from the image mapped low, `composite_new`
counts its calls in `dmd_trans_data_ptr` and clears the flag at the second. -/
def two_step : dmd_transition_t :=
  { composite_init := none
    composite_old := fun s => dmd_copy_low_to_high s
    composite_new := fun s =>
      let s := { s with dmd_trans_data_ptr := s.dmd_trans_data_ptr + 1 }
      if 2 ≤ s.dmd_trans_data_ptr then { s with dmd_in_transition := false } else s
    delay := 1 }

/-- After reset, with every byte of page `p` holding `p`. -/
def numbered_pages : DmdState :=
  dmd_init { power_on with page_store := fun pg _ => pg }

/-- A mono image is on display (page 2), a 4-colour image has been allocated (pages
4 and 5) and a transition is scheduled. -/
def mono_to_color : DmdState :=
  dmd_sched_transition (some 0)
    (dmd_alloc_low_high
      (dmd_show_low (fun _ => two_step) 0 (dmd_alloc_low numbered_pages)).state)

/-- A 4-colour image is on display (pages 2 and 3), a second 4-colour image has been
allocated (pages 4 and 5) and a transition is scheduled. -/
def color_to_color : DmdState :=
  dmd_sched_transition (some 0)
    (dmd_alloc_low_high
      (dmd_show2 (fun _ => two_step) 0 (dmd_alloc_low_high numbered_pages)).state)

/-- A mono image is on display (page 2), a second mono image has been allocated
(page 4) and a transition is scheduled. -/
def mono_to_mono : DmdState :=
  dmd_sched_transition (some 0)
    (dmd_alloc_low
      (dmd_show_low (fun _ => two_step) 0 (dmd_alloc_low numbered_pages)).state)

/-- A 4-colour image has been shown from pages 2 and 3 and then its odd page alone
(`dmd_show_low`, then `dmd_show_other`, as the flashing score effect does); a 4-colour
image has been allocated (pages 4 and 5) and a transition is scheduled. -/
def odd_page_to_color : DmdState :=
  dmd_sched_transition (some 0)
    (dmd_alloc_low_high
      (dmd_show_other (fun _ => two_step) 0
        (dmd_show_low (fun _ => two_step) 0 (dmd_alloc_low_high numbered_pages)).state).state)

/-- The state after `n` rounds of `dmd_alloc_low_high` followed by `dmd_show2`. -/
def alloc_show2_times : Nat → DmdState → DmdState
  | 0, s => s
  | n + 1, s =>
    alloc_show2_times n (dmd_show2 (fun _ => two_step) 0 (dmd_alloc_low_high s)).state

/-- Six 4-colour images have been allocated and shown (pages 2 to 13); the seventh
is on pages 14 and 15 and its odd page alone is on display (`dmd_show_low`, then
`dmd_show_other`); a 4-colour image has been allocated (pages 0 and 1) and a transition
is scheduled. -/
def last_page_to_color : DmdState :=
  dmd_sched_transition (some 0)
    (dmd_alloc_low_high
      (dmd_show_other (fun _ => two_step) 0
        (dmd_show_low (fun _ => two_step) 0
          (dmd_alloc_low_high (alloc_show2_times 6 numbered_pages))).state).state)

/-! ## States reached without a transition -/

/-- States reached from `dmd_init` by the allocation functions and the show
functions alone.  No transition is ever scheduled, so every show is a cut. -/
inductive CutReachable (descs : Nat → dmd_transition_t) : DmdState → Prop where
  | init (s0 : DmdState) : CutReachable descs (dmd_init s0)
  | alloc_low (s : DmdState) : CutReachable descs s → CutReachable descs (dmd_alloc_low s)
  | alloc_high (s : DmdState) : CutReachable descs s → CutReachable descs (dmd_alloc_high s)
  | alloc_low_high (s : DmdState) :
      CutReachable descs s → CutReachable descs (dmd_alloc_low_high s)
  | show_low (s : DmdState) (fuel : Nat) :
      CutReachable descs s → CutReachable descs (dmd_show_low descs fuel s).state
  | show_high (s : DmdState) (fuel : Nat) :
      CutReachable descs s → CutReachable descs (dmd_show_high descs fuel s).state
  | show_other (s : DmdState) (fuel : Nat) :
      CutReachable descs s → CutReachable descs (dmd_show_other descs fuel s).state
  | show2 (s : DmdState) (fuel : Nat) :
      CutReachable descs s → CutReachable descs (dmd_show2 descs fuel s).state

/-! ## Real-time clock (`common/rtc.c`) -/

/-- The date variables of `rtc.c` (lines 40-45); the year is an offset from 2000. -/
structure RtcState where
  year : Nat
  month : Nat
  day : Nat
  hour : Nat
  day_of_week : Nat
  deriving DecidableEq, Repr

def days_in_month_table : List Nat := [31, 28, 31, 30, 31, 30, 31, 31, 30, 31, 30, 31]

def day_of_week_month_code : List Nat := [0, 3, 3, 6, 1, 4, 6, 2, 5, 0, 3, 5]

/-- `rtc_days_in_current_month` (lines 84-94).  The result is `none` when the index
`month-1` is outside the table. -/
def rtc_days_in_current_month (r : RtcState) : Option Nat :=
  if r.month = 0 then none
  else
    match days_in_month_table[r.month - 1]? with
    | none => none
    | some days =>
      if r.month = 2 ∧ r.year % 4 = 0 then some ((days + 1) % 256) else some days

/-- `rtc_calc_day_of_week` (lines 99-127), with the portable `day_of_week %= 7`.
Every `+=` and the `--` are done in a `U8`.  The result is `none` when the index
`month-1` is outside the table. -/
def rtc_calc_day_of_week (r : RtcState) : Option RtcState :=
  if r.month = 0 then none
  else
    match day_of_week_month_code[r.month - 1]? with
    | none => none
    | some code =>
      let day_of_week := r.year
      let day_of_week := (day_of_week + r.year / 4) % 256
      let day_of_week := (day_of_week + code) % 256
      let day_of_week := (day_of_week + r.day) % 256
      let day_of_week := (day_of_week + (if r.year % 4 ≠ 0 then 0 else 1)) % 256
      let day_of_week := (day_of_week + 255) % 256
      let day_of_week := day_of_week % 7
      some { r with day_of_week := day_of_week }

/-- `rtc_factory_reset` (lines 204-214): the date is set to 1 January 2006.  `minute`
and `last_minute` are not part of the date. -/
def rtc_factory_reset (r : RtcState) : Option RtcState :=
  let r := { r with year := 6 }
  let r := { r with month := 1 }
  let r := { r with day := 1 }
  let r := { r with hour := 0 }
  rtc_calc_day_of_week r

/-! ## The Gregorian calendar, for comparison -/

/-- The Gregorian leap-year rule, written from the calendar's definition. -/
def gregorian_leap_year (y : Nat) : Bool :=
  y % 4 = 0 ∧ (y % 100 ≠ 0 ∨ y % 400 = 0)

/-- Number of days of month `m` (1 to 12) of year `y`, written from the calendar. -/
def gregorian_days_in_month (y m : Nat) : Nat :=
  match m with
  | 1 => 31
  | 2 => if gregorian_leap_year y then 29 else 28
  | 3 => 31
  | 4 => 30
  | 5 => 31
  | 6 => 30
  | 7 => 31
  | 8 => 31
  | 9 => 30
  | 10 => 31
  | 11 => 30
  | 12 => 31
  | _ => 0

/-- Number of days in year `y`. -/
def gregorian_days_in_year (y : Nat) : Nat := if gregorian_leap_year y then 366 else 365

/-- Days from 1 January 2000 to the given date, counted month by month and year by
year. -/
def days_since_2000 (y m d : Nat) : Nat :=
  ((List.range (y - 2000)).map fun k => gregorian_days_in_year (2000 + k)).sum
    + ((List.range (m - 1)).map fun k => gregorian_days_in_month y (k + 1)).sum
    + (d - 1)

/-- Day of the week of a date from 2000 on, 0 = Sunday to 6 = Saturday, by counting
days from 1 January 2000, a Saturday. -/
def gregorian_day_of_week (y m d : Nat) : Nat := (6 + days_since_2000 y m d) % 7

/-! ## More drawing primitives (lines 330-345, 453-472) -/

/-- The inner loop of `dmd_erase_region`,
`for (i = 0; i < (width / 8) / 2; i++) dbuf[x + i] = 0`, with `todo` passes left. -/
def dmd_erase_region_row (dbuf x : Nat) : Nat → Nat → (Nat → Nat) → (Nat → Nat)
  | 0, _, buf => buf
  | todo + 1, i, buf =>
    dmd_erase_region_row dbuf x todo (i + 1) (store16 buf (dbuf + 2 * (x + i)) 0 0)

/-- The outer loop of `dmd_erase_region`, `for (j = 0; j < height; j++)`, with `todo`
passes left; after each row `dbuf += 16 / 2` words. -/
def dmd_erase_region_rows (x width : Nat) : Nat → Nat → (Nat → Nat) → (Nat → Nat)
  | 0, _, buf => buf
  | todo + 1, dbuf, buf =>
    dmd_erase_region_rows x width todo (dbuf + 2 * (16 / 2))
      (dmd_erase_region_row dbuf x (width / 8 / 2) 0 buf)

/-- `dmd_erase_region (x, y, width, height)`, with the addressing of
`dmd_draw_bitmap`: `dbuf` starts `(16 / 2) * y` bytes into the page mapped low. -/
def dmd_erase_region (x y width height : Nat) (s : DmdState) : DmdState :=
  let erased :=
    dmd_erase_region_rows x width height ((16 / 2) * y) (s.page_store (dmd_low_buffer s))
  { s with page_store := fun pg off =>
      if pg = dmd_low_buffer s then erased off else s.page_store pg off }

/-- Load of the 16-bit word at byte offset `off`, from its two bytes. -/
def load16 (buf : Nat → Nat) (off : Nat) : Nat :=
  buf off % 256 + 256 * (buf (off + 1) % 256)

/-- `*dbuf16 = ~*dbuf16` on a `uint16_t` at byte offset `off`: the word is loaded,
complemented in 16 bits and stored back as its two bytes. -/
def invert16 (buf : Nat → Nat) (off : Nat) : Nat → Nat :=
  fun k =>
    if k = off then (65535 - load16 buf off) % 256
    else if k = off + 1 then (65535 - load16 buf off) / 256
    else buf k

/-- The loop of `dmd_invert_page`, `while (--count >= 0)`, entered with the value of
`count` before the decrement: it ends when that value is 0, and each pass complements
four words and leaves `dbuf16` four words further. -/
def dmd_invert_page_loop : Nat → Nat → (Nat → Nat) → (Nat → Nat)
  | 0, _, buf => buf
  | count + 1, dbuf16, buf =>
    let buf := invert16 buf dbuf16
    let dbuf16 := dbuf16 + 2
    let buf := invert16 buf dbuf16
    let dbuf16 := dbuf16 + 2
    let buf := invert16 buf dbuf16
    let dbuf16 := dbuf16 + 2
    let buf := invert16 buf dbuf16
    let dbuf16 := dbuf16 + 2
    dmd_invert_page_loop count dbuf16 buf

/-- `dmd_invert_page (dbuf)` on the page `dbuf`, with
`count = DMD_PAGE_SIZE / (2 * 4)`. -/
def dmd_invert_page (dbuf : Nat) (s : DmdState) : DmdState :=
  let inverted := dmd_invert_page_loop (DMD_PAGE_SIZE / (2 * 4)) 0 (s.page_store dbuf)
  { s with page_store := fun pg off =>
      if pg = dbuf then inverted off else s.page_store pg off }

/-! ## Real-time clock: the 6809 modulo, normalization (lines 115-166, 301-307) -/

/-- The loop that replaces `day_of_week %= 7` on the 6809 (lines 118-124).  The
subtractions do not wrap: the value is at least 7, or above 64, when they are made. -/
def rtc_mod7_6809 (day_of_week : Nat) : Nat :=
  if day_of_week ≥ 7 then
    if day_of_week > 64 then rtc_mod7_6809 (day_of_week - (64 - 1))
    else rtc_mod7_6809 (day_of_week - 7)
  else day_of_week
termination_by day_of_week
decreasing_by all_goals omega

/-- `rtc_calc_day_of_week` as compiled for the 6809 (`__m6809__` defined). -/
def rtc_calc_day_of_week_6809 (r : RtcState) : Option RtcState :=
  if r.month = 0 then none
  else
    match day_of_week_month_code[r.month - 1]? with
    | none => none
    | some code =>
      let day_of_week := r.year
      let day_of_week := (day_of_week + r.year / 4) % 256
      let day_of_week := (day_of_week + code) % 256
      let day_of_week := (day_of_week + r.day) % 256
      let day_of_week := (day_of_week + (if r.year % 4 ≠ 0 then 0 else 1)) % 256
      let day_of_week := (day_of_week + 255) % 256
      let day_of_week := rtc_mod7_6809 day_of_week
      some { r with day_of_week := day_of_week }

/-- The loop `while (hour >= 24)` of `rtc_normalize` (lines 133-154); `clk` is the
hardware register `WPC_CLK_HOURS_DAYS`.  One unit of fuel is spent per pass; the
result is `none` when the fuel runs out or a table is read outside its bounds. -/
def rtc_normalize_loop : Nat → RtcState → Nat → Option (RtcState × Nat)
  | 0, r, clk => if r.hour ≥ 24 then none else some (r, clk)
  | fuel + 1, r, clk =>
    if r.hour ≥ 24 then
      let r := { r with hour := r.hour - 24 }
      let clk := (clk + 256 - 24) % 256
      let r := { r with day := (r.day + 1) % 256 }
      match rtc_days_in_current_month r with
      | none => none
      | some days =>
        let r :=
          if r.day > days then
            let r := { r with day := 1 }
            let r := { r with month := (r.month + 1) % 256 }
            if r.month > 12 then
              let r := { r with month := 1 }
              { r with year := (r.year + 1) % 256 }
            else r
          else r
        match rtc_calc_day_of_week r with
        | none => none
        | some r => rtc_normalize_loop fuel r clk
    else some (r, clk)

/-- `rtc_normalize` (lines 130-166).  `wpc_nvram_get`, `wpc_nvram_put` and
`csum_area_update` unlock the memory and refresh the checksum; they do not change the
date. -/
def rtc_normalize (fuel : Nat) (r : RtcState) (clk : Nat) : Option (RtcState × Nat) :=
  match rtc_normalize_loop fuel r clk with
  | none => none
  | some (r, clk) =>
    let r := if r.month < 1 ∨ r.month > 12 then { r with month := 1 } else r
    let r := if r.day < 1 ∨ r.day > 31 then { r with day := 1 } else r
    some (r, clk)

/-- `rtc_advance_day` (lines 301-307). -/
def rtc_advance_day (fuel : Nat) (r : RtcState) (clk : Nat) : Option (RtcState × Nat) :=
  let r := { r with hour := (r.hour + 24) % 256 }
  rtc_normalize fuel r clk

/-- A date of the years 2000 to 2099 as the clock stores it: year offset below 100,
month from 1 to 12, day from 1 to the length of the month in the calendar. -/
def RtcState.valid (r : RtcState) : Prop :=
  r.year < 100 ∧ 1 ≤ r.month ∧ r.month ≤ 12 ∧ 1 ≤ r.day
    ∧ r.day ≤ gregorian_days_in_month (2000 + r.year) r.month

/-- Number of the stored date's day, counted from 1 January 2000. -/
def RtcState.day_number (r : RtcState) : Nat := days_since_2000 (2000 + r.year) r.month r.day

/-- The day after the date `(year, month, day)` in the calendar: the next day of the
month, else the first of the next month, else 1 January of the next year. -/
def gregorian_next_day (date : Nat × Nat × Nat) : Nat × Nat × Nat :=
  if date.2.2 < gregorian_days_in_month date.1 date.2.1 then (date.1, date.2.1, date.2.2 + 1)
  else if date.2.1 < 12 then (date.1, date.2.1 + 1, 1)
  else (date.1 + 1, 1, 1)

/-- The stored date as year, month and day of the calendar. -/
def RtcState.date (r : RtcState) : Nat × Nat × Nat := (2000 + r.year, r.month, r.day)

/-! ## States reached with transitions -/

/-- States reached from `dmd_init` by scheduling a transition with a descriptor,
resetting, allocating and showing.  A show counts when it returns: a transition it
runs has ended because the flag was cleared. -/
inductive EngineReachable (descs : Nat → dmd_transition_t) : DmdState → Prop where
  | init (s0 : DmdState) : EngineReachable descs (dmd_init s0)
  | sched (s : DmdState) (p : Nat) :
      EngineReachable descs s → EngineReachable descs (dmd_sched_transition (some p) s)
  | reset (s : DmdState) :
      EngineReachable descs s → EngineReachable descs (dmd_reset_transition s)
  | alloc_low (s : DmdState) :
      EngineReachable descs s → EngineReachable descs (dmd_alloc_low s)
  | alloc_high (s : DmdState) :
      EngineReachable descs s → EngineReachable descs (dmd_alloc_high s)
  | alloc_low_high (s : DmdState) :
      EngineReachable descs s → EngineReachable descs (dmd_alloc_low_high s)
  | show_low (s : DmdState) (fuel : Nat) :
      EngineReachable descs s → (dmd_show_low descs fuel s).status = Status.done →
      EngineReachable descs (dmd_show_low descs fuel s).state
  | show_high (s : DmdState) (fuel : Nat) :
      EngineReachable descs s → (dmd_show_high descs fuel s).status = Status.done →
      EngineReachable descs (dmd_show_high descs fuel s).state
  | show_other (s : DmdState) (fuel : Nat) :
      EngineReachable descs s → (dmd_show_other descs fuel s).status = Status.done →
      EngineReachable descs (dmd_show_other descs fuel s).state
  | show2 (s : DmdState) (fuel : Nat) :
      EngineReachable descs s → (dmd_show2 descs fuel s).status = Status.done →
      EngineReachable descs (dmd_show2 descs fuel s).state

/-- The body of the main loop of `dmd_do_transition` run `k` times in a row, without
the test of `dmd_in_transition` between the passes: the state and the calls after `k`
animation cycles. -/
def dmd_transition_frames (descs : Nat → dmd_transition_t) (afuel : Nat) (flag : Bool)
    (new_dark_page new_bright_page : Nat) : Nat → DmdState → Run
  | 0, s => Run.ret s
  | k + 1, s =>
    (dmd_transition_frame descs afuel flag new_dark_page new_bright_page s).andThen
      (dmd_transition_frames descs afuel flag new_dark_page new_bright_page k)

/-! ## Reading the cycles of a trace -/

/-- The page mapping of the cycles of a trace.  `dark` and `bright` are the pages on
display when the cycle starts.  In each cycle the dark-channel `composite_old` is
entered with the composite page mapped high and the displayed dark page mapped low,
the dark-channel `composite_new` with the composite page mapped high and
`new_dark_page` mapped low; without the one-copy flag the bright-channel
`composite_old` is then entered with the page after the composite page mapped high and
the displayed bright page mapped low, and the bright-channel `composite_new` with the
same high page and `new_bright_page` mapped low.  The next cycle starts with the
composite pages of this one on display. -/
def cycles_mapped (new_dark_page new_bright_page : Nat) :
    Bool → Nat → Nat → List Event → Prop
  | _, _, _, [] => True
  | true, dark, bright, Event.task_sleep _ :: Event.composite_old Channel.dark e1 ::
      Event.composite_new Channel.dark e2 :: rest =>
    e1.dmd_dark_page = dark ∧ e1.dmd_bright_page = bright
    ∧ e1.dmd_high_page = e1.dmd_composite_page ∧ e1.dmd_low_page = dark
    ∧ e2.dmd_composite_page = e1.dmd_composite_page
    ∧ e2.dmd_high_page = e1.dmd_composite_page ∧ e2.dmd_low_page = new_dark_page
    ∧ cycles_mapped new_dark_page new_bright_page true e1.dmd_composite_page
        e1.dmd_composite_page rest
  | false, dark, bright, Event.task_sleep _ :: Event.composite_old Channel.dark e1 ::
      Event.composite_new Channel.dark e2 :: Event.composite_old Channel.bright e3 ::
      Event.composite_new Channel.bright e4 :: rest =>
    e1.dmd_dark_page = dark ∧ e1.dmd_bright_page = bright
    ∧ e1.dmd_high_page = e1.dmd_composite_page ∧ e1.dmd_low_page = dark
    ∧ e2.dmd_composite_page = e1.dmd_composite_page
    ∧ e2.dmd_high_page = e1.dmd_composite_page ∧ e2.dmd_low_page = new_dark_page
    ∧ e3.dmd_composite_page = e1.dmd_composite_page ∧ e3.dmd_bright_page = bright
    ∧ e3.dmd_high_page = e1.dmd_composite_page + 1 ∧ e3.dmd_low_page = bright
    ∧ e4.dmd_composite_page = e1.dmd_composite_page
    ∧ e4.dmd_high_page = e1.dmd_composite_page + 1 ∧ e4.dmd_low_page = new_bright_page
    ∧ cycles_mapped new_dark_page new_bright_page false e1.dmd_composite_page
        (e1.dmd_composite_page + 1) rest
  | _, _, _, _ => False

/-- The callbacks of the descriptor leave `dmd_trans_data_ptr2` alone: their private
pointer is `dmd_trans_data_ptr`, the second variable is where the engine keeps the
pointer of the channel that is not running. -/
structure KeepsSecondPointer (t : dmd_transition_t) : Prop where
  old : ∀ s, (t.composite_old s).dmd_trans_data_ptr2 = s.dmd_trans_data_ptr2
  new : ∀ s, (t.composite_new s).dmd_trans_data_ptr2 = s.dmd_trans_data_ptr2

/-- The private pointer seen by the two channels through the cycles of a two-channel
trace.  `dark_ptr` and `bright_ptr` are the values the channels start the cycle with.
In each cycle `composite_old` of a channel is entered with the channel's value,
`composite_new` with what `composite_old` left, and the next cycle starts with what
the two `composite_new` calls left. -/
def pointers_threaded (t : dmd_transition_t) : Nat → Nat → List Event → Prop
  | _, _, [] => True
  | dark_ptr, bright_ptr, Event.task_sleep _ :: Event.composite_old Channel.dark e1 ::
      Event.composite_new Channel.dark e2 :: Event.composite_old Channel.bright e3 ::
      Event.composite_new Channel.bright e4 :: rest =>
    e1.dmd_trans_data_ptr = dark_ptr
    ∧ e2.dmd_trans_data_ptr = (t.composite_old e1).dmd_trans_data_ptr
    ∧ e3.dmd_trans_data_ptr = bright_ptr
    ∧ e4.dmd_trans_data_ptr = (t.composite_old e3).dmd_trans_data_ptr
    ∧ pointers_threaded t (t.composite_new e2).dmd_trans_data_ptr
        (t.composite_new e4).dmd_trans_data_ptr rest
  | _, _, _ => False

/-- The value of `dmd_trans_data_ptr` a callback was entered with. -/
def Event.data_ptr : Event → Option Nat
  | Event.composite_init s => some s.dmd_trans_data_ptr
  | Event.task_sleep _ => none
  | Event.composite_old _ s => some s.dmd_trans_data_ptr
  | Event.composite_new _ s => some s.dmd_trans_data_ptr

/-- The descriptor `two_step` with an initializer that starts the call count at one. -/
def primed_step : dmd_transition_t :=
  { two_step with
    composite_init := some fun s => { s with dmd_trans_data_ptr := 1 } }

/-! ## The caller pattern: allocate, draw, show -/

/-- One round of the caller pattern up to the show: `dmd_alloc_low_high` for a
4-colour image (`two`) or `dmd_alloc_low` for a mono image, the drawing, which leaves
`store` in the pages, and optionally `dmd_sched_transition`. -/
def pattern_draw (two : Bool) (store : Nat → Nat → Nat) (trans : Option Nat)
    (s : DmdState) : DmdState :=
  let s := if two then dmd_alloc_low_high s else dmd_alloc_low s
  let s := { s with page_store := store }
  match trans with
  | none => s
  | some p => dmd_sched_transition (some p) s

/-- The show that ends a round: `dmd_show2` for a 4-colour image, `dmd_show_low` for
a mono image. -/
def pattern_show (descs : Nat → dmd_transition_t) (fuel : Nat) (two : Bool)
    (s : DmdState) : Run :=
  if two then dmd_show2 descs fuel s else dmd_show_low descs fuel s

/-- States reached from `dmd_init` by whole rounds of the caller pattern.  Each show
has returned, and a show with a scheduled transition has ended in the way of the
engine: by a `composite_new` call, after which the flag was found clear. -/
inductive PatternReachable (descs : Nat → dmd_transition_t) : DmdState → Prop where
  | init (s0 : DmdState) : PatternReachable descs (dmd_init s0)
  | round (s : DmdState) (two : Bool) (store : Nat → Nat → Nat) (trans : Option Nat)
      (fuel : Nat) :
      PatternReachable descs s →
      (pattern_show descs fuel two (pattern_draw two store trans s)).status = Status.done →
      (trans ≠ none → ∃ ch e, Event.composite_new ch e
        ∈ (pattern_show descs fuel two (pattern_draw two store trans s)).trace) →
      PatternReachable descs (pattern_show descs fuel two (pattern_draw two store trans s)).state

/-- What a call says about the pages being written.  For a compositor callback: the
page mapped high, where it writes, is the composite page or the one after it, these
two are pages of the pool, and neither is `dmd_dark_page` or `dmd_bright_page`, the
pages on display while the callback runs.  Other calls write no page. -/
def Event.writes_hidden : Event → Prop
  | Event.composite_init _ => True
  | Event.task_sleep _ => True
  | Event.composite_old _ s =>
    (s.dmd_high_page = s.dmd_composite_page ∨ s.dmd_high_page = s.dmd_composite_page + 1)
    ∧ s.dmd_composite_page + 1 < DMD_PAGE_COUNT
    ∧ s.dmd_composite_page ≠ s.dmd_dark_page ∧ s.dmd_composite_page ≠ s.dmd_bright_page
    ∧ s.dmd_composite_page + 1 ≠ s.dmd_dark_page
    ∧ s.dmd_composite_page + 1 ≠ s.dmd_bright_page
  | Event.composite_new _ s =>
    (s.dmd_high_page = s.dmd_composite_page ∨ s.dmd_high_page = s.dmd_composite_page + 1)
    ∧ s.dmd_composite_page + 1 < DMD_PAGE_COUNT
    ∧ s.dmd_composite_page ≠ s.dmd_dark_page ∧ s.dmd_composite_page ≠ s.dmd_bright_page
    ∧ s.dmd_composite_page + 1 ≠ s.dmd_dark_page
    ∧ s.dmd_composite_page + 1 ≠ s.dmd_bright_page

/-- The maximum number of balls that can be tracked in simulation. -/
abbrev SIM_MAX_BALLS : Nat := 8

abbrev MAX_BALL_LOCATIONS : Nat := 128

abbrev SIM_LOCATION_NONE : Nat := 0

abbrev SIM_NO_BALL_HERE : Int := -1

/-- The two tables of `ball.c` (lines 25 and 33), by index, and the calls made to
`sim_switch_toggle`, oldest first. -/
structure SimBalls where
  /-- Location of each ball; 0 means the ball is untracked. -/
  sim_ball_location : Nat → Nat
  /-- Ball at each location; -1 means no ball is there. -/
  sim_location_ball : Nat → Int
  switch_toggles : List Nat

/-- Memory before `sim_ball_init` runs: static storage is zero. -/
def sim_power_on : SimBalls :=
  { sim_ball_location := fun _ => 0, sim_location_ball := fun _ => 0, switch_toggles := [] }

/-- `sim_location_toggle`; `NUM_SWITCHES` is a constant of the machine description. -/
def sim_location_toggle (NUM_SWITCHES location : Nat) (s : SimBalls) : SimBalls :=
  if location < NUM_SWITCHES then { s with switch_toggles := s.switch_toggles ++ [location] }
  else s

/-- `sim_ball_move` (lines 56-74).  The result is `none` when an index is outside its
table.  `ui_update_ball_tracker` and `simlog` report the move and change neither
table. -/
def sim_ball_move (NUM_SWITCHES ballno location : Nat) (s : SimBalls) : Option SimBalls :=
  if ballno < SIM_MAX_BALLS ∧ location < MAX_BALL_LOCATIONS then
    let prev_location := s.sim_ball_location ballno
    let s :=
      if prev_location ≠ SIM_LOCATION_NONE then
        let s := sim_location_toggle NUM_SWITCHES prev_location s
        { s with sim_location_ball := fun l =>
            if l = location then SIM_NO_BALL_HERE else s.sim_location_ball l }
      else s
    let s := sim_location_toggle NUM_SWITCHES location s
    let s := { s with sim_ball_location := fun b =>
        if b = ballno then location else s.sim_ball_location b }
    some { s with sim_location_ball := fun l =>
        if l = location then (ballno : Int) else s.sim_location_ball l }
  else none

/-- The first loop of `sim_ball_init`, `for (n = 0; n < MAX_BALL_LOCATIONS; n++)`,
with `todo` passes left. -/
def sim_ball_init_locations : Nat → Nat → (Nat → Int) → (Nat → Int)
  | 0, _, tbl => tbl
  | todo + 1, n, tbl =>
    sim_ball_init_locations todo (n + 1) (fun l => if l = n then SIM_NO_BALL_HERE else tbl l)

/-- The second loop of `sim_ball_init`, `for (n = 0; n < SIM_MAX_BALLS; n++)`, with
`todo` passes left. -/
def sim_ball_init_balls : Nat → Nat → (Nat → Nat) → (Nat → Nat)
  | 0, _, tbl => tbl
  | todo + 1, n, tbl =>
    sim_ball_init_balls todo (n + 1) (fun b => if b = n then SIM_LOCATION_NONE else tbl b)

/-- `sim_ball_init` (lines 83-93). -/
def sim_ball_init (s : SimBalls) : SimBalls :=
  let s := { s with sim_location_ball :=
    sim_ball_init_locations MAX_BALL_LOCATIONS 0 s.sim_location_ball }
  { s with sim_ball_location := sim_ball_init_balls SIM_MAX_BALLS 0 s.sim_ball_location }

/-! ## Chaos multiball (`machine/tz/chaosmb.c`) -/

/-- The flag `FLAG_CHAOSMB_RUNNING` and the two `U8` variables of the mode (lines
79-81). -/
structure ChaosState where
  flag_chaosmb_running : Bool
  chaosmb_level : Nat
  chaosmb_hits_to_relight : Nat
  deriving DecidableEq, Repr

/-- The table `chaosmb_shots` (lines 83-94): shot name and jackpot value. -/
def chaosmb_shots : List (String × Nat) :=
  [("LEFT RAMP", 15), ("RIGHT RAMP", 20), ("PIANO", 25), ("HITCHHIKER", 30),
   ("POWER PAYOFF", 40), ("DEAD END", 50)]

/-- What `chaosmb_running_deff` prints on its last line: `SHOOT` with a shot name, or
`HIT CLOCK n MORE TIMES`. -/
inductive DeffText where
  | shoot (shot_name : String)
  | hit_clock (hits : Nat)
  deriving DecidableEq, Repr

/-- One pass of the loop of `chaosmb_running_deff` (lines 108-119): the arguments of
the `sprintf` call.  The result is `none` when `chaosmb_shots` is read outside its
bounds.  The score display around it does not use the variables of the mode. -/
def chaosmb_running_deff_pass (s : ChaosState) : Option DeffText :=
  if s.chaosmb_hits_to_relight = 0 then
    match chaosmb_shots[s.chaosmb_level]? with
    | some shot => some (DeffText.shoot shot.1)
    | none => none
  else some (DeffText.hit_clock s.chaosmb_hits_to_relight)

/-- `chaosmb_score_jackpot` (lines 124-129); `sound_send` changes no variable of the
mode. -/
def chaosmb_score_jackpot (s : ChaosState) : ChaosState :=
  let s := { s with chaosmb_level := (s.chaosmb_level + 1) % 256 }
  { s with chaosmb_hits_to_relight := (s.chaosmb_level * 2) % 256 }

/-- `multiball_mode_start (FLAG_CHAOSMB_RUNNING, DEFF_CHAOSMB_RUNNING, 0,
MUS_SPIRAL_ROUND)` (lines 28-50): the returned value and the flag.  Starting the
display effect and the music changes no variable of the mode. -/
def multiball_mode_start (s : ChaosState) : Bool × ChaosState :=
  if !s.flag_chaosmb_running then (true, { s with flag_chaosmb_running := true })
  else (false, s)

/-- `chaosmb_start` (lines 133-141). -/
def chaosmb_start (s : ChaosState) : ChaosState :=
  let (started, s) := multiball_mode_start s
  if started then
    let s := { s with chaosmb_level := 0 }
    { s with chaosmb_hits_to_relight := 0 }
  else s

/-- `chaosmb_check_level` (lines 151-158). -/
def chaosmb_check_level (level : Nat) (s : ChaosState) : ChaosState :=
  if s.flag_chaosmb_running ∧ s.chaosmb_level = level then chaosmb_score_jackpot s
  else s

def chaosmb_sw_left_ramp_exit (s : ChaosState) : ChaosState := chaosmb_check_level 0 s

def chaosmb_sw_right_ramp (s : ChaosState) : ChaosState := chaosmb_check_level 1 s

def chaosmb_sw_piano (s : ChaosState) : ChaosState := chaosmb_check_level 2 s

def chaosmb_sw_hitchhiker (s : ChaosState) : ChaosState := chaosmb_check_level 3 s

def chaosmb_sw_power_payoff (s : ChaosState) : ChaosState := chaosmb_check_level 4 s

def chaosmb_sw_dead_end (s : ChaosState) : ChaosState := chaosmb_check_level 5 s

/-- The handler of `sw_clock_target` (lines 196-207).  The decrement is made with
`chaosmb_hits_to_relight > 0`, so it does not wrap. -/
def chaosmb_sw_clock_target (s : ChaosState) : ChaosState :=
  if s.flag_chaosmb_running ∧ s.chaosmb_hits_to_relight > 0 then
    let s := { s with chaosmb_hits_to_relight := s.chaosmb_hits_to_relight - 1 }
    if s.chaosmb_hits_to_relight = 0 then
      { s with chaosmb_level := (s.chaosmb_level + 1) % 256 }
    else s
  else s

/-- States reached from `chaosmb_start`, called with the mode not running, through
the handlers of the six shots and of the clock target. -/
inductive ChaosReachable : ChaosState → Prop where
  | start (s0 : ChaosState) :
      s0.flag_chaosmb_running = false → ChaosReachable (chaosmb_start s0)
  | left_ramp_exit (s : ChaosState) :
      ChaosReachable s → ChaosReachable (chaosmb_sw_left_ramp_exit s)
  | right_ramp (s : ChaosState) : ChaosReachable s → ChaosReachable (chaosmb_sw_right_ramp s)
  | piano (s : ChaosState) : ChaosReachable s → ChaosReachable (chaosmb_sw_piano s)
  | hitchhiker (s : ChaosState) : ChaosReachable s → ChaosReachable (chaosmb_sw_hitchhiker s)
  | power_payoff (s : ChaosState) :
      ChaosReachable s → ChaosReachable (chaosmb_sw_power_payoff s)
  | dead_end (s : ChaosState) : ChaosReachable s → ChaosReachable (chaosmb_sw_dead_end s)
  | clock_target (s : ChaosState) :
      ChaosReachable s → ChaosReachable (chaosmb_sw_clock_target s)

/-- A new game: the mode is not running and its variables are zero. -/
def chaos_power_on : ChaosState :=
  { flag_chaosmb_running := false, chaosmb_level := 0, chaosmb_hits_to_relight := 0 }

/-- The mode is started and the jackpot is collected each time it is lit: the shot
on display (left ramp), two clock hits, the shot on display (piano), six clock hits,
the shot on display (power payoff), ten clock hits. -/
def chaos_third_relight : ChaosState :=
  Nat.iterate chaosmb_sw_clock_target 10
    (chaosmb_sw_power_payoff
      (Nat.iterate chaosmb_sw_clock_target 6
        (chaosmb_sw_piano
          (Nat.iterate chaosmb_sw_clock_target 2
            (chaosmb_sw_left_ramp_exit (chaosmb_start chaos_power_on))))))

/-! ## Page allocator: the returned sequence -/

theorem dmd_alloc_free_page (s : DmdState) :
    (dmd_alloc s).2.dmd_free_page = (s.dmd_free_page + 2) % 256 % 16 := rfl

theorem dmd_alloc_times_free_page (n : Nat) (s : DmdState) (h : s.dmd_free_page < 16) :
    (dmd_alloc_times n s).dmd_free_page = (s.dmd_free_page + 2 * n) % 16 := by
  induction n generalizing s with
  | zero => simp [dmd_alloc_times]; omega
  | succ n ih =>
    have hlt : (dmd_alloc s).2.dmd_free_page < 16 := by
      rw [dmd_alloc_free_page]; omega
    rw [dmd_alloc_times, ih _ hlt, dmd_alloc_free_page]
    omega

theorem dmd_alloc_times_succ (n : Nat) (s : DmdState) :
    dmd_alloc_times (n + 1) s = (dmd_alloc (dmd_alloc_times n s)).2 := by
  induction n generalizing s with
  | zero => rfl
  | succ n ih => rw [dmd_alloc_times, ih, dmd_alloc_times]

theorem dmd_alloc_nth_eq (n : Nat) (s : DmdState) (h : s.dmd_free_page < 16) :
    dmd_alloc_nth n s = (s.dmd_free_page + 2 * n) % 16 := by
  have := dmd_alloc_times_free_page n s h
  simpa [dmd_alloc_nth, dmd_alloc] using this

/-- C1: from a cursor `c < DMD_PAGE_COUNT`, call number `n + 1` of `dmd_alloc` returns
`(c + 2n) mod 16` and leaves the cursor at `(c + 2(n+1)) mod 16`; consecutive results
differ by 2 modulo 16, the sequence repeats after 8 calls and not earlier, and from
the `dmd_init` cursor it reads 2, 4, ..., 14, 0, 2. -/
theorem dmd_alloc_sequence (s : DmdState) (n : Nat) (h : s.dmd_free_page < DMD_PAGE_COUNT) :
    dmd_alloc_nth n s = (s.dmd_free_page + 2 * n) % 16
    ∧ (dmd_alloc (dmd_alloc_times n s)).2.dmd_free_page = (s.dmd_free_page + 2 * (n + 1)) % 16
    ∧ dmd_alloc_nth (n + 1) s = (dmd_alloc_nth n s + 2) % 16
    ∧ dmd_alloc_nth (n + 8) s = dmd_alloc_nth n s
    ∧ (∀ k, 0 < k → k < 8 → dmd_alloc_nth (n + k) s ≠ dmd_alloc_nth n s)
    ∧ (List.range 9).map (fun i => dmd_alloc_nth i (dmd_init s)) = [2, 4, 6, 8, 10, 12, 14, 0, 2] := by
  have h16 : s.dmd_free_page < 16 := h
  refine ⟨dmd_alloc_nth_eq n s h16, ?_, ?_, ?_, ?_, ?_⟩
  · have := dmd_alloc_times_free_page (n + 1) s h16
    rwa [dmd_alloc_times_succ] at this
  · rw [dmd_alloc_nth_eq _ s h16, dmd_alloc_nth_eq _ s h16]; omega
  · rw [dmd_alloc_nth_eq _ s h16, dmd_alloc_nth_eq _ s h16]; omega
  · intro k hk0 hk8
    rw [dmd_alloc_nth_eq _ s h16, dmd_alloc_nth_eq _ s h16]; omega
  · have h2 : (dmd_init s).dmd_free_page = 2 := rfl
    have hn : ∀ i, dmd_alloc_nth i (dmd_init s) = (2 + 2 * i) % 16 := fun i => by
      rw [dmd_alloc_nth_eq i (dmd_init s) (by rw [h2]; decide), h2]
    simp only [hn]
    decide

theorem dmd_alloc_sequence_witness :
    (dmd_init power_on).dmd_free_page < DMD_PAGE_COUNT
    ∧ dmd_alloc_nth 9 (dmd_init power_on) = 4
    ∧ dmd_alloc_nth 17 (dmd_init power_on) = dmd_alloc_nth 9 (dmd_init power_on) :=
  ⟨by decide, (dmd_alloc_sequence (dmd_init power_on) 9 (by decide)).1,
    (dmd_alloc_sequence (dmd_init power_on) 9 (by decide)).2.2.2.1⟩

/-! ## Flicker driver: the 1-of-3 duty cycle -/

theorem dmd_rtt_times_succ (n : Nat) (s : DmdState) :
    dmd_rtt_times (n + 1) s = (dmd_rtt (dmd_rtt_times n s)).2 := by
  induction n generalizing s with
  | zero => rfl
  | succ n ih => rw [dmd_rtt_times, ih, dmd_rtt_times]

theorem dmd_rtt_pages (s : DmdState) :
    (dmd_rtt s).2.dmd_dark_page = s.dmd_dark_page
    ∧ (dmd_rtt s).2.dmd_bright_page = s.dmd_bright_page := by
  unfold dmd_rtt
  split <;> exact ⟨rfl, rfl⟩

theorem dmd_rtt_times_pages (n : Nat) (s : DmdState) :
    (dmd_rtt_times n s).dmd_dark_page = s.dmd_dark_page
    ∧ (dmd_rtt_times n s).dmd_bright_page = s.dmd_bright_page := by
  induction n generalizing s with
  | zero => exact ⟨rfl, rfl⟩
  | succ n ih =>
    rw [dmd_rtt_times, (ih _).1, (ih _).2]
    exact dmd_rtt_pages s

/-- The three branches taken from a state, as a function of the counter. -/
theorem dmd_rtt_window (t : DmdState) :
    ((dmd_rtt t).1, (dmd_rtt (dmd_rtt t).2).1, (dmd_rtt (dmd_rtt (dmd_rtt t).2).2).1)
      = if 2 ≤ t.dmd_page_flip_count then (Shown.dark, Shown.bright, Shown.bright)
        else if t.dmd_page_flip_count = 0 then (Shown.bright, Shown.bright, Shown.dark)
        else (Shown.bright, Shown.dark, Shown.bright) := by
  by_cases h2 : 2 ≤ t.dmd_page_flip_count
  · simp [dmd_rtt, h2, wpc_dmd_set_firq_row, wpc_dmd_set_visible_page]
  · by_cases h0 : t.dmd_page_flip_count = 0
    · simp [dmd_rtt, h0, wpc_dmd_set_firq_row, wpc_dmd_set_visible_page]
    · have h1 : t.dmd_page_flip_count = 1 := by omega
      simp [dmd_rtt, h1, wpc_dmd_set_firq_row, wpc_dmd_set_visible_page]

theorem dmd_rtt_times_init_count (n : Nat) (s : DmdState) :
    (dmd_rtt_times n (dmd_init s)).dmd_page_flip_count
      = if n % 3 = 0 then 2 else if n % 3 = 1 then 0 else 1 := by
  induction n with
  | zero => rfl
  | succ n ih =>
    rw [dmd_rtt_times_succ]
    have h3 : n % 3 = 0 ∨ n % 3 = 1 ∨ n % 3 = 2 := by omega
    rcases h3 with h3 | h3 | h3
    · have e : (n + 1) % 3 = 1 := by omega
      simp [dmd_rtt, ih, h3, e, wpc_dmd_set_firq_row, wpc_dmd_set_visible_page]
    · have e : (n + 1) % 3 = 2 := by omega
      simp [dmd_rtt, ih, h3, e, wpc_dmd_set_firq_row, wpc_dmd_set_visible_page]
    · have e : (n + 1) % 3 = 0 := by omega
      simp [dmd_rtt, ih, h3, e, wpc_dmd_set_firq_row, wpc_dmd_set_visible_page]

/-- C2: for every state (any counter value) and every `n`, invocations `n`, `n+1`,
`n+2` of `dmd_rtt` take the dark branch exactly once and the bright branch exactly
twice, in a rotation of (dark, bright, bright); `dmd_dark_page` and `dmd_bright_page`
stay fixed, the page made visible is the one of the branch taken, and from the
`dmd_init` state invocation `n` is dark iff `n mod 3 = 0`. -/
theorem dmd_rtt_duty_cycle (s : DmdState) (n : Nat) :
    ((dmd_rtt_shown n s, dmd_rtt_shown (n + 1) s, dmd_rtt_shown (n + 2) s)
        = (Shown.dark, Shown.bright, Shown.bright)
      ∨ (dmd_rtt_shown n s, dmd_rtt_shown (n + 1) s, dmd_rtt_shown (n + 2) s)
        = (Shown.bright, Shown.bright, Shown.dark)
      ∨ (dmd_rtt_shown n s, dmd_rtt_shown (n + 1) s, dmd_rtt_shown (n + 2) s)
        = (Shown.bright, Shown.dark, Shown.bright))
    ∧ [dmd_rtt_shown n s, dmd_rtt_shown (n + 1) s, dmd_rtt_shown (n + 2) s].count Shown.dark = 1
    ∧ [dmd_rtt_shown n s, dmd_rtt_shown (n + 1) s, dmd_rtt_shown (n + 2) s].count Shown.bright = 2
    ∧ (dmd_rtt_times n s).dmd_dark_page = s.dmd_dark_page
    ∧ (dmd_rtt_times n s).dmd_bright_page = s.dmd_bright_page
    ∧ (dmd_rtt (dmd_rtt_times n s)).2.port_visible_page
        = (if dmd_rtt_shown n s = Shown.dark then s.dmd_dark_page else s.dmd_bright_page) % 256
    ∧ (dmd_rtt_shown n (dmd_init s) = Shown.dark ↔ n % 3 = 0) := by
  have hw := dmd_rtt_window (dmd_rtt_times n s)
  have e1 : dmd_rtt_shown (n + 1) s = (dmd_rtt (dmd_rtt (dmd_rtt_times n s)).2).1 := by
    rw [dmd_rtt_shown, dmd_rtt_times_succ]
  have e2 : dmd_rtt_shown (n + 2) s
      = (dmd_rtt (dmd_rtt (dmd_rtt (dmd_rtt_times n s)).2).2).1 := by
    rw [dmd_rtt_shown, dmd_rtt_times_succ, dmd_rtt_times_succ]
  have e0 : dmd_rtt_shown n s = (dmd_rtt (dmd_rtt_times n s)).1 := rfl
  rw [e0, e1, e2, hw]
  have hp := dmd_rtt_times_pages n s
  refine ⟨?_, ?_, ?_, hp.1, hp.2, ?_, ?_⟩
  · split
    · exact Or.inl rfl
    · split
      · exact Or.inr (Or.inl rfl)
      · exact Or.inr (Or.inr rfl)
  · have := congrArg (fun p => [p.1, p.2.1, p.2.2].count Shown.dark) hw
    simp only at this
    rw [this]; split
    · decide
    · split <;> decide
  · have := congrArg (fun p => [p.1, p.2.1, p.2.2].count Shown.bright) hw
    simp only at this
    rw [this]; split
    · decide
    · split <;> decide
  · rw [← hp.1, ← hp.2]
    unfold dmd_rtt
    split <;> simp [wpc_dmd_set_firq_row, wpc_dmd_set_visible_page]
  · have hc := dmd_rtt_times_init_count n s
    rw [dmd_rtt_shown]
    unfold dmd_rtt
    rw [hc]
    have h3 : n % 3 = 0 ∨ n % 3 = 1 ∨ n % 3 = 2 := by omega
    rcases h3 with h3 | h3 | h3 <;> simp [h3]

/-! ## Show operations without a scheduled transition, and reset -/

/-- C3: when `dmd_transition` is null, `dmd_show_low` returns at once with
`dmd_dark_page = dmd_bright_page = dmd_low_page` and `dmd_show_high` with
`dmd_dark_page = dmd_bright_page = dmd_high_page`; the trace is empty (no callback,
no sleep) and every other variable, register and page keeps its value. -/
theorem dmd_show_mono_cut (descs : Nat → dmd_transition_t) (fuel : Nat) (s : DmdState)
    (h : s.dmd_transition = none) :
    dmd_show_low descs fuel s
      = ⟨Status.done,
          { s with dmd_dark_page := s.dmd_low_page, dmd_bright_page := s.dmd_low_page }, []⟩
    ∧ dmd_show_high descs fuel s
      = ⟨Status.done,
          { s with dmd_dark_page := s.dmd_high_page, dmd_bright_page := s.dmd_high_page }, []⟩ := by
  simp [dmd_show_low, dmd_show_high, h, Run.ret]

theorem dmd_show_mono_cut_witness :
    (dmd_alloc_low (dmd_init power_on)).dmd_transition = none
    ∧ (dmd_show_low (fun _ => ⟨none, id, id, 0⟩) 0 (dmd_alloc_low (dmd_init power_on))).state.dmd_dark_page
        = 2
    ∧ (dmd_show_low (fun _ => ⟨none, id, id, 0⟩) 0 (dmd_alloc_low (dmd_init power_on))).trace.length
        = 0 :=
  ⟨rfl,
    congrArg (fun r => r.state.dmd_dark_page)
      (dmd_show_mono_cut (fun _ => ⟨none, id, id, 0⟩) 0 (dmd_alloc_low (dmd_init power_on)) rfl).1,
    congrArg (fun r => r.trace.length)
      (dmd_show_mono_cut (fun _ => ⟨none, id, id, 0⟩) 0 (dmd_alloc_low (dmd_init power_on)) rfl).1⟩

/-- C4: when `dmd_transition` is null, `dmd_show2` returns at once with
`dmd_dark_page = dmd_low_page` and `dmd_bright_page = dmd_high_page`; the trace is
empty and every other variable, register and page keeps its value. -/
theorem dmd_show2_cut (descs : Nat → dmd_transition_t) (fuel : Nat) (s : DmdState)
    (h : s.dmd_transition = none) :
    dmd_show2 descs fuel s
      = ⟨Status.done,
          { s with dmd_dark_page := s.dmd_low_page, dmd_bright_page := s.dmd_high_page }, []⟩ := by
  simp [dmd_show2, h, Run.ret]

theorem dmd_show2_cut_witness :
    (dmd_alloc_low_high (dmd_init power_on)).dmd_transition = none
    ∧ (dmd_show2 (fun _ => ⟨none, id, id, 0⟩) 0
        (dmd_alloc_low_high (dmd_init power_on))).state.dmd_dark_page = 2
    ∧ (dmd_show2 (fun _ => ⟨none, id, id, 0⟩) 0
        (dmd_alloc_low_high (dmd_init power_on))).state.dmd_bright_page = 3 :=
  ⟨rfl,
    congrArg (fun r => r.state.dmd_dark_page)
      (dmd_show2_cut (fun _ => ⟨none, id, id, 0⟩) 0 (dmd_alloc_low_high (dmd_init power_on)) rfl),
    congrArg (fun r => r.state.dmd_bright_page)
      (dmd_show2_cut (fun _ => ⟨none, id, id, 0⟩) 0 (dmd_alloc_low_high (dmd_init power_on)) rfl)⟩

/-- C8: from every state `dmd_reset_transition` clears `dmd_in_transition` and
`dmd_transition` and changes nothing else: `dmd_dark_page`, `dmd_bright_page`,
`dmd_low_page`, `dmd_high_page`, the cursor, the flip counter, the composite page, the
registers and the page contents keep their values. -/
theorem dmd_reset_transition_effect (s : DmdState) :
    (dmd_reset_transition s).dmd_in_transition = false
    ∧ (dmd_reset_transition s).dmd_transition = none
    ∧ (dmd_reset_transition s).dmd_dark_page = s.dmd_dark_page
    ∧ (dmd_reset_transition s).dmd_bright_page = s.dmd_bright_page
    ∧ (dmd_reset_transition s).dmd_low_page = s.dmd_low_page
    ∧ (dmd_reset_transition s).dmd_high_page = s.dmd_high_page
    ∧ (dmd_reset_transition s).dmd_free_page = s.dmd_free_page
    ∧ (dmd_reset_transition s).dmd_page_flip_count = s.dmd_page_flip_count
    ∧ dmd_reset_transition s = { s with dmd_in_transition := false, dmd_transition := none } :=
  ⟨rfl, rfl, rfl, rfl, rfl, rfl, rfl, rfl, rfl⟩

/-! ## Runs and traces -/

theorem Run.andThen_done (r : Run) (k : DmdState → Run) (h : r.status = Status.done) :
    r.andThen k = ⟨(k r.state).status, (k r.state).state, r.trace ++ (k r.state).trace⟩ := by
  unfold Run.andThen
  rw [h]

theorem Run.andThen_not_done (r : Run) (k : DmdState → Run) (h : r.status ≠ Status.done) :
    r.andThen k = r := by
  unfold Run.andThen
  split
  · contradiction
  · rfl

theorem Run.mem_andThen {r : Run} {k : DmdState → Run} {e : Event}
    (h : e ∈ (r.andThen k).trace) :
    e ∈ r.trace ∨ (r.status = Status.done ∧ e ∈ (k r.state).trace) := by
  by_cases hd : r.status = Status.done
  · rw [Run.andThen_done r k hd] at h
    rcases List.mem_append.mp h with h | h
    · exact Or.inl h
    · exact Or.inr ⟨hd, h⟩
  · rw [Run.andThen_not_done r k hd] at h
    exact Or.inl h

/-! ## The allocation retry loop -/

/-- Two attempts always suffice, and more fuel changes nothing. -/
theorem dmd_alloc_composite_two (fuel nd : Nat) (s : DmdState) (h : 2 ≤ fuel) :
    dmd_alloc_composite fuel nd s
      = if s.dmd_free_page = nd then
          Run.ret { s with dmd_free_page := ((s.dmd_free_page + 2) % 256 % 16 + 2) % 256 % 16,
                           dmd_composite_page := (s.dmd_free_page + 2) % 256 % 16 }
        else
          Run.ret { s with dmd_free_page := (s.dmd_free_page + 2) % 256 % 16,
                           dmd_composite_page := s.dmd_free_page } := by
  obtain ⟨f, rfl⟩ : ∃ f, fuel = f + 2 := ⟨fuel - 2, by omega⟩
  by_cases hc : s.dmd_free_page = nd
  · have hne : ¬ (s.dmd_free_page + 2) % 256 % 16 = nd := by omega
    simp [dmd_alloc_composite, dmd_alloc, hc, hne]
    subst hc
    simp [hne]
  · simp [dmd_alloc_composite, dmd_alloc, hc]

/-- Whatever the fuel, the retry loop makes no outside call, touches only the cursor
and the composite page number, and when it ends normally the page it selected is not
`new_dark_page`. -/
theorem dmd_alloc_composite_spec (fuel nd : Nat) (s : DmdState) :
    (dmd_alloc_composite fuel nd s).trace = []
    ∧ (dmd_alloc_composite fuel nd s).status ≠ Status.null_deref
    ∧ (∃ f c, (dmd_alloc_composite fuel nd s).state
          = { s with dmd_free_page := f, dmd_composite_page := c })
    ∧ ((dmd_alloc_composite fuel nd s).status = Status.done →
        (dmd_alloc_composite fuel nd s).state.dmd_composite_page ≠ nd
        ∧ (dmd_alloc_composite fuel nd s).state.dmd_free_page < 16
        ∧ (s.dmd_free_page < 16 → (dmd_alloc_composite fuel nd s).state.dmd_composite_page < 16)) := by
  induction fuel generalizing s with
  | zero =>
    refine ⟨rfl, by simp [dmd_alloc_composite], ⟨s.dmd_free_page, s.dmd_composite_page, rfl⟩, ?_⟩
    intro h; simp [dmd_alloc_composite] at h
  | succ fuel ih =>
    by_cases hc : s.dmd_free_page = nd
    · have e : dmd_alloc_composite (fuel + 1) nd s
          = dmd_alloc_composite fuel nd
              { s with dmd_free_page := (s.dmd_free_page + 2) % 256 % 16,
                       dmd_composite_page := s.dmd_free_page } := by
        simp [dmd_alloc_composite, dmd_alloc, hc]
      rw [e]
      obtain ⟨h1, h2, ⟨f, c, h3⟩, h4⟩ := ih
        { s with dmd_free_page := (s.dmd_free_page + 2) % 256 % 16,
                 dmd_composite_page := s.dmd_free_page }
      refine ⟨h1, h2, ⟨f, c, by rw [h3]⟩, ?_⟩
      intro hd
      obtain ⟨h5, h6, h7⟩ := h4 hd
      exact ⟨h5, h6, fun _ => h7 (by simp; omega)⟩
    · have e : dmd_alloc_composite (fuel + 1) nd s
          = Run.ret { s with dmd_free_page := (s.dmd_free_page + 2) % 256 % 16,
                             dmd_composite_page := s.dmd_free_page } := by
        simp [dmd_alloc_composite, dmd_alloc, hc]
      rw [e]
      refine ⟨rfl, by simp [Run.ret], ⟨_, _, rfl⟩, ?_⟩
      intro _
      exact ⟨hc, by simp [Run.ret]; omega, fun h => h⟩
/-! ## Where the callbacks are entered -/

/-- A `composite_old` call of a cycle is made on its own channel, in the state the
cycle was entered in with the old page mapped low. -/
theorem dmd_do_transition_cycle_old (descs : Nat → dmd_transition_t) (ch ch1 : Channel)
    (o n : Nat) (s e : DmdState)
    (h : Event.composite_old ch1 e ∈ (dmd_do_transition_cycle descs ch o n s).trace) :
    ch1 = ch ∧ e = wpc_dmd_set_low_page o s := by
  simp only [dmd_do_transition_cycle] at h
  split at h
  · simp at h
  · split at h
    · simp at h; exact h
    · simp at h; exact h

/-- The dark-channel `composite_old` of a pass is entered with the page just
selected as `dmd_composite_page`, mapped high, and that page is not `new_dark_page`. -/
theorem dmd_transition_frame_old_dark (descs : Nat → dmd_transition_t) (afuel : Nat)
    (flag : Bool) (nd nb : Nat) (s e : DmdState)
    (h : Event.composite_old Channel.dark e
          ∈ (dmd_transition_frame descs afuel flag nd nb s).trace) :
    e.dmd_composite_page ≠ nd ∧ e.dmd_high_page = e.dmd_composite_page % 256 := by
  simp only [dmd_transition_frame] at h
  split at h
  · simp at h
  · obtain ⟨ht, _, _, hdone⟩ := dmd_alloc_composite_spec afuel nd s
    rcases Run.mem_andThen h with h | ⟨_, h⟩
    · simp at h
    · rcases Run.mem_andThen h with h | ⟨hd, h⟩
      · rw [ht] at h; simp at h
      · simp only [dmd_transition_composite] at h
        rcases Run.mem_andThen h with h | ⟨_, h⟩
        · obtain ⟨_, rfl⟩ := dmd_do_transition_cycle_old _ _ _ _ _ _ _ h
          exact ⟨(hdone hd).1, rfl⟩
        · cases flag
          · simp only [Bool.not_false, if_true] at h
            rcases Run.mem_andThen h with h | ⟨_, h⟩
            · have := (dmd_do_transition_cycle_old _ _ _ _ _ _ _ h).1
              cases this
            · simp [Run.ret] at h
          · simp [Run.ret] at h

theorem dmd_transition_loop_old_dark (descs : Nat → dmd_transition_t) (afuel : Nat)
    (flag : Bool) (nd nb fuel : Nat) (s e : DmdState)
    (h : Event.composite_old Channel.dark e
          ∈ (dmd_transition_loop descs afuel flag nd nb fuel s).trace) :
    e.dmd_composite_page ≠ nd ∧ e.dmd_high_page = e.dmd_composite_page % 256 := by
  induction fuel generalizing s with
  | zero =>
    unfold dmd_transition_loop at h
    split at h <;> simp [Run.ret] at h
  | succ fuel ih =>
    unfold dmd_transition_loop at h
    split at h
    · rcases Run.mem_andThen h with h | ⟨_, h⟩
      · exact dmd_transition_frame_old_dark _ _ _ _ _ _ _ h
      · exact ih _ h
    · simp [Run.ret] at h

theorem dmd_do_transition_old_dark (descs : Nat → dmd_transition_t) (fuel : Nat)
    (s e : DmdState)
    (h : Event.composite_old Channel.dark e ∈ (dmd_do_transition descs fuel s).trace) :
    e.dmd_composite_page ≠ s.dmd_low_page ∧ e.dmd_high_page = e.dmd_composite_page % 256 := by
  unfold dmd_do_transition at h
  simp only at h
  split at h
  · simp at h
  · rcases Run.mem_andThen h with h | ⟨_, h⟩
    · rcases Run.mem_andThen h with h | ⟨_, h⟩
      · split at h <;> simp [Run.ret] at h
      · exact dmd_transition_loop_old_dark _ _ _ _ _ _ _ _ h
    · simp [Run.ret] at h

/-- C10: the allocation retry loop ends after at most two calls of `dmd_alloc` (with
fuel 2 or more it ends normally, with the result it has for fuel 2) and the page it
leaves in `dmd_composite_page` is not `new_dark_page`; in every cycle of
`dmd_do_transition` the dark-channel `composite_old` is entered with a composite page
different from the `dmd_low_page` captured on entry. -/
theorem dmd_composite_page_avoids_new_dark (descs : Nat → dmd_transition_t) (fuel nd : Nat)
    (s : DmdState) :
    (2 ≤ fuel →
      (dmd_alloc_composite fuel nd s).status = Status.done
      ∧ dmd_alloc_composite fuel nd s = dmd_alloc_composite 2 nd s
      ∧ (dmd_alloc_composite fuel nd s).state.dmd_composite_page ≠ nd)
    ∧ (s.dmd_free_page ≠ nd →
        (dmd_alloc_composite 1 nd s).status = Status.done
        ∧ (dmd_alloc_composite 1 nd s).state.dmd_composite_page = s.dmd_free_page)
    ∧ (∀ e, Event.composite_old Channel.dark e ∈ (dmd_do_transition descs fuel s).trace →
        e.dmd_composite_page ≠ s.dmd_low_page) := by
  refine ⟨fun h => ?_, fun h => ?_, fun e he => (dmd_do_transition_old_dark descs fuel s e he).1⟩
  · have hdone : (dmd_alloc_composite fuel nd s).status = Status.done := by
      rw [dmd_alloc_composite_two fuel nd s h]
      split <;> rfl
    refine ⟨hdone, ?_, ((dmd_alloc_composite_spec fuel nd s).2.2.2 hdone).1⟩
    rw [dmd_alloc_composite_two fuel nd s h, dmd_alloc_composite_two 2 nd s (le_refl 2)]
  · simp [dmd_alloc_composite, dmd_alloc, h, Run.ret]

theorem dmd_composite_page_avoids_new_dark_witness :
    (dmd_alloc_composite 2 6 mono_to_mono).status = Status.done
    ∧ (dmd_alloc_composite 2 6 mono_to_mono).state.dmd_composite_page = 8
    ∧ (∀ e, Event.composite_old Channel.dark e
          ∈ (dmd_do_transition (fun _ => two_step) 2 mono_to_mono).trace →
        e.dmd_composite_page ≠ mono_to_mono.dmd_low_page) :=
  ⟨((dmd_composite_page_avoids_new_dark (fun _ => two_step) 2 6 mono_to_mono).1 (by decide)).1,
    by decide,
    (dmd_composite_page_avoids_new_dark (fun _ => two_step) 2 6 mono_to_mono).2.2⟩

/-! ## The state in which the first callback is entered -/

theorem first_callback_append (l1 l2 : List Event) :
    first_callback (l1 ++ l2)
      = match first_callback l1 with
        | some e => some e
        | none => first_callback l2 := by
  induction l1 with
  | nil => rfl
  | cons ev l1 ih =>
    cases ev with
    | composite_init s => rfl
    | task_sleep d => simpa [first_callback] using ih
    | composite_old ch s => rfl
    | composite_new ch s => rfl

theorem first_callback_andThen_some (r : Run) (k : DmdState → Run) (e : DmdState)
    (h : first_callback r.trace = some e) : first_callback (r.andThen k).trace = some e := by
  by_cases hd : r.status = Status.done
  · rw [Run.andThen_done r k hd]
    simp only [first_callback_append, h]
  · rw [Run.andThen_not_done r k hd, h]

theorem first_callback_andThen_none (r : Run) (k : DmdState → Run)
    (h : first_callback r.trace = none) (hd : r.status = Status.done) :
    first_callback (r.andThen k).trace = first_callback (k r.state).trace := by
  rw [Run.andThen_done r k hd]
  simp only [first_callback_append, h]

theorem dmd_do_transition_cycle_first (descs : Nat → dmd_transition_t) (ch : Channel)
    (o n p : Nat) (s : DmdState) (h : s.dmd_transition = some p) :
    first_callback (dmd_do_transition_cycle descs ch o n s).trace
      = some (wpc_dmd_set_low_page o s) := by
  have h1 : (wpc_dmd_set_low_page o s).dmd_transition = some p := h
  simp only [dmd_do_transition_cycle, h1]
  split <;> rfl

/-- The first callback of a pass, if there is one, is entered with the visible pages
the pass started with; there is one when the allocation loop has fuel for two
attempts. -/
theorem dmd_transition_frame_first (descs : Nat → dmd_transition_t) (afuel : Nat)
    (flag : Bool) (nd nb p : Nat) (s : DmdState) (h : s.dmd_transition = some p) :
    (∀ e, first_callback (dmd_transition_frame descs afuel flag nd nb s).trace = some e →
      e.dmd_dark_page = s.dmd_dark_page ∧ e.dmd_bright_page = s.dmd_bright_page)
    ∧ ((dmd_alloc_composite afuel nd s).status = Status.done →
        ∃ e, first_callback (dmd_transition_frame descs afuel flag nd nb s).trace = some e)
    ∧ ((dmd_transition_frame descs afuel flag nd nb s).status = Status.done →
        ∃ e, first_callback (dmd_transition_frame descs afuel flag nd nb s).trace = some e) := by
  obtain ⟨ht, _, ⟨f, c, hst⟩, _⟩ := dmd_alloc_composite_spec afuel nd s
  have key : first_callback (dmd_transition_frame descs afuel flag nd nb s).trace
      = if (dmd_alloc_composite afuel nd s).status = Status.done then
          some (wpc_dmd_set_low_page
            (wpc_dmd_set_high_page (dmd_alloc_composite afuel nd s).state.dmd_composite_page
              (dmd_alloc_composite afuel nd s).state).dmd_dark_page
            (wpc_dmd_set_high_page (dmd_alloc_composite afuel nd s).state.dmd_composite_page
              (dmd_alloc_composite afuel nd s).state))
        else none := by
    simp only [dmd_transition_frame, h]
    rw [first_callback_andThen_none
      (Run.mk Status.done s [Event.task_sleep (descs p).delay]) _ rfl rfl]
    by_cases hd : (dmd_alloc_composite afuel nd s).status = Status.done
    · rw [first_callback_andThen_none _ _ (by rw [ht]; rfl) hd, if_pos hd]
      simp only [dmd_transition_composite]
      apply first_callback_andThen_some
      apply dmd_do_transition_cycle_first descs _ _ _ p
      rw [hst]; exact h
    · rw [Run.andThen_not_done _ _ hd, ht, if_neg hd]; rfl
  have hdone : (dmd_transition_frame descs afuel flag nd nb s).status = Status.done →
      (dmd_alloc_composite afuel nd s).status = Status.done := by
    intro hs
    by_contra hd
    simp only [dmd_transition_frame, h] at hs
    rw [Run.andThen_done _ _ rfl, Run.andThen_not_done _ _ hd] at hs
    exact hd hs
  refine ⟨?_, ?_, ?_⟩
  · intro e he
    rw [key] at he
    split at he
    · cases he
      rw [hst]
      exact ⟨rfl, rfl⟩
    · cases he
  · intro hd
    rw [key, if_pos hd]
    exact ⟨_, rfl⟩
  · intro hs
    rw [key, if_pos (hdone hs)]
    exact ⟨_, rfl⟩

theorem dmd_transition_frame_transition (descs : Nat → dmd_transition_t) (afuel : Nat)
    (flag : Bool) (nd nb : Nat) (s : DmdState)
    (h : (dmd_transition_frame descs afuel flag nd nb s).status = Status.done) :
    ∃ p, s.dmd_transition = some p := by
  cases ht : s.dmd_transition with
  | none => simp [dmd_transition_frame, ht] at h
  | some p => exact ⟨p, rfl⟩

theorem dmd_transition_loop_first (descs : Nat → dmd_transition_t) (afuel : Nat)
    (flag : Bool) (nd nb p fuel : Nat) (s : DmdState) (h : s.dmd_transition = some p) :
    (∀ e, first_callback (dmd_transition_loop descs afuel flag nd nb fuel s).trace = some e →
      e.dmd_dark_page = s.dmd_dark_page ∧ e.dmd_bright_page = s.dmd_bright_page)
    ∧ (0 < fuel → s.dmd_in_transition = true →
        (dmd_alloc_composite afuel nd s).status = Status.done →
        ∃ e, first_callback (dmd_transition_loop descs afuel flag nd nb fuel s).trace = some e) := by
  cases fuel with
  | zero =>
    refine ⟨?_, fun h0 => absurd h0 (by decide)⟩
    intro e he
    unfold dmd_transition_loop at he
    split at he <;> simp [Run.ret, first_callback] at he
  | succ fuel =>
    obtain ⟨h1, h2, h3⟩ := dmd_transition_frame_first descs afuel flag nd nb p s h
    refine ⟨?_, ?_⟩
    · intro e he
      unfold dmd_transition_loop at he
      split at he
      · by_cases hd : (dmd_transition_frame descs afuel flag nd nb s).status = Status.done
        · obtain ⟨e1, he1⟩ := h3 hd
          rw [first_callback_andThen_some _ _ _ he1] at he
          cases he
          exact h1 _ he1
        · rw [Run.andThen_not_done _ _ hd] at he
          exact h1 _ he
      · simp [Run.ret, first_callback] at he
    · intro _ hf ha
      obtain ⟨e1, he1⟩ := h2 ha
      refine ⟨e1, ?_⟩
      unfold dmd_transition_loop
      rw [if_pos hf]
      exact first_callback_andThen_some _ _ _ he1

theorem first_callback_andThen_ret (r : Run) (g : DmdState → DmdState) :
    first_callback (r.andThen fun s => Run.ret (g s)).trace = first_callback r.trace := by
  by_cases hd : r.status = Status.done
  · rw [Run.andThen_done r _ hd]
    simp [Run.ret]
  · rw [Run.andThen_not_done r _ hd]

theorem dmd_do_transition_eq (descs : Nat → dmd_transition_t) (fuel : Nat) (s : DmdState) :
    dmd_do_transition descs fuel s
      = match (dmd_transition_entry s).dmd_transition with
        | none => ⟨Status.null_deref, dmd_transition_entry s, []⟩
        | some p =>
          ((match (descs p).composite_init with
            | none => Run.ret (dmd_transition_entry s)
            | some f => Run.mk Status.done (f (dmd_transition_entry s))
                [Event.composite_init (dmd_transition_entry s)]).andThen
            (dmd_transition_loop descs fuel (one_copy_flag s) s.dmd_low_page s.dmd_high_page
              fuel)).andThen
            fun s => Run.ret { s with dmd_transition := none } := rfl

/-- What lines 576-612 do to the variables: only `dmd_bright_page` can change among
the visible pages, and only when the incoming image is 4-colour. -/
theorem dmd_transition_entry_fields (s : DmdState) :
    (dmd_transition_entry s).dmd_dark_page = s.dmd_dark_page
    ∧ (dmd_transition_entry s).dmd_transition = s.dmd_transition
    ∧ (dmd_transition_entry s).dmd_in_transition = s.dmd_in_transition
    ∧ (dmd_transition_entry s).dmd_free_page = s.dmd_free_page
    ∧ (s.dmd_low_page = s.dmd_high_page →
        (dmd_transition_entry s).dmd_bright_page = s.dmd_bright_page)
    ∧ (s.dmd_low_page ≠ s.dmd_high_page →
        (dmd_transition_entry s).dmd_bright_page = (s.dmd_dark_page + 1) % 256) := by
  unfold dmd_transition_entry
  simp only
  split
  · rename_i hf
    refine ⟨rfl, rfl, rfl, rfl, fun _ => rfl, fun hne => ?_⟩
    simp [one_copy_flag] at hf
    exact absurd hf.1 hne
  · unfold dmd_transition_normalize
    simp only
    split
    · rename_i hne
      refine ⟨rfl, rfl, rfl, rfl, fun he => absurd he hne, fun _ => rfl⟩
    · refine ⟨rfl, rfl, rfl, rfl, fun _ => rfl, fun hne => ?_⟩
      rename_i he
      exact absurd hne he

/-- The first callback of `dmd_do_transition`, if there is one, is entered in a state
whose visible pages are those of `dmd_transition_entry`. -/
theorem dmd_do_transition_first (descs : Nat → dmd_transition_t) (fuel p : Nat)
    (s : DmdState) (h : s.dmd_transition = some p) :
    (∀ e, first_callback (dmd_do_transition descs fuel s).trace = some e →
      e.dmd_dark_page = (dmd_transition_entry s).dmd_dark_page
      ∧ e.dmd_bright_page = (dmd_transition_entry s).dmd_bright_page)
    ∧ (2 ≤ fuel → s.dmd_in_transition = true →
        ∃ e, first_callback (dmd_do_transition descs fuel s).trace = some e) := by
  obtain ⟨_, ht, hi, _, _, _⟩ := dmd_transition_entry_fields s
  have hp : (dmd_transition_entry s).dmd_transition = some p := by rw [ht, h]
  rw [dmd_do_transition_eq]
  simp only [hp]
  rw [first_callback_andThen_ret]
  cases hc : (descs p).composite_init with
  | some f =>
    simp only
    have e1 : first_callback
        ((Run.mk Status.done (f (dmd_transition_entry s))
            [Event.composite_init (dmd_transition_entry s)]).andThen
          (dmd_transition_loop descs fuel (one_copy_flag s) s.dmd_low_page s.dmd_high_page
            fuel)).trace = some (dmd_transition_entry s) :=
      first_callback_andThen_some _ _ _ rfl
    rw [e1]
    refine ⟨?_, fun _ _ => ⟨_, rfl⟩⟩
    intro e he
    cases he
    exact ⟨rfl, rfl⟩
  | none =>
    simp only
    rw [first_callback_andThen_none (Run.ret (dmd_transition_entry s)) _ rfl rfl]
    obtain ⟨h1, h2⟩ := dmd_transition_loop_first descs fuel (one_copy_flag s) s.dmd_low_page
      s.dmd_high_page p fuel (dmd_transition_entry s) hp
    refine ⟨h1, ?_⟩
    intro hf hin
    apply h2 (by omega) (by rw [hi, hin])
    rw [dmd_alloc_composite_two fuel _ _ hf]
    split <;> rfl

/-- C5 (amended): when a transition is scheduled the three show operations run
`dmd_do_transition`, and the first descriptor callback is entered with
`dmd_dark_page` as it was before the call; `dmd_bright_page` is as before the call
when the incoming image is mono, and is `dmd_dark_page + 1` when the outgoing image is
mono and the incoming one 4-colour.  With the running flag set and fuel for two
allocation attempts there is such a callback. -/
theorem dmd_show_visible_at_first_callback (descs : Nat → dmd_transition_t) (fuel p : Nat)
    (s : DmdState) (h : s.dmd_transition = some p) :
    dmd_show_low descs fuel s = dmd_do_transition descs fuel s
    ∧ dmd_show_high descs fuel s = dmd_do_transition descs fuel s
    ∧ dmd_show2 descs fuel s = dmd_do_transition descs fuel s
    ∧ (∀ e, first_callback (dmd_do_transition descs fuel s).trace = some e →
        e.dmd_dark_page = s.dmd_dark_page
        ∧ (s.dmd_low_page = s.dmd_high_page → e.dmd_bright_page = s.dmd_bright_page)
        ∧ (s.dmd_low_page ≠ s.dmd_high_page → s.dmd_dark_page = s.dmd_bright_page →
            e.dmd_bright_page = (s.dmd_dark_page + 1) % 256))
    ∧ (2 ≤ fuel → s.dmd_in_transition = true →
        ∃ e, first_callback (dmd_do_transition descs fuel s).trace = some e) := by
  obtain ⟨hd, _, _, _, hm, hc⟩ := dmd_transition_entry_fields s
  obtain ⟨h1, h2⟩ := dmd_do_transition_first descs fuel p s h
  refine ⟨by simp [dmd_show_low, h], by simp [dmd_show_high, h], by simp [dmd_show2, h], ?_, h2⟩
  intro e he
  obtain ⟨e1, e2⟩ := h1 e he
  exact ⟨e1.trans hd, fun hl => e2.trans (hm hl), fun hl _ => e2.trans (hc hl)⟩

theorem dmd_show_visible_at_first_callback_witness :
    mono_to_color.dmd_transition = some 0
    ∧ ∃ e, first_callback (dmd_do_transition (fun _ => two_step) 2 mono_to_color).trace = some e
        ∧ e.dmd_dark_page = mono_to_color.dmd_dark_page
        ∧ e.dmd_bright_page = (mono_to_color.dmd_dark_page + 1) % 256 :=
  ⟨rfl,
    match (dmd_show_visible_at_first_callback (fun _ => two_step) 2 0 mono_to_color rfl).2.2.2.2
      (by decide) rfl with
    | ⟨e, he⟩ =>
      ⟨e, he,
        ((dmd_show_visible_at_first_callback (fun _ => two_step) 2 0 mono_to_color
          rfl).2.2.2.1 e he).1,
        ((dmd_show_visible_at_first_callback (fun _ => two_step) 2 0 mono_to_color
          rfl).2.2.2.1 e he).2.2 (by decide) rfl⟩⟩

/-- C5 (counterexample): outgoing mono image on page 2, incoming 4-colour image on
pages 4 and 5: the first callback of `dmd_show2` is entered with `dmd_bright_page`
already changed from 2 to 3. -/
theorem dmd_show2_changes_bright_before_first_callback :
    mono_to_color.dmd_transition = some 0
    ∧ mono_to_color.dmd_in_transition = true
    ∧ mono_to_color.dmd_dark_page = 2
    ∧ mono_to_color.dmd_bright_page = 2
    ∧ (first_callback (dmd_show2 (fun _ => two_step) 2 mono_to_color).trace).map
        DmdState.dmd_bright_page = some 3 := by
  decide

/-- C9 (evaluation at the failing input): outgoing 4-colour image on pages 2 and 3,
incoming 4-colour image on pages 4 and 5: when the first callback of `dmd_show2` is
entered, page 3 (the outgoing bright page) no longer holds its own contents but a
copy of page 2. -/
theorem dmd_show2_color_to_color_overwrites_bright_page :
    color_to_color.dmd_transition = some 0
    ∧ (color_to_color.dmd_dark_page, color_to_color.dmd_bright_page) = (2, 3)
    ∧ (color_to_color.dmd_low_page, color_to_color.dmd_high_page) = (4, 5)
    ∧ color_to_color.page_store 3 0 = 3
    ∧ (first_callback (dmd_show2 (fun _ => two_step) 2 color_to_color).trace).map
        (fun e => (e.page_store 3 0, e.page_store 2 0)) = some (2, 2) := by
  decide

/-! ## Cycles under the descriptor contract -/

theorem dmd_do_transition_cycle_contract (descs : Nat → dmd_transition_t) (ch : Channel)
    (o n p : Nat) (s : DmdState) (h : s.dmd_transition = some p)
    (hc : TransitionContract (descs p)) :
    dmd_do_transition_cycle descs ch o n s
      = ⟨Status.done,
          (descs p).composite_new
            (wpc_dmd_set_low_page n ((descs p).composite_old (wpc_dmd_set_low_page o s))),
          [Event.composite_old ch (wpc_dmd_set_low_page o s),
           Event.composite_new ch
            (wpc_dmd_set_low_page n ((descs p).composite_old (wpc_dmd_set_low_page o s)))]⟩ := by
  have h1 : (wpc_dmd_set_low_page o s).dmd_transition = some p := h
  have h3 : (wpc_dmd_set_low_page n
      ((descs p).composite_old (wpc_dmd_set_low_page o s))).dmd_transition = some p := by
    show ((descs p).composite_old (wpc_dmd_set_low_page o s)).dmd_transition = some p
    rw [hc.old.transition]; exact h
  simp only [dmd_do_transition_cycle, h1, h3]

theorem dmd_transition_composite_contract (descs : Nat → dmd_transition_t) (flag : Bool)
    (nd nb p : Nat) (a : DmdState) (hat : a.dmd_transition = some p)
    (hc : TransitionContract (descs p)) :
    (dmd_transition_composite descs flag nd nb a).status = Status.done
    ∧ Call.sleep (descs p).delay :: (dmd_transition_composite descs flag nd nb a).trace.map Event.call
        = cycle_calls flag (descs p).delay
    ∧ (dmd_transition_composite descs flag nd nb a).state.dmd_transition = some p
    ∧ (dmd_transition_composite descs flag nd nb a).state.dmd_free_page = a.dmd_free_page
    ∧ (dmd_transition_composite descs flag nd nb a).state.dmd_composite_page = a.dmd_composite_page
    ∧ (dmd_transition_composite descs flag nd nb a).state.dmd_dark_page = a.dmd_composite_page
    ∧ (dmd_transition_composite descs flag nd nb a).state.dmd_bright_page
        = (if flag then a.dmd_composite_page else (a.dmd_composite_page + 1) % 256)
    ∧ ∃ e, last_callback (dmd_transition_composite descs flag nd nb a).trace = some e
        ∧ e.dmd_composite_page = a.dmd_composite_page := by
  have e1 := dmd_do_transition_cycle_contract descs Channel.dark
    (wpc_dmd_set_high_page a.dmd_composite_page a).dmd_dark_page nd p
    (wpc_dmd_set_high_page a.dmd_composite_page a) hat hc
  have e2 := fun s2 h2 => dmd_do_transition_cycle_contract descs Channel.bright
    (DmdState.dmd_bright_page s2) nb p s2 h2 hc
  cases flag
  · simp only [dmd_transition_composite, Run.andThen, e1]
    rw [e2 _ (by simp [wpc_dmd_set_high_page, wpc_dmd_set_low_page, hc.new.transition,
      hc.old.transition, hat])]
    simp only [Run.ret]
    refine ⟨rfl, rfl, ?_, ?_, ?_, ?_, ?_, ⟨_, rfl, ?_⟩⟩ <;>
      simp [wpc_dmd_set_high_page, wpc_dmd_set_low_page, hc.new.transition,
        hc.old.transition, hc.new.free_page, hc.old.free_page, hc.new.composite_page,
        hc.old.composite_page, hat]
  · simp only [dmd_transition_composite, Run.andThen, e1]
    simp only [Run.ret]
    refine ⟨rfl, rfl, ?_, ?_, ?_, ?_, ?_, ⟨_, rfl, ?_⟩⟩ <;>
      simp [wpc_dmd_set_high_page, wpc_dmd_set_low_page, hc.new.transition,
        hc.old.transition, hc.new.free_page, hc.old.free_page, hc.new.composite_page,
        hc.old.composite_page, hat]

theorem dmd_transition_frame_eq (descs : Nat → dmd_transition_t) (afuel : Nat)
    (flag : Bool) (nd nb p : Nat) (s : DmdState) (h : s.dmd_transition = some p)
    (ha : (dmd_alloc_composite afuel nd s).status = Status.done) :
    dmd_transition_frame descs afuel flag nd nb s
      = ⟨(dmd_transition_composite descs flag nd nb (dmd_alloc_composite afuel nd s).state).status,
         (dmd_transition_composite descs flag nd nb (dmd_alloc_composite afuel nd s).state).state,
         Event.task_sleep (descs p).delay ::
          (dmd_transition_composite descs flag nd nb
            (dmd_alloc_composite afuel nd s).state).trace⟩ := by
  have ht := (dmd_alloc_composite_spec afuel nd s).1
  simp only [dmd_transition_frame, h]
  rw [Run.andThen_done (Run.mk Status.done s [Event.task_sleep (descs p).delay]) _ rfl]
  simp only
  rw [Run.andThen_done (dmd_alloc_composite afuel nd s) _ ha, ht]
  rfl

theorem last_callback_sleep_cons (d : Nat) (tr : List Event) (e : DmdState)
    (h : last_callback tr = some e) : last_callback (Event.task_sleep d :: tr) = some e := by
  unfold last_callback at *
  rw [List.reverse_cons, first_callback_append, h]

theorem dmd_transition_frame_contract (descs : Nat → dmd_transition_t) (afuel : Nat)
    (flag : Bool) (nd nb p : Nat) (s : DmdState) (h : s.dmd_transition = some p)
    (hc : TransitionContract (descs p))
    (ha : (dmd_alloc_composite afuel nd s).status = Status.done) :
    (dmd_transition_frame descs afuel flag nd nb s).status = Status.done
    ∧ (dmd_transition_frame descs afuel flag nd nb s).trace.map Event.call
        = cycle_calls flag (descs p).delay
    ∧ (dmd_transition_frame descs afuel flag nd nb s).state.dmd_transition = some p
    ∧ (dmd_transition_frame descs afuel flag nd nb s).state.dmd_free_page
        = (dmd_alloc_composite afuel nd s).state.dmd_free_page
    ∧ (dmd_transition_frame descs afuel flag nd nb s).state.dmd_composite_page
        = (dmd_alloc_composite afuel nd s).state.dmd_composite_page
    ∧ (dmd_transition_frame descs afuel flag nd nb s).state.dmd_dark_page
        = (dmd_alloc_composite afuel nd s).state.dmd_composite_page
    ∧ (dmd_transition_frame descs afuel flag nd nb s).state.dmd_bright_page
        = (if flag then (dmd_alloc_composite afuel nd s).state.dmd_composite_page
           else ((dmd_alloc_composite afuel nd s).state.dmd_composite_page + 1) % 256)
    ∧ ∃ e, last_callback (dmd_transition_frame descs afuel flag nd nb s).trace = some e
        ∧ e.dmd_composite_page = (dmd_alloc_composite afuel nd s).state.dmd_composite_page := by
  obtain ⟨_, _, ⟨f, c, hst⟩, _⟩ := dmd_alloc_composite_spec afuel nd s
  have hat : (dmd_alloc_composite afuel nd s).state.dmd_transition = some p := by
    rw [hst]; exact h
  obtain ⟨c1, c2, c3, c4, c5, c6, c7, e, c8, c9⟩ :=
    dmd_transition_composite_contract descs flag nd nb p _ hat hc
  rw [dmd_transition_frame_eq descs afuel flag nd nb p s h ha]
  exact ⟨c1, c2, c3, c4, c5, c6, c7, e, last_callback_sleep_cons _ _ _ c8, c9⟩

/-! ## The main loop under the descriptor contract -/

theorem dmd_transition_loop_idle (descs : Nat → dmd_transition_t) (afuel : Nat) (flag : Bool)
    (nd nb fuel : Nat) (s : DmdState) (h : s.dmd_in_transition = false) :
    dmd_transition_loop descs afuel flag nd nb fuel s = Run.ret s := by
  cases fuel <;> simp [dmd_transition_loop, h]

theorem dmd_transition_frame_done (descs : Nat → dmd_transition_t) (afuel : Nat)
    (flag : Bool) (nd nb : Nat) (s : DmdState)
    (h : (dmd_transition_frame descs afuel flag nd nb s).status = Status.done) :
    (dmd_alloc_composite afuel nd s).status = Status.done := by
  obtain ⟨p, hp⟩ := dmd_transition_frame_transition descs afuel flag nd nb s h
  by_contra hd
  simp only [dmd_transition_frame, hp] at h
  rw [Run.andThen_done (Run.mk Status.done s [Event.task_sleep (descs p).delay]) _ rfl] at h
  simp only at h
  rw [Run.andThen_not_done _ _ hd] at h
  exact hd h

theorem last_callback_append (l1 l2 : List Event) :
    last_callback (l1 ++ l2)
      = match last_callback l2 with
        | some e => some e
        | none => last_callback l1 := by
  unfold last_callback
  rw [List.reverse_append, first_callback_append]

theorem Run.andThen_status_done (r : Run) (k : DmdState → Run)
    (h : (r.andThen k).status = Status.done) :
    r.status = Status.done ∧ (k r.state).status = Status.done := by
  by_cases hd : r.status = Status.done
  · rw [Run.andThen_done r k hd] at h
    exact ⟨hd, h⟩
  · rw [Run.andThen_not_done r k hd] at h
    exact absurd h hd

/-- The calls of the main loop are whole cycles. -/
theorem dmd_transition_loop_calls (descs : Nat → dmd_transition_t) (afuel : Nat)
    (flag : Bool) (nd nb p : Nat) (hc : TransitionContract (descs p)) (haf : 2 ≤ afuel)
    (fuel : Nat) (s : DmdState) (h : s.dmd_transition = some p) :
    ∃ k, k ≤ fuel
      ∧ (dmd_transition_loop descs afuel flag nd nb fuel s).trace.map Event.call
          = (List.replicate k (cycle_calls flag (descs p).delay)).flatten := by
  induction fuel generalizing s with
  | zero =>
    refine ⟨0, le_refl 0, ?_⟩
    unfold dmd_transition_loop
    split <;> rfl
  | succ fuel ih =>
    cases hin : s.dmd_in_transition with
    | false =>
      rw [dmd_transition_loop_idle _ _ _ _ _ _ _ hin]
      exact ⟨0, Nat.zero_le _, rfl⟩
    | true =>
      have ha : (dmd_alloc_composite afuel nd s).status = Status.done := by
        rw [dmd_alloc_composite_two afuel nd s haf]
        split <;> rfl
      obtain ⟨c1, c2, c3, _⟩ := dmd_transition_frame_contract descs afuel flag nd nb p s h hc ha
      obtain ⟨k, hk, hk2⟩ := ih _ c3
      refine ⟨k + 1, by omega, ?_⟩
      unfold dmd_transition_loop
      rw [if_pos hin, Run.andThen_done _ _ c1]
      simp only [List.map_append, c2, hk2, List.replicate_succ, List.flatten_cons]

/-- When the main loop is entered with the flag set and ends normally, it ends with
the flag clear and with the visible pages on the composite page of its last pass. -/
theorem dmd_transition_loop_final (descs : Nat → dmd_transition_t) (afuel : Nat)
    (flag : Bool) (nd nb p : Nat) (hc : TransitionContract (descs p))
    (fuel : Nat) (s : DmdState) (h : s.dmd_transition = some p) (hfree : s.dmd_free_page < 16)
    (hin : s.dmd_in_transition = true)
    (hd : (dmd_transition_loop descs afuel flag nd nb fuel s).status = Status.done) :
    (dmd_transition_loop descs afuel flag nd nb fuel s).state.dmd_in_transition = false
    ∧ (dmd_transition_loop descs afuel flag nd nb fuel s).state.dmd_dark_page
        = (dmd_transition_loop descs afuel flag nd nb fuel s).state.dmd_composite_page
    ∧ (dmd_transition_loop descs afuel flag nd nb fuel s).state.dmd_bright_page
        = (if flag then
            (dmd_transition_loop descs afuel flag nd nb fuel s).state.dmd_composite_page
           else (dmd_transition_loop descs afuel flag nd nb fuel s).state.dmd_composite_page + 1)
    ∧ (dmd_transition_loop descs afuel flag nd nb fuel s).state.dmd_composite_page < 16
    ∧ (dmd_transition_loop descs afuel flag nd nb fuel s).state.dmd_composite_page ≠ nd
    ∧ ∃ e, last_callback (dmd_transition_loop descs afuel flag nd nb fuel s).trace = some e
        ∧ e.dmd_composite_page
            = (dmd_transition_loop descs afuel flag nd nb fuel s).state.dmd_composite_page := by
  induction fuel generalizing s with
  | zero => simp [dmd_transition_loop, hin] at hd
  | succ fuel ih =>
    unfold dmd_transition_loop at hd ⊢
    rw [if_pos hin] at hd ⊢
    obtain ⟨hfd, hld⟩ := Run.andThen_status_done _ _ hd
    have ha := dmd_transition_frame_done _ _ _ _ _ _ hfd
    obtain ⟨_, c2, c3, c4, c5, c6, c7, e, c8, c9⟩ :=
      dmd_transition_frame_contract descs afuel flag nd nb p s h hc ha
    obtain ⟨a1, a2, a3⟩ := (dmd_alloc_composite_spec afuel nd s).2.2.2 ha
    rw [Run.andThen_done _ _ hfd]
    simp only
    cases hin1 : (dmd_transition_frame descs afuel flag nd nb s).state.dmd_in_transition with
    | false =>
      rw [dmd_transition_loop_idle _ _ _ _ _ _ _ hin1]
      simp only [Run.ret, List.append_nil]
      refine ⟨hin1, by rw [c6, c5], ?_, by rw [c5]; exact a3 hfree, by rw [c5]; exact a1,
        e, c8, by rw [c9, c5]⟩
      rw [c7, c5]
      have := a3 hfree
      cases flag
      · simp; omega
      · simp
    | true =>
      obtain ⟨i1, i2, i3, i4, i5, e1, i6, i7⟩ := ih _ c3 (by rw [c4]; exact a2) hin1 hld
      refine ⟨i1, i2, i3, i4, i5, e1, ?_, i7⟩
      rw [last_callback_append, i6]

/-! ## More fuel does not change a run that ended normally -/

theorem dmd_alloc_composite_mono (a b nd : Nat) (s : DmdState) (hab : a ≤ b)
    (h : (dmd_alloc_composite a nd s).status = Status.done) :
    dmd_alloc_composite b nd s = dmd_alloc_composite a nd s := by
  induction a generalizing b s with
  | zero => simp [dmd_alloc_composite] at h
  | succ a ih =>
    obtain ⟨b, rfl⟩ : ∃ c, b = c + 1 := ⟨b - 1, by omega⟩
    unfold dmd_alloc_composite at h ⊢
    simp only at h ⊢
    split
    · rename_i hc
      rw [if_pos hc] at h
      exact ih b _ (by omega) h
    · rfl

theorem dmd_transition_frame_mono (descs : Nat → dmd_transition_t) (a b : Nat) (flag : Bool)
    (nd nb : Nat) (s : DmdState) (hab : a ≤ b)
    (h : (dmd_transition_frame descs a flag nd nb s).status = Status.done) :
    dmd_transition_frame descs b flag nd nb s = dmd_transition_frame descs a flag nd nb s := by
  have ha := dmd_transition_frame_done _ _ _ _ _ _ h
  unfold dmd_transition_frame
  cases s.dmd_transition with
  | none => rfl
  | some p =>
    simp only
    rw [Run.andThen_done (Run.mk Status.done s [Event.task_sleep (descs p).delay]) _ rfl,
      Run.andThen_done (Run.mk Status.done s [Event.task_sleep (descs p).delay]) _ rfl]
    simp only
    rw [dmd_alloc_composite_mono a b nd s hab ha]

theorem dmd_transition_loop_mono (descs : Nat → dmd_transition_t) (a b : Nat) (flag : Bool)
    (nd nb fuel fuel2 : Nat) (s : DmdState) (hab : a ≤ b) (hf : fuel ≤ fuel2)
    (h : (dmd_transition_loop descs a flag nd nb fuel s).status = Status.done) :
    dmd_transition_loop descs b flag nd nb fuel2 s
      = dmd_transition_loop descs a flag nd nb fuel s := by
  induction fuel generalizing s fuel2 with
  | zero =>
    cases hin : s.dmd_in_transition with
    | false => rw [dmd_transition_loop_idle _ _ _ _ _ _ _ hin, dmd_transition_loop_idle _ _ _ _ _ _ _ hin]
    | true => simp [dmd_transition_loop, hin] at h
  | succ fuel ih =>
    cases hin : s.dmd_in_transition with
    | false => rw [dmd_transition_loop_idle _ _ _ _ _ _ _ hin, dmd_transition_loop_idle _ _ _ _ _ _ _ hin]
    | true =>
      obtain ⟨fuel2, rfl⟩ : ∃ c, fuel2 = c + 1 := ⟨fuel2 - 1, by omega⟩
      unfold dmd_transition_loop at h ⊢
      simp only [hin, ↓reduceIte] at h ⊢
      obtain ⟨hfd, hld⟩ := Run.andThen_status_done _ _ h
      rw [dmd_transition_frame_mono descs a b flag nd nb s hab hfd,
        Run.andThen_done _ _ hfd, Run.andThen_done _ _ hfd, ih fuel2 _ (by omega) hld]

theorem dmd_do_transition_eq_init (descs : Nat → dmd_transition_t) (fuel : Nat) (s : DmdState) :
    dmd_do_transition descs fuel s
      = match (dmd_transition_entry s).dmd_transition with
        | none => ⟨Status.null_deref, dmd_transition_entry s, []⟩
        | some p =>
          ((dmd_transition_init (descs p) (dmd_transition_entry s)).andThen
            (dmd_transition_loop descs fuel (one_copy_flag s) s.dmd_low_page s.dmd_high_page
              fuel)).andThen
            fun s => Run.ret { s with dmd_transition := none } := rfl

theorem dmd_do_transition_mono (descs : Nat → dmd_transition_t) (fuel fuel2 : Nat)
    (s : DmdState) (hf : fuel ≤ fuel2)
    (h : (dmd_do_transition descs fuel s).status = Status.done) :
    dmd_do_transition descs fuel2 s = dmd_do_transition descs fuel s := by
  rw [dmd_do_transition_eq_init] at h ⊢
  rw [dmd_do_transition_eq_init]
  cases ht : (dmd_transition_entry s).dmd_transition with
  | none => rfl
  | some p =>
    rw [ht] at h
    simp only at h ⊢
    obtain ⟨h1, _⟩ := Run.andThen_status_done _ _ h
    obtain ⟨h2, h3⟩ := Run.andThen_status_done _ _ h1
    rw [Run.andThen_done _ _ h2, Run.andThen_done _ _ h2,
      dmd_transition_loop_mono descs fuel fuel2 _ _ _ fuel fuel2 _ hf hf h3]

/-- What the optional initializer leaves behind. -/
theorem dmd_transition_init_spec (t : dmd_transition_t) (hc : TransitionContract t)
    (s : DmdState) :
    (dmd_transition_init t s).status = Status.done
    ∧ (dmd_transition_init t s).trace.map Event.call = init_calls t
    ∧ (dmd_transition_init t s).state.dmd_transition = s.dmd_transition
    ∧ (dmd_transition_init t s).state.dmd_free_page = s.dmd_free_page := by
  unfold dmd_transition_init init_calls
  cases h : t.composite_init with
  | none => exact ⟨rfl, rfl, rfl, rfl⟩
  | some f => exact ⟨rfl, rfl, (hc.init f h).transition s, (hc.init f h).free_page s⟩

theorem Run.andThen_ret_trace (r : Run) (g : DmdState → DmdState) :
    (r.andThen fun s => Run.ret (g s)).trace = r.trace := by
  by_cases hd : r.status = Status.done
  · rw [Run.andThen_done r _ hd]
    simp [Run.ret]
  · rw [Run.andThen_not_done r _ hd]

/-- The calls `dmd_do_transition` makes: the initializer if there is one, then whole
cycles. -/
theorem dmd_do_transition_calls (descs : Nat → dmd_transition_t) (fuel p : Nat)
    (s : DmdState) (h : s.dmd_transition = some p) (hc : TransitionContract (descs p))
    (hf : 2 ≤ fuel) :
    ∃ k, k ≤ fuel
      ∧ (dmd_do_transition descs fuel s).trace.map Event.call
          = init_calls (descs p)
            ++ (List.replicate k (cycle_calls (one_copy_flag s) (descs p).delay)).flatten := by
  have hp : (dmd_transition_entry s).dmd_transition = some p := by
    rw [(dmd_transition_entry_fields s).2.1, h]
  obtain ⟨i1, i2, i3, _⟩ := dmd_transition_init_spec (descs p) hc (dmd_transition_entry s)
  obtain ⟨k, hk, hk2⟩ := dmd_transition_loop_calls descs fuel (one_copy_flag s) s.dmd_low_page
    s.dmd_high_page p hc hf fuel (dmd_transition_init (descs p) (dmd_transition_entry s)).state
    (by rw [i3, hp])
  refine ⟨k, hk, ?_⟩
  rw [dmd_do_transition_eq_init]
  simp only [hp]
  rw [Run.andThen_ret_trace, Run.andThen_done _ _ i1]
  simp only [List.map_append, i2, hk2]

/-- The sample descriptor keeps the engine's variables. -/
theorem two_step_contract : TransitionContract two_step where
  init := fun f hf => by cases hf
  old :=
    { free_page := fun _ => rfl, low_page := fun _ => rfl, high_page := fun _ => rfl,
      dark_page := fun _ => rfl, bright_page := fun _ => rfl,
      composite_page := fun _ => rfl, transition := fun _ => rfl }
  new :=
    { free_page := fun _ => by simp only [two_step]; split <;> rfl
      low_page := fun _ => by simp only [two_step]; split <;> rfl
      high_page := fun _ => by simp only [two_step]; split <;> rfl
      dark_page := fun _ => by simp only [two_step]; split <;> rfl
      bright_page := fun _ => by simp only [two_step]; split <;> rfl
      composite_page := fun _ => by simp only [two_step]; split <;> rfl
      transition := fun _ => by simp only [two_step]; split <;> rfl }

theorem dmd_transition_init_new (t : dmd_transition_t) (s e : DmdState) (ch : Channel) :
    Event.composite_new ch e ∉ (dmd_transition_init t s).trace := by
  unfold dmd_transition_init
  split <;> simp [Run.ret]

/-- What a run that has ended normally after at least one cycle leaves behind: every
larger bound gives the same run, `dmd_dark_page` is on the composite page of the last
cycle, `dmd_bright_page` on the same page when `one_copy_flag` is true and on the next
one otherwise, `dmd_transition` is null and `dmd_in_transition` false. -/
theorem dmd_do_transition_final (descs : Nat → dmd_transition_t) (fuel p : Nat)
    (s : DmdState) (h : s.dmd_transition = some p) (hc : TransitionContract (descs p))
    (hfree : s.dmd_free_page < DMD_PAGE_COUNT)
    (hdone : (dmd_do_transition descs fuel s).status = Status.done)
    (hcycle : ∃ ch e, Event.composite_new ch e ∈ (dmd_do_transition descs fuel s).trace) :
    (∀ fuel2, fuel ≤ fuel2 → dmd_do_transition descs fuel2 s = dmd_do_transition descs fuel s)
    ∧ (dmd_do_transition descs fuel s).state.dmd_dark_page
        = (dmd_do_transition descs fuel s).state.dmd_composite_page
    ∧ (dmd_do_transition descs fuel s).state.dmd_bright_page
        = (if one_copy_flag s then (dmd_do_transition descs fuel s).state.dmd_composite_page
           else (dmd_do_transition descs fuel s).state.dmd_composite_page + 1)
    ∧ (∃ e, last_callback (dmd_do_transition descs fuel s).trace = some e
        ∧ e.dmd_composite_page = (dmd_do_transition descs fuel s).state.dmd_composite_page)
    ∧ (dmd_do_transition descs fuel s).state.dmd_composite_page < DMD_PAGE_COUNT
    ∧ (dmd_do_transition descs fuel s).state.dmd_transition = none
    ∧ (dmd_do_transition descs fuel s).state.dmd_in_transition = false
    ∧ (∀ t, (dmd_sched_transition t (dmd_do_transition descs fuel s).state).dmd_transition = t
        ∧ (dmd_sched_transition t (dmd_do_transition descs fuel s).state).dmd_in_transition
            = true) := by
  refine ⟨fun fuel2 hf => dmd_do_transition_mono descs fuel fuel2 s hf hdone, ?_⟩
  obtain ⟨_, ht, _, hfr, _, _⟩ := dmd_transition_entry_fields s
  have hp : (dmd_transition_entry s).dmd_transition = some p := by rw [ht, h]
  obtain ⟨i1, _, i3, i4⟩ := dmd_transition_init_spec (descs p) hc (dmd_transition_entry s)
  rw [dmd_do_transition_eq_init] at hdone hcycle ⊢
  simp only [hp] at hdone hcycle ⊢
  obtain ⟨hd1, _⟩ := Run.andThen_status_done _ _ hdone
  obtain ⟨_, hd2⟩ := Run.andThen_status_done _ _ hd1
  rw [Run.andThen_ret_trace] at hcycle ⊢
  rw [Run.andThen_done _ _ hd1]
  rw [Run.andThen_done _ _ i1] at hcycle ⊢
  simp only at hcycle ⊢
  have hin : (dmd_transition_init (descs p) (dmd_transition_entry s)).state.dmd_in_transition
      = true := by
    by_contra hne
    have hfalse : (dmd_transition_init (descs p)
        (dmd_transition_entry s)).state.dmd_in_transition = false := by
      simpa using hne
    obtain ⟨ch, e, he⟩ := hcycle
    rw [dmd_transition_loop_idle _ _ _ _ _ _ _ hfalse] at he
    simp only [Run.ret, List.append_nil] at he
    exact dmd_transition_init_new _ _ _ _ he
  obtain ⟨f1, f2, f3, f4, _, e, f6, f7⟩ := dmd_transition_loop_final descs fuel (one_copy_flag s)
    s.dmd_low_page s.dmd_high_page p hc fuel _ (by rw [i3, hp]) (by rw [i4, hfr]; exact hfree)
    hin hd2
  refine ⟨f2, f3, ⟨e, ?_, f7⟩, f4, rfl, f1, fun t => ⟨rfl, rfl⟩⟩
  rw [last_callback_append, f6]

/-! ## Shadow registers, scheduling and the other page -/

/-- C13: for every `U8` value `v`, `wpc_dmd_set_low_page v` writes `v` to the low
mapping register and to `dmd_low_page`, so `wpc_dmd_get_low_page` returns `v`, and it
leaves `dmd_high_page`, the high register and everything else unchanged; the same holds
for the high side with the roles exchanged.  The getters return the shadow variables;
they are functions of the state and produce no new state. -/
theorem wpc_dmd_shadow_round_trip (v : Nat) (s : DmdState) (hv : v < 256) :
    (wpc_dmd_set_low_page v s).port_low_page = v
    ∧ wpc_dmd_get_low_page (wpc_dmd_set_low_page v s) = v
    ∧ wpc_dmd_get_high_page (wpc_dmd_set_low_page v s) = wpc_dmd_get_high_page s
    ∧ wpc_dmd_set_low_page v s = { s with dmd_low_page := v, port_low_page := v }
    ∧ (wpc_dmd_set_high_page v s).port_high_page = v
    ∧ wpc_dmd_get_high_page (wpc_dmd_set_high_page v s) = v
    ∧ wpc_dmd_get_low_page (wpc_dmd_set_high_page v s) = wpc_dmd_get_low_page s
    ∧ wpc_dmd_set_high_page v s = { s with dmd_high_page := v, port_high_page := v }
    ∧ wpc_dmd_get_low_page s = s.dmd_low_page
    ∧ wpc_dmd_get_high_page s = s.dmd_high_page := by
  have e : v % 256 = v := Nat.mod_eq_of_lt hv
  simp [wpc_dmd_set_low_page, wpc_dmd_set_high_page, wpc_dmd_get_low_page,
    wpc_dmd_get_high_page, e]

theorem wpc_dmd_shadow_round_trip_witness :
    (wpc_dmd_set_low_page 7 (dmd_init power_on)).port_low_page = 7
    ∧ wpc_dmd_get_low_page (wpc_dmd_set_low_page 7 (dmd_init power_on)) = 7 :=
  ⟨(wpc_dmd_shadow_round_trip 7 (dmd_init power_on) (by decide)).1,
    (wpc_dmd_shadow_round_trip 7 (dmd_init power_on) (by decide)).2.1⟩

/-- C14: when `dmd_transition` is null, `dmd_show_other` returns at once with
`dmd_dark_page = dmd_bright_page = dmd_high_page` if `dmd_dark_page = dmd_low_page` and
with `dmd_dark_page = dmd_bright_page = dmd_low_page` otherwise.  When the two mapped
pages differ and a mono image is displayed from one of them, the call displays the
other one and a second call brings back the state before the first. -/
theorem dmd_show_other_toggles (descs : Nat → dmd_transition_t) (fuel : Nat) (s : DmdState)
    (h : s.dmd_transition = none) :
    dmd_show_other descs fuel s
      = ⟨Status.done,
          { s with
            dmd_dark_page := if s.dmd_dark_page = s.dmd_low_page then s.dmd_high_page
                             else s.dmd_low_page,
            dmd_bright_page := if s.dmd_dark_page = s.dmd_low_page then s.dmd_high_page
                               else s.dmd_low_page }, []⟩
    ∧ (s.dmd_low_page ≠ s.dmd_high_page → s.dmd_dark_page = s.dmd_bright_page →
        (s.dmd_dark_page = s.dmd_low_page ∨ s.dmd_dark_page = s.dmd_high_page) →
        (dmd_show_other descs fuel s).state.dmd_dark_page ≠ s.dmd_dark_page
        ∧ ((dmd_show_other descs fuel s).state.dmd_dark_page = s.dmd_low_page
            ∨ (dmd_show_other descs fuel s).state.dmd_dark_page = s.dmd_high_page)
        ∧ (dmd_show_other descs fuel s).state.dmd_bright_page
            = (dmd_show_other descs fuel s).state.dmd_dark_page
        ∧ (dmd_show_other descs fuel (dmd_show_other descs fuel s).state).state = s) := by
  have key : ∀ t : DmdState, t.dmd_transition = none →
      dmd_show_other descs fuel t
        = ⟨Status.done,
            { t with
              dmd_dark_page := if t.dmd_dark_page = t.dmd_low_page then t.dmd_high_page
                               else t.dmd_low_page,
              dmd_bright_page := if t.dmd_dark_page = t.dmd_low_page then t.dmd_high_page
                                 else t.dmd_low_page }, []⟩ := by
    intro t ht
    unfold dmd_show_other
    split <;> simp [dmd_show_low, dmd_show_high, ht, Run.ret]
  refine ⟨key s h, ?_⟩
  intro hne hmono hone
  have e1 := key s h
  have ht : (dmd_show_other descs fuel s).state.dmd_transition = none := by
    rw [e1]; exact h
  rw [key _ ht, e1]
  obtain ⟨fp, lo, hi, dk, br, fc, it, tr, p1, p2, cp, pl, ph, pv, pf, ps⟩ := s
  simp only at hne hmono hone ⊢
  subst hmono
  rcases hone with rfl | rfl
  · simp [hne, Ne.symm hne]
  · simp [hne, Ne.symm hne]

theorem dmd_show_other_toggles_witness :
    (dmd_show_low (fun _ => two_step) 0 (dmd_alloc_low_high numbered_pages)).state.dmd_transition
      = none
    ∧ (dmd_show_other (fun _ => two_step) 0
        (dmd_show_low (fun _ => two_step) 0
          (dmd_alloc_low_high numbered_pages)).state).state.dmd_dark_page = 3
    ∧ (dmd_show_other (fun _ => two_step) 0
        (dmd_show_other (fun _ => two_step) 0
          (dmd_show_low (fun _ => two_step) 0 (dmd_alloc_low_high numbered_pages)).state).state).state
        = (dmd_show_low (fun _ => two_step) 0 (dmd_alloc_low_high numbered_pages)).state :=
  ⟨rfl, by decide,
    ((dmd_show_other_toggles (fun _ => two_step) 0
      (dmd_show_low (fun _ => two_step) 0 (dmd_alloc_low_high numbered_pages)).state rfl).2
      (by decide) (by decide) (by decide)).2.2.2⟩

/-- C15: `dmd_sched_transition t` stores `t` in `dmd_transition`, sets
`dmd_in_transition` and changes nothing else: the visible and mapped pages, the cursor,
the flip counter and the page contents keep their values, and being a function of the
state alone it calls no callback.  The next show call is the one that runs
`dmd_do_transition`. -/
theorem dmd_sched_transition_effect (descs : Nat → dmd_transition_t) (fuel p : Nat)
    (t : Option Nat) (s : DmdState) :
    (dmd_sched_transition t s).dmd_transition = t
    ∧ (dmd_sched_transition t s).dmd_in_transition = true
    ∧ (dmd_sched_transition t s).dmd_dark_page = s.dmd_dark_page
    ∧ (dmd_sched_transition t s).dmd_bright_page = s.dmd_bright_page
    ∧ (dmd_sched_transition t s).dmd_low_page = s.dmd_low_page
    ∧ (dmd_sched_transition t s).dmd_high_page = s.dmd_high_page
    ∧ (dmd_sched_transition t s).dmd_free_page = s.dmd_free_page
    ∧ (dmd_sched_transition t s).dmd_page_flip_count = s.dmd_page_flip_count
    ∧ (dmd_sched_transition t s).page_store = s.page_store
    ∧ dmd_sched_transition t s = { s with dmd_transition := t, dmd_in_transition := true }
    ∧ dmd_show_low descs fuel (dmd_sched_transition (some p) s)
        = dmd_do_transition descs fuel (dmd_sched_transition (some p) s)
    ∧ dmd_show_high descs fuel (dmd_sched_transition (some p) s)
        = dmd_do_transition descs fuel (dmd_sched_transition (some p) s)
    ∧ dmd_show2 descs fuel (dmd_sched_transition (some p) s)
        = dmd_do_transition descs fuel (dmd_sched_transition (some p) s) :=
  ⟨rfl, rfl, rfl, rfl, rfl, rfl, rfl, rfl, rfl, rfl, rfl, rfl, rfl⟩

/-! ## Allocation in pairs -/

/-- In a state reached without a transition the cursor is even and below the pool
size, and no transition is scheduled. -/
theorem CutReachable.cursor {descs : Nat → dmd_transition_t} {s : DmdState}
    (h : CutReachable descs s) :
    s.dmd_free_page % 2 = 0 ∧ s.dmd_free_page < 16 ∧ s.dmd_transition = none := by
  induction h with
  | init s0 =>
    have e : (dmd_init s0).dmd_free_page = 2 := rfl
    have e2 : (dmd_init s0).dmd_transition = none := rfl
    rw [e, e2]
    exact ⟨by decide, by decide, rfl⟩
  | alloc_low s _ ih =>
    obtain ⟨h1, h2, h3⟩ := ih
    have e : (dmd_alloc_low s).dmd_free_page = (s.dmd_free_page + 2) % 256 % 16 := rfl
    have e2 : (dmd_alloc_low s).dmd_transition = s.dmd_transition := rfl
    rw [e, e2]
    exact ⟨by omega, by omega, h3⟩
  | alloc_high s _ ih =>
    obtain ⟨h1, h2, h3⟩ := ih
    have e : (dmd_alloc_high s).dmd_free_page = (s.dmd_free_page + 2) % 256 % 16 := rfl
    have e2 : (dmd_alloc_high s).dmd_transition = s.dmd_transition := rfl
    rw [e, e2]
    exact ⟨by omega, by omega, h3⟩
  | alloc_low_high s _ ih =>
    obtain ⟨h1, h2, h3⟩ := ih
    have e : (dmd_alloc_low_high s).dmd_free_page = (s.dmd_free_page + 2) % 256 % 16 := rfl
    have e2 : (dmd_alloc_low_high s).dmd_transition = s.dmd_transition := rfl
    rw [e, e2]
    exact ⟨by omega, by omega, h3⟩
  | show_low s fuel _ ih =>
    obtain ⟨h1, h2, h3⟩ := ih
    simp [dmd_show_low, h3, Run.ret, h1, h2]
  | show_high s fuel _ ih =>
    obtain ⟨h1, h2, h3⟩ := ih
    simp [dmd_show_high, h3, Run.ret, h1, h2]
  | show_other s fuel _ ih =>
    obtain ⟨h1, h2, h3⟩ := ih
    unfold dmd_show_other
    split <;> simp [dmd_show_low, dmd_show_high, h3, Run.ret, h1, h2]
  | show2 s fuel _ ih =>
    obtain ⟨h1, h2, h3⟩ := ih
    simp [dmd_show2, h3, Run.ret, h1, h2]

/-- C12: in every state reached from `dmd_init` by the allocation and cut-path show
functions the cursor is even and below `DMD_PAGE_COUNT`; there `dmd_alloc` returns
the cursor `p`, `dmd_alloc_low` maps `p` to both `dmd_low_page` and `dmd_high_page`
(variables and registers), `dmd_alloc_low_high` maps `p` to `dmd_low_page` and `p + 1`
to `dmd_high_page`, `p` is even and `p + 1` is below `DMD_PAGE_COUNT`, so the two pages
of a pair are the neighbours `2k`, `2k + 1` and never the last and the first page. -/
theorem dmd_alloc_maps_pairs (descs : Nat → dmd_transition_t) (s : DmdState)
    (h : CutReachable descs s) :
    s.dmd_free_page % 2 = 0 ∧ s.dmd_free_page < DMD_PAGE_COUNT
    ∧ (dmd_alloc s).1 = s.dmd_free_page
    ∧ (dmd_alloc_low s).dmd_low_page = (dmd_alloc s).1
    ∧ (dmd_alloc_low s).dmd_high_page = (dmd_alloc s).1
    ∧ (dmd_alloc_low s).port_low_page = (dmd_alloc s).1
    ∧ (dmd_alloc_low s).port_high_page = (dmd_alloc s).1
    ∧ (dmd_alloc_low_high s).dmd_low_page = (dmd_alloc s).1
    ∧ (dmd_alloc_low_high s).dmd_high_page = (dmd_alloc s).1 + 1
    ∧ (dmd_alloc_low_high s).port_low_page = (dmd_alloc s).1
    ∧ (dmd_alloc_low_high s).port_high_page = (dmd_alloc s).1 + 1
    ∧ (dmd_alloc s).1 % 2 = 0
    ∧ (dmd_alloc s).1 + 1 < DMD_PAGE_COUNT
    ∧ (dmd_alloc_low_high s).dmd_high_page / 2 = (dmd_alloc_low_high s).dmd_low_page / 2 := by
  obtain ⟨h1, h2, _⟩ := h.cursor
  have e1 : s.dmd_free_page % 256 = s.dmd_free_page := by omega
  have e2 : (s.dmd_free_page + 1) % 256 = s.dmd_free_page + 1 := by omega
  have e3 : (s.dmd_free_page + 1) / 2 = s.dmd_free_page / 2 := by omega
  have e4 : s.dmd_free_page + 1 < 16 := by omega
  simp [dmd_alloc_low, dmd_alloc_low_high, dmd_alloc, wpc_dmd_set_low_page,
    wpc_dmd_set_high_page, wpc_dmd_get_low_page, h1, h2, e1, e2, e3, e4]

theorem dmd_alloc_maps_pairs_witness :
    (dmd_alloc_low_high
        (dmd_show2 (fun _ => two_step) 0 (dmd_alloc_low_high (dmd_init power_on))).state).dmd_low_page
      = 4
    ∧ (dmd_alloc_low_high
        (dmd_show2 (fun _ => two_step) 0
          (dmd_alloc_low_high (dmd_init power_on))).state).dmd_high_page
      = (dmd_alloc
          (dmd_show2 (fun _ => two_step) 0 (dmd_alloc_low_high (dmd_init power_on))).state).1 + 1 :=
  ⟨by decide,
    (dmd_alloc_maps_pairs (fun _ => two_step)
      (dmd_show2 (fun _ => two_step) 0 (dmd_alloc_low_high (dmd_init power_on))).state
      (CutReachable.show2 _ 0
        (CutReachable.alloc_low_high _ (CutReachable.init power_on)))).2.2.2.2.2.2.2.2.1⟩

/-! ## Page copy -/

/-- C16: `dmd_copy_low_to_high` makes every one of the `DMD_PAGE_SIZE` bytes of the
page mapped high equal to the byte at the same offset of the page mapped low, leaves the
page mapped low and the mapping unchanged; after `dmd_draw_image img` the page mapped
low holds `img`, and after the copy both mapped pages hold `img`, byte for byte. -/
theorem dmd_copy_low_to_high_round_trip (img : Nat → Nat) (s : DmdState) (off : Nat)
    (h : off < DMD_PAGE_SIZE) :
    (dmd_copy_low_to_high s).page_store (dmd_high_buffer s) off
      = s.page_store (dmd_low_buffer s) off
    ∧ (∀ k, (dmd_copy_low_to_high s).page_store (dmd_low_buffer s) k
        = s.page_store (dmd_low_buffer s) k)
    ∧ dmd_low_buffer (dmd_copy_low_to_high s) = dmd_low_buffer s
    ∧ dmd_high_buffer (dmd_copy_low_to_high s) = dmd_high_buffer s
    ∧ (dmd_draw_image img s).page_store (dmd_low_buffer s) off = img off
    ∧ (dmd_copy_low_to_high (dmd_draw_image img s)).page_store (dmd_low_buffer s) off = img off
    ∧ (dmd_copy_low_to_high (dmd_draw_image img s)).page_store (dmd_high_buffer s) off
        = img off := by
  have h512 : off < 512 := h
  refine ⟨?_, ?_, rfl, rfl, ?_, ?_, ?_⟩
  · simp [dmd_copy_low_to_high, dmd_copy_page, h512]
  · intro k
    simp only [dmd_copy_low_to_high, dmd_copy_page]
    split
    · rename_i hk
      rw [hk.1]
    · rfl
  · simp [dmd_draw_image, dmd_copy_page, h512]
  · simp only [dmd_copy_low_to_high, dmd_draw_image, dmd_copy_page, dmd_low_buffer,
      dmd_high_buffer]
    simp [h512]
  · simp only [dmd_copy_low_to_high, dmd_draw_image, dmd_copy_page, dmd_low_buffer,
      dmd_high_buffer]
    simp [h512]

theorem dmd_copy_low_to_high_round_trip_witness :
    (dmd_copy_low_to_high
        (dmd_draw_image (fun k => k % 256) (dmd_alloc_low_high numbered_pages))).page_store
      (dmd_high_buffer (dmd_alloc_low_high numbered_pages)) 511 = 511 % 256
    ∧ dmd_high_buffer (dmd_alloc_low_high numbered_pages) = 3 :=
  ⟨(dmd_copy_low_to_high_round_trip (fun k => k % 256) (dmd_alloc_low_high numbered_pages) 511
      (by decide)).2.2.2.2.2.2,
    by decide⟩

/-! ## Real-time clock -/

/-- C19: for a year offset below 100 and a month from 1 to 12 the index `month-1`
is inside the 12-entry table and `rtc_days_in_current_month` returns the number of
days the Gregorian calendar gives that month of year `2000 + year`. -/
theorem rtc_days_in_current_month_correct (r : RtcState) (hy : r.year < 100)
    (h1 : 1 ≤ r.month) (h12 : r.month ≤ 12) :
    rtc_days_in_current_month r = some (gregorian_days_in_month (2000 + r.year) r.month)
    ∧ r.month - 1 < days_in_month_table.length
    ∧ (gregorian_days_in_month (2000 + r.year) 2 = 29 ↔ gregorian_leap_year (2000 + r.year) = true)
    ∧ (gregorian_leap_year (2000 + r.year) = true ↔ r.year % 4 = 0) := by
  obtain ⟨y, m, d, hr, w⟩ := r
  simp only at hy h1 h12 ⊢
  have hleap : gregorian_leap_year (2000 + y) = true ↔ y % 4 = 0 := by
    simp only [gregorian_leap_year, decide_eq_true_eq]
    omega
  refine ⟨?_, by simp [days_in_month_table]; omega, ?_, hleap⟩
  · interval_cases m <;>
      simp [rtc_days_in_current_month, days_in_month_table, gregorian_days_in_month]
    by_cases hl : y % 4 = 0
    · simp [hl, hleap.mpr hl]
    · have : gregorian_leap_year (2000 + y) = false := by
        cases hg : gregorian_leap_year (2000 + y)
        · rfl
        · exact absurd (hleap.mp hg) hl
      simp [hl, this]
  · simp only [gregorian_days_in_month]
    cases gregorian_leap_year (2000 + y) <;> simp

theorem rtc_days_in_current_month_correct_witness :
    rtc_days_in_current_month ⟨24, 2, 10, 0, 0⟩ = some 29
    ∧ rtc_days_in_current_month ⟨26, 2, 10, 0, 0⟩ = some 28 :=
  ⟨(rtc_days_in_current_month_correct ⟨24, 2, 10, 0, 0⟩ (by decide) (by decide) (by decide)).1,
    (rtc_days_in_current_month_correct ⟨26, 2, 10, 0, 0⟩ (by decide) (by decide) (by decide)).1⟩

/-! ## Evaluations at failing inputs -/

/-- C11 (evaluation at the failing input): with the mono image on display on page 15
and a 4-colour image allocated on pages 0 and 1, `dmd_show2` with a scheduled
transition writes 16 to `dmd_high_page` and its register and to `dmd_bright_page`
before the first callback; the register value selects page 0, the incoming dark page,
which receives the contents of page 15. -/
theorem dmd_show2_from_page_15_leaves_range :
    last_page_to_color.dmd_transition = some 0
    ∧ (last_page_to_color.dmd_dark_page, last_page_to_color.dmd_bright_page) = (15, 15)
    ∧ (last_page_to_color.dmd_low_page, last_page_to_color.dmd_high_page) = (0, 1)
    ∧ (dmd_transition_entry last_page_to_color).dmd_high_page = 16
    ∧ (dmd_transition_entry last_page_to_color).port_high_page = 16
    ∧ (dmd_transition_entry last_page_to_color).dmd_bright_page = 16
    ∧ (first_callback (dmd_show2 (fun _ => two_step) 2 last_page_to_color).trace).map
        DmdState.dmd_bright_page = some 16
    ∧ last_page_to_color.page_store 0 0 = 0
    ∧ (first_callback (dmd_show2 (fun _ => two_step) 2 last_page_to_color).trace).map
        (fun e => e.page_store 0 0) = some 15 := by
  decide

/-- C20 (evaluation at the failing input): with the mono image on display on page 3,
the odd page of its pair, and a 4-colour image allocated on pages 4 and 5, the
normalization of `dmd_show2` copies page 3 over page 4, the incoming dark page, before
the first callback. -/
theorem dmd_show2_from_odd_page_overwrites_new_dark :
    odd_page_to_color.dmd_transition = some 0
    ∧ (odd_page_to_color.dmd_dark_page, odd_page_to_color.dmd_bright_page) = (3, 3)
    ∧ (odd_page_to_color.dmd_low_page, odd_page_to_color.dmd_high_page) = (4, 5)
    ∧ odd_page_to_color.page_store 4 0 = 4
    ∧ (dmd_transition_entry odd_page_to_color).page_store 4 0 = 3
    ∧ (dmd_transition_entry odd_page_to_color).dmd_bright_page = 4
    ∧ (first_callback (dmd_show2 (fun _ => two_step) 2 odd_page_to_color).trace).map
        (fun e => (e.page_store 4 0, e.dmd_bright_page)) = some (3, 4) := by
  decide

/-- C18 (evaluation at the failing input): for 1 January 2000, a Saturday (6),
`rtc_calc_day_of_week` gives 1; for 1 March 2004, a Monday (1), it gives 2; for the
factory-reset date 1 January 2006, a Sunday, it gives 0. -/
theorem rtc_calc_day_of_week_leap_year :
    (rtc_calc_day_of_week ⟨0, 1, 1, 0, 0⟩).map RtcState.day_of_week = some 1
    ∧ gregorian_day_of_week 2000 1 1 = 6
    ∧ (rtc_calc_day_of_week ⟨4, 3, 1, 0, 0⟩).map RtcState.day_of_week = some 2
    ∧ gregorian_day_of_week 2004 3 1 = 1
    ∧ (rtc_factory_reset ⟨0, 0, 0, 0, 0⟩).map RtcState.day_of_week = some 0
    ∧ gregorian_day_of_week 2006 1 1 = 0 := by
  decide

/-! ## Day of the week: what the code computes -/

theorem gregorian_leap_year_offset (y : Nat) (hy : y < 100) :
    gregorian_leap_year (2000 + y) = decide (y % 4 = 0) := by
  simp only [gregorian_leap_year]
  by_cases h : y % 4 = 0
  · simp [h]; omega
  · simp [h]; omega

theorem gregorian_days_before_year (n : Nat) (hn : n ≤ 100) :
    ((List.range n).map fun k => gregorian_days_in_year (2000 + k)).sum
      = 365 * n + (n + 3) / 4 := by
  induction n with
  | zero => rfl
  | succ n ih =>
    rw [List.range_succ, List.map_append, List.sum_append, ih (by omega)]
    simp only [List.map_cons, List.map_nil, List.sum_cons, List.sum_nil, gregorian_days_in_year,
      gregorian_leap_year_offset n (by omega)]
    by_cases h : n % 4 = 0
    · simp [h]; omega
    · simp [h]; omega

theorem u8_decrement (x : Nat) (h1 : 1 ≤ x) (h2 : x ≤ 256) : (x + 255) % 256 = x - 1 := by
  omega

/-- For every valid date of 2000-2099 the sum formed by `rtc_calc_day_of_week` stays
inside a `U8`; in a common year the result is the day of the week of the calendar, and
in a leap year it is two days late in January and February and one day late from March
on. -/
theorem rtc_calc_day_of_week_offset (r : RtcState) (hy : r.year < 100)
    (h1 : 1 ≤ r.month) (h12 : r.month ≤ 12) (hd1 : 1 ≤ r.day)
    (hd : r.day ≤ gregorian_days_in_month (2000 + r.year) r.month) :
    rtc_calc_day_of_week r
      = some { r with day_of_week :=
          (gregorian_day_of_week (2000 + r.year) r.month r.day
            + (if r.year % 4 = 0 then (if r.month ≤ 2 then 2 else 1) else 0)) % 7 } := by
  obtain ⟨y, m, d, hr, w⟩ := r
  simp only at hy h1 h12 hd1 hd ⊢
  have hs := gregorian_days_before_year y (by omega)
  have hl := gregorian_leap_year_offset y hy
  have e : 2000 + y - 2000 = y := by omega
  obtain ⟨d, rfl⟩ : ∃ k, d = k + 1 := ⟨d - 1, by omega⟩
  by_cases h4 : y % 4 = 0
  · have hq : (y + 3) / 4 = y / 4 := by omega
    interval_cases m <;>
      simp [rtc_calc_day_of_week, day_of_week_month_code, gregorian_day_of_week,
        days_since_2000, e, hs, hq, List.range_succ, gregorian_days_in_month, hl, h4] at hd ⊢ <;>
      rw [u8_decrement] <;> omega
  · have hq : (y + 3) / 4 = y / 4 + 1 := by omega
    interval_cases m <;>
      simp [rtc_calc_day_of_week, day_of_week_month_code, gregorian_day_of_week,
        days_since_2000, e, hs, hq, List.range_succ, gregorian_days_in_month, hl, h4] at hd ⊢ <;>
      rw [u8_decrement] <;> omega

/-! ## Normalization: which page is written -/

/-- When the incoming image is 4-colour, lines 599-603 copy page `dmd_dark_page`
(as the mapping register selects it) over the page selected by `dmd_dark_page + 1`,
touch no other page, and leave `dmd_dark_page + 1` in `dmd_high_page` and
`dmd_bright_page`. -/
theorem dmd_transition_entry_color (s : DmdState) (h : s.dmd_low_page ≠ s.dmd_high_page) :
    (dmd_transition_entry s).page_store
      = (fun pg off =>
          if pg = (s.dmd_dark_page + 1) % 256 % 16 ∧ off < DMD_PAGE_SIZE then
            s.page_store (s.dmd_dark_page % 256 % 16) off
          else s.page_store pg off)
    ∧ (dmd_transition_entry s).dmd_high_page = (s.dmd_dark_page + 1) % 256
    ∧ (dmd_transition_entry s).dmd_bright_page = (s.dmd_dark_page + 1) % 256
    ∧ (dmd_transition_entry s).dmd_low_page = s.dmd_low_page % 256 := by
  have hf : one_copy_flag { s with dmd_trans_data_ptr := 0 } = false := by
    simp [one_copy_flag, h]
  simp only [dmd_transition_entry, hf]
  simp [dmd_transition_normalize, h, dmd_copy_low_to_high, dmd_copy_page, dmd_high_buffer,
    dmd_low_buffer, wpc_dmd_set_low_page, wpc_dmd_set_high_page]

/-! ## Erase and blit: evaluations at failing inputs -/

/-- C27 (evaluation at the failing input): with x = 112, y = 0, width = 16,
height = 32, all multiples of 8 with x + width = 128 and y + height = 32, the last row
of `dmd_erase_region` and of `dmd_draw_bitmap` is written at offsets 720 and 721 from
the start of the page mapped low, beyond `DMD_PAGE_SIZE`. -/
theorem dmd_erase_and_blit_leave_page :
    112 + 16 ≤ 128 ∧ 0 + 32 ≤ 32
    ∧ DMD_PAGE_SIZE ≤ 720
    ∧ [720, 721].map ((dmd_alloc_low numbered_pages).page_store 2) = [2, 2]
    ∧ [720, 721].map
        ((dmd_erase_region 112 0 16 32 (dmd_alloc_low numbered_pages)).page_store 2) = [0, 0]
    ∧ [720, 721].map
        ((dmd_draw_bitmap (fun k => 100 + k) 112 0 16 32
          (dmd_alloc_low numbered_pages)).page_store 2) = [162, 163] := by
  decide

/-! ## The 6809 modulo -/

theorem rtc_mod7_6809_eq (x : Nat) : rtc_mod7_6809 x = x % 7 := by
  induction x using Nat.strong_induction_on with
  | _ x ih =>
    rw [rtc_mod7_6809]
    split
    · split
      · rw [ih _ (by omega)]; omega
      · rw [ih _ (by omega)]; omega
    · omega

/-- C29: the loop used on the 6809 is a total function and returns `x mod 7` for
every input, so `rtc_calc_day_of_week` gives the same result in both variants. -/
theorem rtc_calc_day_of_week_6809_eq (r : RtcState) (x : Nat) :
    rtc_mod7_6809 x = x % 7
    ∧ rtc_mod7_6809 x < 7
    ∧ rtc_calc_day_of_week_6809 r = rtc_calc_day_of_week r := by
  refine ⟨rtc_mod7_6809_eq x, ?_, ?_⟩
  · rw [rtc_mod7_6809_eq]; omega
  · simp only [rtc_calc_day_of_week_6809, rtc_calc_day_of_week, rtc_mod7_6809_eq]

/-! ## Page inversion -/

theorem invert16_apply (buf : Nat → Nat) (off k : Nat) :
    invert16 buf off k = if k = off ∨ k = off + 1 then 255 - buf k % 256 else buf k := by
  unfold invert16 load16
  by_cases h1 : k = off
  · subst h1
    simp only [true_or, if_true]
    omega
  · by_cases h2 : k = off + 1
    · subst h2
      simp only [h1, or_true, if_true, if_false]
      omega
    · simp [h1, h2]

theorem dmd_invert_page_loop_apply (count dbuf16 : Nat) (buf : Nat → Nat) (k : Nat) :
    dmd_invert_page_loop count dbuf16 buf k
      = if dbuf16 ≤ k ∧ k < dbuf16 + 8 * count then 255 - buf k % 256 else buf k := by
  induction count generalizing dbuf16 buf with
  | zero =>
    have hf : ¬ (dbuf16 ≤ k ∧ k < dbuf16 + 8 * 0) := by omega
    simp only [dmd_invert_page_loop, hf, if_false]
  | succ count ih =>
    simp only [dmd_invert_page_loop, ih, invert16_apply]
    split_ifs <;> omega

/-- C28: `dmd_invert_page` runs `DMD_PAGE_SIZE / 8 = 64` passes of four words and
replaces each of the 512 bytes of the page by its complement `255 - b`; bytes past the
page and other pages are unchanged, and on a page of bytes a second call restores the
contents. -/
theorem dmd_invert_page_complements (dbuf : Nat) (s : DmdState)
    (hb : ∀ off, s.page_store dbuf off < 256) :
    DMD_PAGE_SIZE / (2 * 4) = 64
    ∧ (∀ off, off < DMD_PAGE_SIZE →
        (dmd_invert_page dbuf s).page_store dbuf off = 255 - s.page_store dbuf off)
    ∧ (∀ off, DMD_PAGE_SIZE ≤ off →
        (dmd_invert_page dbuf s).page_store dbuf off = s.page_store dbuf off)
    ∧ (∀ pg off, pg ≠ dbuf → (dmd_invert_page dbuf s).page_store pg off = s.page_store pg off)
    ∧ (dmd_invert_page dbuf (dmd_invert_page dbuf s)).page_store = s.page_store
    ∧ dmd_invert_page dbuf (dmd_invert_page dbuf s) = s := by
  have key : ∀ (t : DmdState) (pg off : Nat), (dmd_invert_page dbuf t).page_store pg off
      = if pg = dbuf ∧ off < 512 then 255 - t.page_store dbuf off % 256
        else t.page_store pg off := by
    intro t pg off
    have e64 : DMD_PAGE_SIZE / (2 * 4) = 64 := by decide
    simp only [dmd_invert_page, e64, dmd_invert_page_loop_apply]
    by_cases hp : pg = dbuf
    · subst hp
      by_cases ho : off < 512
      · have h1 : 0 ≤ off ∧ off < 0 + 8 * 64 := by omega
        simp only [h1, ho, and_self, if_true]
      · have h1 : ¬ (0 ≤ off ∧ off < 0 + 8 * 64) := by omega
        simp only [h1, ho, and_false, if_false, if_true]
    · simp only [hp, false_and, if_false]
  have hstore : (dmd_invert_page dbuf (dmd_invert_page dbuf s)).page_store = s.page_store := by
    funext pg off
    rw [key, key]
    by_cases hp : pg = dbuf
    · subst hp
      by_cases ho : off < 512
      · have := hb off
        simp only [ho, and_self, if_true]
        omega
      · simp [ho, key]
    · simp [hp, key]
  refine ⟨by decide, ?_, ?_, ?_, hstore, ?_⟩
  · intro off ho
    have := hb off
    rw [key]
    simp only [show off < 512 from ho, and_self, if_true]
    omega
  · intro off ho
    rw [key]
    simp [show ¬ off < 512 from by simp only [DMD_PAGE_SIZE] at ho; omega]
  · intro pg off hp
    rw [key]
    simp [hp]
  · have e : dmd_invert_page dbuf (dmd_invert_page dbuf s)
        = { s with page_store := (dmd_invert_page dbuf (dmd_invert_page dbuf s)).page_store } := rfl
    rw [e, hstore]

theorem dmd_invert_page_complements_witness :
    (∀ off, numbered_pages.page_store 2 off < 256)
    ∧ (dmd_invert_page 2 numbered_pages).page_store 2 511 = 255 - numbered_pages.page_store 2 511
    ∧ dmd_invert_page 2 (dmd_invert_page 2 numbered_pages) = numbered_pages :=
  ⟨fun _ => (by decide : 2 < 256),
    (dmd_invert_page_complements 2 numbered_pages
      (fun _ => (by decide : 2 < 256))).2.1 511 (by decide),
    (dmd_invert_page_complements 2 numbered_pages
      (fun _ => (by decide : 2 < 256))).2.2.2.2.2⟩

/-! ## Normalization of the date -/

theorem rtc_calc_day_of_week_some (r : RtcState) (h1 : 1 ≤ r.month) (h12 : r.month ≤ 12) :
    ∃ w, rtc_calc_day_of_week r = some { r with day_of_week := w } := by
  obtain ⟨y, m, d, hr, w⟩ := r
  simp only at h1 h12
  interval_cases m <;> exact ⟨_, rfl⟩

theorem rtc_days_in_current_month_eq (r : RtcState) (hy : r.year < 100)
    (h1 : 1 ≤ r.month) (h12 : r.month ≤ 12) :
    rtc_days_in_current_month r = some (gregorian_days_in_month (2000 + r.year) r.month) := by
  obtain ⟨y, m, d, hr, w⟩ := r
  simp only at hy h1 h12 ⊢
  have hl := gregorian_leap_year_offset y hy
  interval_cases m <;>
    simp [rtc_days_in_current_month, days_in_month_table, gregorian_days_in_month, hl]
  by_cases h4 : y % 4 = 0 <;> simp [h4]

theorem gregorian_days_in_month_bounds (y m : Nat) (h1 : 1 ≤ m) (h12 : m ≤ 12) :
    28 ≤ gregorian_days_in_month y m ∧ gregorian_days_in_month y m ≤ 31 := by
  interval_cases m <;> simp only [gregorian_days_in_month] <;>
    first
    | omega
    | (split <;> omega)

theorem day_number_last : days_since_2000 2100 1 1 = 36525 := by
  have := gregorian_days_before_year 100 (le_refl 100)
  simp only [days_since_2000]
  simpa using this

/-- One pass of the loop on a valid date other than 31 December 2099: the date moves
to the next day of the calendar. -/
theorem rtc_normalize_loop_step (fuel : Nat) (r : RtcState) (clk : Nat) (hv : r.valid)
    (hh : 24 ≤ r.hour) (hlast : r.day_number + 1 < 36525) :
    ∃ r1, rtc_normalize_loop (fuel + 1) r clk
            = rtc_normalize_loop fuel r1 ((clk + 256 - 24) % 256)
      ∧ r1.valid ∧ r1.hour = r.hour - 24 ∧ r1.day_number = r.day_number + 1
      ∧ r1.date = gregorian_next_day r.date := by
  obtain ⟨y, m, d, hr, w⟩ := r
  obtain ⟨hy, h1, h12, hd1, hd⟩ := hv
  simp only at hy h1 h12 hd1 hd hh
  simp only [RtcState.day_number] at hlast ⊢
  have hl := gregorian_leap_year_offset y hy
  have hl1 : y + 1 < 100 → gregorian_leap_year (2000 + (y + 1)) = decide ((y + 1) % 4 = 0) :=
    fun h => gregorian_leap_year_offset (y + 1) h
  have hs := gregorian_days_before_year y (by omega)
  have hs1 := gregorian_days_before_year (y + 1) (by omega)
  have e : 2000 + y - 2000 = y := by omega
  have e1 : 2000 + (y + 1) - 2000 = y + 1 := by omega
  have hdim := rtc_days_in_current_month_eq ⟨y, m, (d + 1) % 256, hr - 24, w⟩ hy h1 h12
  have hd31 : d ≤ 31 := by
    have := (gregorian_days_in_month_bounds (2000 + y) m h1 h12).2
    omega
  have hdm : (d + 1) % 256 = d + 1 := by omega
  rw [hdm] at hdim
  by_cases hroll : d + 1 > gregorian_days_in_month (2000 + y) m
  · have hdeq : d = gregorian_days_in_month (2000 + y) m := by omega
    by_cases hm : m = 12
    · subst hm
      have hd' : d = 31 := by simpa [gregorian_days_in_month] using hdeq
      subst hd'
      have hy99 : y + 1 < 100 := by
        by_contra hc
        simp only [days_since_2000, e, hs] at hlast
        by_cases h4 : y % 4 = 0 <;>
          simp [List.range_succ, gregorian_days_in_month, hl, h4] at hlast <;> omega
      obtain ⟨w1, hw1⟩ := rtc_calc_day_of_week_some ⟨(y + 1) % 256, 1, 1, hr - 24, w⟩
        (le_refl 1) (show 1 ≤ 12 by decide)
      have hym : (y + 1) % 256 = y + 1 := by omega
      rw [hym] at hw1
      have hv1 : RtcState.valid ⟨y + 1, 1, 1, hr - 24, w1⟩ := by
        unfold RtcState.valid
        simp only [gregorian_days_in_month]
        omega
      refine ⟨⟨y + 1, 1, 1, hr - 24, w1⟩, ?_, hv1, rfl, ?_, ?_⟩
      · simp [rtc_normalize_loop, hh, hdim, hdm, gregorian_days_in_month, hym, hw1]
      · simp only [days_since_2000, e, e1, hs, hs1]
        by_cases h4 : y % 4 = 0 <;>
          simp [List.range_succ, gregorian_days_in_month, hl, h4] <;> omega
      · simp [RtcState.date, gregorian_next_day, gregorian_days_in_month]
        omega
    · have hm11 : m ≤ 11 := by omega
      obtain ⟨w1, hw1⟩ := rtc_calc_day_of_week_some ⟨y, (m + 1) % 256, 1, hr - 24, w⟩
        (show 1 ≤ (m + 1) % 256 by omega) (show (m + 1) % 256 ≤ 12 by omega)
      have hmm : (m + 1) % 256 = m + 1 := by omega
      rw [hmm] at hw1
      have hv1 : RtcState.valid ⟨y, m + 1, 1, hr - 24, w1⟩ := by
        have := (gregorian_days_in_month_bounds (2000 + y) (m + 1) (by omega) (by omega)).1
        unfold RtcState.valid
        simp only
        omega
      have hlt12 : m < 12 := by omega
      refine ⟨⟨y, m + 1, 1, hr - 24, w1⟩, ?_, hv1, rfl, ?_, ?_⟩
      · have hgt : ¬ (m + 1 > 12) := by omega
        simp [rtc_normalize_loop, hh, hdim, hdm, hroll, hmm, hgt, hw1]
      · simp only [days_since_2000, e]
        subst hdeq
        interval_cases m <;>
          by_cases h4 : y % 4 = 0 <;>
          simp [List.range_succ, gregorian_days_in_month, hl, h4]
      · simp only [RtcState.date, gregorian_next_day]
        rw [if_neg (by omega), if_pos hlt12]
  · obtain ⟨w1, hw1⟩ := rtc_calc_day_of_week_some ⟨y, m, d + 1, hr - 24, w⟩ h1 h12
    have hv1 : RtcState.valid ⟨y, m, d + 1, hr - 24, w1⟩ := by
      unfold RtcState.valid
      simp only
      omega
    refine ⟨⟨y, m, d + 1, hr - 24, w1⟩, ?_, hv1, rfl, ?_, ?_⟩
    · simp [rtc_normalize_loop, hh, hdim, hdm, hroll, hw1]
    · simp only [days_since_2000]
      omega
    · simp only [RtcState.date, gregorian_next_day]
      rw [if_pos (by omega)]

theorem rtc_normalize_loop_idle (fuel : Nat) (r : RtcState) (clk : Nat) (h : r.hour < 24) :
    rtc_normalize_loop fuel r clk = some (r, clk) := by
  have hn : ¬ r.hour ≥ 24 := by omega
  cases fuel <;> simp [rtc_normalize_loop, hn]

/-- The loop advances a valid date by one day per 24 hours. -/
theorem rtc_normalize_loop_advances (n : Nat) (r : RtcState) (clk fuel : Nat) (hv : r.valid)
    (hn : r.hour / 24 = n) (hf : n ≤ fuel) (hend : r.day_number + n < 36525) :
    ∃ r1 clk1, rtc_normalize_loop fuel r clk = some (r1, clk1)
      ∧ r1.valid ∧ r1.hour = r.hour % 24 ∧ r1.day_number = r.day_number + n
      ∧ r1.date = Nat.iterate gregorian_next_day n r.date := by
  induction n generalizing r clk fuel with
  | zero =>
    have hlt : r.hour < 24 := by omega
    exact ⟨r, clk, rtc_normalize_loop_idle fuel r clk hlt, hv, by omega,
      (Nat.add_zero _).symm, rfl⟩
  | succ n ih =>
    obtain ⟨fuel, rfl⟩ : ∃ k, fuel = k + 1 := ⟨fuel - 1, by omega⟩
    have hh : 24 ≤ r.hour := by omega
    obtain ⟨r1, h1, hv1, hh1, hd1, hn1⟩ := rtc_normalize_loop_step fuel r clk hv hh (by omega)
    obtain ⟨r2, clk2, h2, hv2, hh2, hd2, hn2⟩ := ih r1 ((clk + 256 - 24) % 256) fuel hv1
      (by rw [hh1]; omega) (by omega) (by rw [hd1]; omega)
    refine ⟨r2, clk2, by rw [h1, h2], hv2, by rw [hh2, hh1]; omega, by rw [hd2, hd1]; omega, ?_⟩
    rw [hn2, hn1, Function.iterate_succ_apply]

/-- C30: for a valid date of 2000-2099 and any hour value, when the date
`hour / 24` days later is still before 2100 and the loop has fuel for `hour / 24`
passes, `rtc_normalize` returns with `hour mod 24` and with the date moved `hour / 24`
times to the next day of the calendar: a valid date (month from 1 to 12, day from 1
to the length of the month) whose day number is higher by exactly `hour / 24`;
`rtc_advance_day` applied with `hour < 24` returns the next day of the calendar with
the hour unchanged. -/
theorem rtc_normalize_advances (r : RtcState) (clk fuel : Nat) (hv : r.valid)
    (hf : r.hour / 24 ≤ fuel)
    (hend : r.day_number + r.hour / 24 < days_since_2000 2100 1 1) :
    (∃ r1 clk1, rtc_normalize fuel r clk = some (r1, clk1)
      ∧ r1.hour = r.hour % 24
      ∧ r1.valid
      ∧ 1 ≤ r1.month ∧ r1.month ≤ 12 ∧ 1 ≤ r1.day
      ∧ r1.day ≤ gregorian_days_in_month (2000 + r1.year) r1.month
      ∧ days_since_2000 (2000 + r1.year) r1.month r1.day
          = days_since_2000 (2000 + r.year) r.month r.day + r.hour / 24
      ∧ (2000 + r1.year, r1.month, r1.day)
          = Nat.iterate gregorian_next_day (r.hour / 24) (2000 + r.year, r.month, r.day))
    ∧ (r.hour < 24 → 1 ≤ fuel → r.day_number + 1 < days_since_2000 2100 1 1 →
        ∃ r1 clk1, rtc_advance_day fuel r clk = some (r1, clk1)
          ∧ r1.hour = r.hour
          ∧ r1.valid
          ∧ days_since_2000 (2000 + r1.year) r1.month r1.day
              = days_since_2000 (2000 + r.year) r.month r.day + 1
          ∧ (2000 + r1.year, r1.month, r1.day)
              = gregorian_next_day (2000 + r.year, r.month, r.day)) := by
  have key : ∀ (t : RtcState) (n : Nat), t.valid → t.hour / 24 = n → n ≤ fuel →
      t.day_number + n < 36525 →
      ∃ r1 clk1, rtc_normalize fuel t clk = some (r1, clk1)
        ∧ r1.valid ∧ r1.hour = t.hour % 24 ∧ r1.day_number = t.day_number + n
        ∧ r1.date = Nat.iterate gregorian_next_day n t.date := by
    intro t n htv hn hfn he
    obtain ⟨r1, clk1, h1, hv1, hh1, hd1, hn1⟩ :=
      rtc_normalize_loop_advances n t clk fuel htv hn hfn he
    refine ⟨r1, clk1, ?_, hv1, hh1, hd1, hn1⟩
    obtain ⟨_, hm1, hm12, hdd1, hdd⟩ := hv1
    have hb := (gregorian_days_in_month_bounds (2000 + r1.year) r1.month hm1 hm12).2
    have c1 : ¬ (r1.month < 1 ∨ r1.month > 12) := by omega
    have c2 : ¬ (r1.day < 1 ∨ r1.day > 31) := by omega
    unfold rtc_normalize
    rw [h1]
    simp only [if_neg c1, if_neg c2]
  rw [day_number_last] at hend ⊢
  refine ⟨?_, ?_⟩
  · obtain ⟨r1, clk1, h1, hv1, hh1, hd1, hn1⟩ := key r _ hv rfl hf hend
    exact ⟨r1, clk1, h1, hh1, hv1, hv1.2.1, hv1.2.2.1, hv1.2.2.2.1, hv1.2.2.2.2, hd1, hn1⟩
  · intro hlt hf1 he1
    have hmod : (r.hour + 24) % 256 = r.hour + 24 := by omega
    obtain ⟨r1, clk1, h1, hv1, hh1, hd1, hn1⟩ :=
      key { r with hour := (r.hour + 24) % 256 } 1 hv (by simp only [hmod]; omega) hf1 he1
    refine ⟨r1, clk1, h1, ?_, hv1, hd1, hn1⟩
    rw [hh1]
    simp only [hmod]
    omega

theorem rtc_normalize_advances_witness :
    RtcState.valid ⟨24, 2, 28, 53, 0⟩
    ∧ ∃ r1 clk1, rtc_normalize 2 ⟨24, 2, 28, 53, 0⟩ 53 = some (r1, clk1)
        ∧ r1.hour = 53 % 24
        ∧ days_since_2000 (2000 + r1.year) r1.month r1.day
            = days_since_2000 2024 2 28 + 53 / 24
        ∧ (2000 + r1.year, r1.month, r1.day) = (2024, 3, 1) :=
  ⟨⟨by decide, by decide, by decide, by decide, by decide⟩,
    match (rtc_normalize_advances ⟨24, 2, 28, 53, 0⟩ 53 2
      ⟨by decide, by decide, by decide, by decide, by decide⟩ (by decide)
      (by decide)).1 with
    | ⟨r1, clk1, h1, h2, _, _, _, _, _, h3, h4⟩ =>
      ⟨r1, clk1, h1, h2, h3, h4.trans (by decide)⟩⟩

/-! ## The descriptor pointer and the flag -/

/-- A main loop that ends normally ends with the flag clear, whatever the callbacks do. -/
theorem dmd_transition_loop_done_flag (descs : Nat → dmd_transition_t) (afuel : Nat)
    (flag : Bool) (nd nb fuel : Nat) (s : DmdState)
    (hd : (dmd_transition_loop descs afuel flag nd nb fuel s).status = Status.done) :
    (dmd_transition_loop descs afuel flag nd nb fuel s).state.dmd_in_transition = false := by
  induction fuel generalizing s with
  | zero =>
    cases hin : s.dmd_in_transition with
    | false => rw [dmd_transition_loop_idle _ _ _ _ _ _ _ hin]; exact hin
    | true => simp [dmd_transition_loop, hin] at hd
  | succ fuel ih =>
    cases hin : s.dmd_in_transition with
    | false => rw [dmd_transition_loop_idle _ _ _ _ _ _ _ hin]; exact hin
    | true =>
      unfold dmd_transition_loop at hd ⊢
      rw [if_pos hin] at hd ⊢
      obtain ⟨hfd, hld⟩ := Run.andThen_status_done _ _ hd
      rw [Run.andThen_done _ _ hfd]
      exact ih _ hld

/-- A transition that ends normally leaves the pointer null and the flag clear. -/
theorem dmd_do_transition_done_flag (descs : Nat → dmd_transition_t) (fuel : Nat)
    (s : DmdState) (hd : (dmd_do_transition descs fuel s).status = Status.done) :
    (dmd_do_transition descs fuel s).state.dmd_transition = none
    ∧ (dmd_do_transition descs fuel s).state.dmd_in_transition = false := by
  rw [dmd_do_transition_eq_init] at hd ⊢
  cases ht : (dmd_transition_entry s).dmd_transition with
  | none => rw [ht] at hd; cases hd
  | some p =>
    rw [ht] at hd
    simp only at hd ⊢
    obtain ⟨h1, _⟩ := Run.andThen_status_done _ _ hd
    obtain ⟨h2, h3⟩ := Run.andThen_status_done _ _ h1
    rw [Run.andThen_done _ _ h1]
    refine ⟨rfl, ?_⟩
    rw [Run.andThen_done _ _ h2]
    exact dmd_transition_loop_done_flag _ _ _ _ _ _ _ h3

/-- The pointer is set exactly when the flag is, in every reachable state. -/
theorem EngineReachable.flag {descs : Nat → dmd_transition_t} {s : DmdState}
    (h : EngineReachable descs s) : s.dmd_transition.isSome = s.dmd_in_transition := by
  have hshow : ∀ (t : DmdState) (fuel : Nat) (cut : DmdState),
      t.dmd_transition.isSome = t.dmd_in_transition →
      cut.dmd_transition = t.dmd_transition → cut.dmd_in_transition = t.dmd_in_transition →
      ((if t.dmd_transition.isSome then dmd_do_transition descs fuel t
        else Run.ret cut).status = Status.done) →
      (if t.dmd_transition.isSome then dmd_do_transition descs fuel t
        else Run.ret cut).state.dmd_transition.isSome
      = (if t.dmd_transition.isSome then dmd_do_transition descs fuel t
        else Run.ret cut).state.dmd_in_transition := by
    intro t fuel cut ht hc1 hc2 hd
    by_cases hs : t.dmd_transition.isSome = true
    · rw [if_pos hs] at hd ⊢
      obtain ⟨a, b⟩ := dmd_do_transition_done_flag descs fuel t hd
      rw [a, b]; rfl
    · rw [if_neg hs]
      show cut.dmd_transition.isSome = cut.dmd_in_transition
      rw [hc1, hc2]; exact ht
  induction h with
  | init s0 => rfl
  | sched s p _ _ => rfl
  | reset s _ _ => rfl
  | alloc_low s _ ih => exact ih
  | alloc_high s _ ih => exact ih
  | alloc_low_high s _ ih => exact ih
  | show_low s fuel _ hd ih => exact hshow s fuel _ ih rfl rfl hd
  | show_high s fuel _ hd ih => exact hshow s fuel _ ih rfl rfl hd
  | show_other s fuel _ hd ih =>
    unfold dmd_show_other at hd ⊢
    split at hd
    · rw [if_pos (by assumption)]; exact hshow s fuel _ ih rfl rfl hd
    · rw [if_neg (by assumption)]; exact hshow s fuel _ ih rfl rfl hd
  | show2 s fuel _ hd ih => exact hshow s fuel _ ih rfl rfl hd

/-- C25: in every state reached from `dmd_init` by `dmd_sched_transition` with a
descriptor, `dmd_reset_transition`, the allocation functions and the show functions
(each show having returned), `dmd_transition` is non-null exactly when
`dmd_in_transition` is true; so each show function, which tests the pointer, runs
`dmd_do_transition` exactly when the flag is set and is a plain cut otherwise. -/
theorem dmd_transition_set_iff_in_transition (descs : Nat → dmd_transition_t)
    (s : DmdState) (h : EngineReachable descs s) :
    (s.dmd_transition ≠ none ↔ s.dmd_in_transition = true)
    ∧ (∀ fuel, dmd_show_low descs fuel s
        = if s.dmd_in_transition = true then dmd_do_transition descs fuel s
          else Run.ret { s with dmd_bright_page := s.dmd_low_page,
                                dmd_dark_page := s.dmd_low_page })
    ∧ (∀ fuel, dmd_show_high descs fuel s
        = if s.dmd_in_transition = true then dmd_do_transition descs fuel s
          else Run.ret { s with dmd_bright_page := s.dmd_high_page,
                                dmd_dark_page := s.dmd_high_page })
    ∧ (∀ fuel, dmd_show2 descs fuel s
        = if s.dmd_in_transition = true then dmd_do_transition descs fuel s
          else Run.ret { s with dmd_dark_page := s.dmd_low_page,
                                dmd_bright_page := s.dmd_high_page })
    ∧ (∀ fuel, dmd_show_other descs fuel s
        = if s.dmd_in_transition = true then dmd_do_transition descs fuel s
          else if s.dmd_dark_page = s.dmd_low_page then
            Run.ret { s with dmd_bright_page := s.dmd_high_page,
                             dmd_dark_page := s.dmd_high_page }
          else Run.ret { s with dmd_bright_page := s.dmd_low_page,
                                dmd_dark_page := s.dmd_low_page }) := by
  have hf := h.flag
  refine ⟨?_, ?_, ?_, ?_, ?_⟩
  · rw [← hf]
    cases s.dmd_transition <;> simp
  · intro fuel
    unfold dmd_show_low
    rw [hf]
  · intro fuel
    unfold dmd_show_high
    rw [hf]
  · intro fuel
    unfold dmd_show2
    rw [hf]
  · intro fuel
    unfold dmd_show_other dmd_show_high dmd_show_low
    rw [hf]
    cases s.dmd_in_transition <;> simp

theorem dmd_transition_set_iff_in_transition_witness :
    EngineReachable (fun _ => two_step)
      (dmd_show_low (fun _ => two_step) 2 mono_to_mono).state
    ∧ ((dmd_show_low (fun _ => two_step) 2 mono_to_mono).state.dmd_transition ≠ none
        ↔ (dmd_show_low (fun _ => two_step) 2 mono_to_mono).state.dmd_in_transition = true) :=
  have hr : EngineReachable (fun _ => two_step)
      (dmd_show_low (fun _ => two_step) 2 mono_to_mono).state :=
    EngineReachable.show_low _ 2
      (EngineReachable.sched _ 0
        (EngineReachable.alloc_low _
          (EngineReachable.show_low _ 0
            (EngineReachable.alloc_low _ (EngineReachable.init _)) rfl)))
      (by decide)
  ⟨hr, (dmd_transition_set_iff_in_transition _ _ hr).1⟩

/-! ## The number of cycles -/

/-- Under the descriptor contract `k` passes of the loop body end normally, make the
calls of `k` whole cycles and keep the descriptor. -/
theorem dmd_transition_frames_calls (descs : Nat → dmd_transition_t) (afuel : Nat)
    (flag : Bool) (nd nb p : Nat) (hc : TransitionContract (descs p)) (haf : 2 ≤ afuel)
    (k : Nat) (s : DmdState) (h : s.dmd_transition = some p) :
    (dmd_transition_frames descs afuel flag nd nb k s).status = Status.done
    ∧ (dmd_transition_frames descs afuel flag nd nb k s).trace.map Event.call
        = (List.replicate k (cycle_calls flag (descs p).delay)).flatten
    ∧ (dmd_transition_frames descs afuel flag nd nb k s).state.dmd_transition = some p := by
  induction k generalizing s with
  | zero => exact ⟨rfl, rfl, h⟩
  | succ k ih =>
    have ha : (dmd_alloc_composite afuel nd s).status = Status.done := by
      rw [dmd_alloc_composite_two afuel nd s haf]
      split <;> rfl
    obtain ⟨c1, c2, c3, _⟩ := dmd_transition_frame_contract descs afuel flag nd nb p s h hc ha
    obtain ⟨i1, i2, i3⟩ := ih _ c3
    unfold dmd_transition_frames
    rw [Run.andThen_done _ _ c1]
    refine ⟨i1, ?_, i3⟩
    simp only [List.map_append, c2, i2, List.replicate_succ, List.flatten_cons]

/-- The main loop makes exactly `k` passes when the flag is found set before each of
the first `k` passes and clear after pass `k`. -/
theorem dmd_transition_loop_frames (descs : Nat → dmd_transition_t) (afuel : Nat)
    (flag : Bool) (nd nb p : Nat) (hc : TransitionContract (descs p)) (haf : 2 ≤ afuel)
    (k fuel : Nat) (s : DmdState) (h : s.dmd_transition = some p) (hk : k ≤ fuel)
    (hrun : ∀ j, j < k →
      (dmd_transition_frames descs afuel flag nd nb j s).state.dmd_in_transition = true)
    (hend : (dmd_transition_frames descs afuel flag nd nb k s).state.dmd_in_transition = false) :
    dmd_transition_loop descs afuel flag nd nb fuel s
      = dmd_transition_frames descs afuel flag nd nb k s := by
  induction k generalizing s fuel with
  | zero => exact dmd_transition_loop_idle _ _ _ _ _ _ _ hend
  | succ k ih =>
    obtain ⟨fuel, rfl⟩ : ∃ f, fuel = f + 1 := ⟨fuel - 1, by omega⟩
    have hin : s.dmd_in_transition = true := hrun 0 (Nat.succ_pos k)
    have ha : (dmd_alloc_composite afuel nd s).status = Status.done := by
      rw [dmd_alloc_composite_two afuel nd s haf]
      split <;> rfl
    obtain ⟨c1, _, c3, _⟩ := dmd_transition_frame_contract descs afuel flag nd nb p s h hc ha
    have hstep : ∀ j, dmd_transition_frames descs afuel flag nd nb (j + 1) s
        = ⟨(dmd_transition_frames descs afuel flag nd nb j
              (dmd_transition_frame descs afuel flag nd nb s).state).status,
           (dmd_transition_frames descs afuel flag nd nb j
              (dmd_transition_frame descs afuel flag nd nb s).state).state,
           (dmd_transition_frame descs afuel flag nd nb s).trace
            ++ (dmd_transition_frames descs afuel flag nd nb j
              (dmd_transition_frame descs afuel flag nd nb s).state).trace⟩ := by
      intro j
      show (dmd_transition_frame descs afuel flag nd nb s).andThen _ = _
      rw [Run.andThen_done _ _ c1]
    have e := ih fuel (dmd_transition_frame descs afuel flag nd nb s).state c3 (by omega)
      (fun j hj => by have := hrun (j + 1) (by omega); rw [hstep j] at this; exact this)
      (by rw [hstep k] at hend; exact hend)
    unfold dmd_transition_loop
    rw [if_pos hin, Run.andThen_done _ _ c1, hstep k, e]

theorem cycle_calls_count_sleep (flag : Bool) (d : Nat) (k : Nat) :
    (List.replicate k (cycle_calls flag d)).flatten.count (Call.sleep d) = k := by
  induction k with
  | zero => rfl
  | succ k ih =>
    rw [List.replicate_succ, List.flatten_cons, List.count_append, ih]
    cases flag <;> simp [cycle_calls, List.count_cons] <;> omega

theorem cycle_calls_count_init (flag : Bool) (d : Nat) (k : Nat) :
    (List.replicate k (cycle_calls flag d)).flatten.count Call.init = 0 := by
  induction k with
  | zero => rfl
  | succ k ih =>
    rw [List.replicate_succ, List.flatten_cons, List.count_append, ih]
    cases flag <;> simp [cycle_calls, List.count_cons]

/-- C24: with a descriptor that keeps the engine's variables, when the flag is set
after the initializer and after each of the first `k - 1` cycles and is clear after
cycle `k`, `dmd_do_transition` (given room for `k` passes) returns after exactly `k`
cycles: its calls are the initializer, once and first, when there is one and none
otherwise, then `k` times the sleep with the descriptor's delay followed by the
compositing calls of the cycle; the bright-channel pair of cycle `k` is made in
two-channel mode whichever callback cleared the flag. -/
theorem dmd_do_transition_cycle_count (descs : Nat → dmd_transition_t) (fuel p k : Nat)
    (s : DmdState) (h : s.dmd_transition = some p) (hc : TransitionContract (descs p))
    (hf : 2 ≤ fuel) (hk : k ≤ fuel)
    (hrun : ∀ j, j < k →
      (dmd_transition_frames descs fuel (one_copy_flag s) s.dmd_low_page s.dmd_high_page j
        (dmd_transition_init (descs p) (dmd_transition_entry s)).state).state.dmd_in_transition
        = true)
    (hend :
      (dmd_transition_frames descs fuel (one_copy_flag s) s.dmd_low_page s.dmd_high_page k
        (dmd_transition_init (descs p) (dmd_transition_entry s)).state).state.dmd_in_transition
        = false) :
    (dmd_do_transition descs fuel s).status = Status.done
    ∧ (dmd_do_transition descs fuel s).trace.map Event.call
        = init_calls (descs p)
          ++ (List.replicate k (cycle_calls (one_copy_flag s) (descs p).delay)).flatten
    ∧ ((dmd_do_transition descs fuel s).trace.map Event.call).count
          (Call.sleep (descs p).delay) = k
    ∧ (∀ d, Call.sleep d ∈ (dmd_do_transition descs fuel s).trace.map Event.call →
        d = (descs p).delay)
    ∧ ((dmd_do_transition descs fuel s).trace.map Event.call).count Call.init
        = (if (descs p).composite_init.isSome then 1 else 0)
    ∧ (one_copy_flag s = false → ∀ k0, k = k0 + 1 →
        (dmd_do_transition descs fuel s).trace.map Event.call
          = init_calls (descs p)
            ++ (List.replicate k0 (cycle_calls false (descs p).delay)).flatten
            ++ [Call.sleep (descs p).delay, Call.old Channel.dark, Call.new Channel.dark,
                Call.old Channel.bright, Call.new Channel.bright]) := by
  have hp : (dmd_transition_entry s).dmd_transition = some p := by
    rw [(dmd_transition_entry_fields s).2.1, h]
  obtain ⟨i1, i2, i3, _⟩ := dmd_transition_init_spec (descs p) hc (dmd_transition_entry s)
  have hi : (dmd_transition_init (descs p) (dmd_transition_entry s)).state.dmd_transition
      = some p := by rw [i3, hp]
  have hloop := dmd_transition_loop_frames descs fuel (one_copy_flag s) s.dmd_low_page
    s.dmd_high_page p hc hf k fuel _ hi hk hrun hend
  obtain ⟨f1, f2, _⟩ := dmd_transition_frames_calls descs fuel (one_copy_flag s)
    s.dmd_low_page s.dmd_high_page p hc hf k _ hi
  have hst : (dmd_do_transition descs fuel s).status = Status.done := by
    rw [dmd_do_transition_eq_init]
    simp only [hp]
    have h1 : ((dmd_transition_init (descs p) (dmd_transition_entry s)).andThen
        (dmd_transition_loop descs fuel (one_copy_flag s) s.dmd_low_page s.dmd_high_page
          fuel)).status = Status.done := by
      rw [Run.andThen_done _ _ i1, hloop]
      exact f1
    rw [Run.andThen_done _ _ h1]
    rfl
  have htr : (dmd_do_transition descs fuel s).trace.map Event.call
      = init_calls (descs p)
        ++ (List.replicate k (cycle_calls (one_copy_flag s) (descs p).delay)).flatten := by
    rw [dmd_do_transition_eq_init]
    simp only [hp]
    rw [Run.andThen_ret_trace, Run.andThen_done _ _ i1, hloop]
    simp only [List.map_append, i2, f2]
  have hinit0 : (init_calls (descs p)).count (Call.sleep (descs p).delay) = 0 := by
    unfold init_calls
    split <;> simp [List.count_cons]
  have hinit1 : (init_calls (descs p)).count Call.init
      = (if (descs p).composite_init.isSome then 1 else 0) := by
    unfold init_calls
    split <;> rename_i hci <;> simp [hci, List.count_cons]
  refine ⟨hst, htr, ?_, ?_, ?_, ?_⟩
  · rw [htr, List.count_append, hinit0, cycle_calls_count_sleep]
    omega
  · intro d hd
    rw [htr] at hd
    rcases List.mem_append.mp hd with hm | hm
    · unfold init_calls at hm
      split at hm <;> simp at hm
    · simp only [List.mem_flatten, List.mem_replicate] at hm
      obtain ⟨l, ⟨_, rfl⟩, hl⟩ := hm
      cases hfl : one_copy_flag s <;> rw [hfl] at hl <;> simpa [cycle_calls] using hl
  · rw [htr, List.count_append, hinit1, cycle_calls_count_init]
    omega
  · intro hfl k0 hk0
    rw [htr, hfl, hk0, List.replicate_succ', List.flatten_append, List.append_assoc]
    rfl

theorem dmd_do_transition_cycle_count_witness :
    mono_to_color.dmd_transition = some 0
    ∧ one_copy_flag mono_to_color = false
    ∧ (dmd_do_transition (fun _ => two_step) 2 mono_to_color).status = Status.done
    ∧ (dmd_do_transition (fun _ => two_step) 2 mono_to_color).trace.map Event.call
        = init_calls two_step
          ++ (List.replicate 2 (cycle_calls (one_copy_flag mono_to_color) two_step.delay)).flatten :=
  ⟨rfl, by decide,
    (dmd_do_transition_cycle_count (fun _ => two_step) 2 0 2 mono_to_color rfl
      two_step_contract (by decide) (by decide)
      (fun j hj => by interval_cases j <;> rfl) rfl).1,
    (dmd_do_transition_cycle_count (fun _ => two_step) 2 0 2 mono_to_color rfl
      two_step_contract (by decide) (by decide)
      (fun j hj => by interval_cases j <;> rfl) rfl).2.1⟩

/-! ## One pass, call by call -/

/-- The compositing of one pass under the descriptor contract, call by call: the
states in which the callbacks are entered and the state the pass ends in. -/
theorem dmd_transition_composite_run (descs : Nat → dmd_transition_t) (flag : Bool)
    (nd nb p : Nat) (a : DmdState) (hat : a.dmd_transition = some p)
    (hc : TransitionContract (descs p)) :
    ∃ e1 e2 d,
      e1 = wpc_dmd_set_low_page a.dmd_dark_page (wpc_dmd_set_high_page a.dmd_composite_page a)
      ∧ e2 = wpc_dmd_set_low_page nd ((descs p).composite_old e1)
      ∧ d = (descs p).composite_new e2
      ∧ (flag = true →
          dmd_transition_composite descs flag nd nb a
            = ⟨Status.done,
               { d with dmd_bright_page := d.dmd_composite_page,
                        dmd_dark_page := d.dmd_composite_page },
               [Event.composite_old Channel.dark e1, Event.composite_new Channel.dark e2]⟩)
      ∧ (flag = false → ∃ e3 e4 b,
          e3 = wpc_dmd_set_low_page d.dmd_bright_page
                (wpc_dmd_set_high_page (d.dmd_composite_page + 1)
                  { d with dmd_trans_data_ptr := d.dmd_trans_data_ptr2 })
          ∧ e4 = wpc_dmd_set_low_page nb ((descs p).composite_old e3)
          ∧ b = (descs p).composite_new e4
          ∧ dmd_transition_composite descs flag nd nb a
            = ⟨Status.done,
               { b with dmd_trans_data_ptr2 := b.dmd_trans_data_ptr,
                        dmd_trans_data_ptr := d.dmd_trans_data_ptr,
                        dmd_dark_page := b.dmd_composite_page,
                        dmd_bright_page := (b.dmd_composite_page + 1) % 256 },
               [Event.composite_old Channel.dark e1, Event.composite_new Channel.dark e2,
                Event.composite_old Channel.bright e3,
                Event.composite_new Channel.bright e4]⟩) := by
  have e1 := dmd_do_transition_cycle_contract descs Channel.dark
    (wpc_dmd_set_high_page a.dmd_composite_page a).dmd_dark_page nd p
    (wpc_dmd_set_high_page a.dmd_composite_page a) hat hc
  have e2 := fun s2 h2 => dmd_do_transition_cycle_contract descs Channel.bright
    (DmdState.dmd_bright_page s2) nb p s2 h2 hc
  refine ⟨_, _, _, rfl, rfl, rfl, ?_, ?_⟩
  · intro hf
    subst hf
    simp only [dmd_transition_composite, Run.andThen, e1]
    rfl
  · intro hf
    subst hf
    refine ⟨_, _, _, rfl, rfl, rfl, ?_⟩
    simp only [dmd_transition_composite, Run.andThen, e1]
    rw [e2 _ (by simp [wpc_dmd_set_high_page, wpc_dmd_set_low_page, hc.new.transition,
      hc.old.transition, hat])]
    rfl

/-! ## The page mapping of every cycle -/

/-- The calls of one pass satisfy the mapping check when the rest of the trace does. -/
theorem cycles_mapped_composite (descs : Nat → dmd_transition_t) (flag : Bool)
    (nd nb p : Nat) (a : DmdState) (hat : a.dmd_transition = some p)
    (hc : TransitionContract (descs p)) (hnd : nd < 256) (hnb : nb < 256)
    (ha16 : a.dmd_composite_page < 16) (hdark : a.dmd_dark_page < 256)
    (hbright : a.dmd_bright_page < 256) (delay : Nat) (rest : List Event)
    (hrest : cycles_mapped nd nb flag a.dmd_composite_page
      (if flag then a.dmd_composite_page else a.dmd_composite_page + 1) rest) :
    cycles_mapped nd nb flag a.dmd_dark_page a.dmd_bright_page
      (Event.task_sleep delay :: ((dmd_transition_composite descs flag nd nb a).trace ++ rest)) := by
  obtain ⟨e1, e2, d, he1, he2, hd, hT, hF⟩ :=
    dmd_transition_composite_run descs flag nd nb p a hat hc
  have q1 : e1.dmd_dark_page = a.dmd_dark_page := by rw [he1]; rfl
  have q2 : e1.dmd_bright_page = a.dmd_bright_page := by rw [he1]; rfl
  have q3 : e1.dmd_composite_page = a.dmd_composite_page := by rw [he1]; rfl
  have q4 : e1.dmd_high_page = a.dmd_composite_page := by
    rw [he1]
    show a.dmd_composite_page % 256 = _
    omega
  have q5 : e1.dmd_low_page = a.dmd_dark_page := by
    rw [he1]
    show a.dmd_dark_page % 256 = _
    omega
  have q6 : e2.dmd_composite_page = a.dmd_composite_page := by
    rw [he2, ← q3]; exact hc.old.composite_page e1
  have q7 : e2.dmd_high_page = a.dmd_composite_page := by
    rw [he2, ← q4]; exact hc.old.high_page e1
  have q8 : e2.dmd_low_page = nd := by
    rw [he2]
    show nd % 256 = nd
    omega
  have q9 : e2.dmd_bright_page = a.dmd_bright_page := by
    rw [he2, ← q2]; exact hc.old.bright_page e1
  cases flag with
  | true =>
    rw [hT rfl]
    simp only [List.cons_append, List.nil_append, cycles_mapped]
    exact ⟨q1, q2, by rw [q4, q3], by rw [q5], by rw [q6, q3], by rw [q7, q3], q8,
      by rw [q3]; exact hrest⟩
  | false =>
    obtain ⟨e3, e4, b, he3, he4, hb, hrun⟩ := hF rfl
    rw [hrun]
    have r1 : d.dmd_composite_page = a.dmd_composite_page := by
      rw [hd, hc.new.composite_page, q6]
    have r2 : d.dmd_bright_page = a.dmd_bright_page := by
      rw [hd, hc.new.bright_page, q9]
    have r3 : e3.dmd_composite_page = a.dmd_composite_page := by
      rw [he3, ← r1]; rfl
    have r4 : e3.dmd_bright_page = a.dmd_bright_page := by
      rw [he3, ← r2]; rfl
    have r5 : e3.dmd_high_page = a.dmd_composite_page + 1 := by
      rw [he3]
      show (d.dmd_composite_page + 1) % 256 = _
      rw [r1]; omega
    have r6 : e3.dmd_low_page = a.dmd_bright_page := by
      rw [he3]
      show d.dmd_bright_page % 256 = _
      rw [r2]; omega
    have r7 : e4.dmd_composite_page = a.dmd_composite_page := by
      rw [he4]
      show ((descs p).composite_old e3).dmd_composite_page = _
      rw [hc.old.composite_page, r3]
    have r8 : e4.dmd_high_page = a.dmd_composite_page + 1 := by
      rw [he4]
      show ((descs p).composite_old e3).dmd_high_page = _
      rw [hc.old.high_page, r5]
    have r9 : e4.dmd_low_page = nb := by
      rw [he4]
      show nb % 256 = nb
      omega
    simp only [List.cons_append, List.nil_append, cycles_mapped]
    refine ⟨q1, q2, by rw [q4, q3], by rw [q5], by rw [q6, q3], by rw [q7, q3], q8,
      by rw [r3, q3], r4, by rw [r5, q3], r6, by rw [r7, q3], by rw [r8, q3], r9, ?_⟩
    rw [q3]
    exact hrest

theorem dmd_transition_loop_mapped (descs : Nat → dmd_transition_t) (afuel : Nat)
    (flag : Bool) (nd nb p : Nat) (hc : TransitionContract (descs p)) (haf : 2 ≤ afuel)
    (hnd : nd < 256) (hnb : nb < 256)
    (fuel : Nat) (s : DmdState) (h : s.dmd_transition = some p) (hfree : s.dmd_free_page < 16)
    (hdark : s.dmd_dark_page < 256) (hbright : s.dmd_bright_page < 256) :
    cycles_mapped nd nb flag s.dmd_dark_page s.dmd_bright_page
      (dmd_transition_loop descs afuel flag nd nb fuel s).trace := by
  induction fuel generalizing s with
  | zero =>
    unfold dmd_transition_loop
    split <;> simp [cycles_mapped, Run.ret]
  | succ fuel ih =>
    cases hin : s.dmd_in_transition with
    | false =>
      rw [dmd_transition_loop_idle _ _ _ _ _ _ _ hin]
      simp [cycles_mapped, Run.ret]
    | true =>
      have ha : (dmd_alloc_composite afuel nd s).status = Status.done := by
        rw [dmd_alloc_composite_two afuel nd s haf]
        split <;> rfl
      obtain ⟨_, _, ⟨f, c, hst⟩, hsp⟩ := dmd_alloc_composite_spec afuel nd s
      obtain ⟨_, hf16, hc16⟩ := hsp ha
      have hc16 := hc16 hfree
      obtain ⟨c1, _, c3, c4, c5, c6, c7, _⟩ :=
        dmd_transition_frame_contract descs afuel flag nd nb p s h hc ha
      have hat : (dmd_alloc_composite afuel nd s).state.dmd_transition = some p := by
        rw [hst]; exact h
      have hadark : (dmd_alloc_composite afuel nd s).state.dmd_dark_page = s.dmd_dark_page := by
        rw [hst]
      have habright : (dmd_alloc_composite afuel nd s).state.dmd_bright_page
          = s.dmd_bright_page := by rw [hst]
      have ih1 := ih (dmd_transition_frame descs afuel flag nd nb s).state c3
        (by rw [c4]; exact hf16) (by rw [c6]; omega)
        (by rw [c7]; split <;> omega)
      rw [c6, c7] at ih1
      have hmod : ((dmd_alloc_composite afuel nd s).state.dmd_composite_page + 1) % 256
          = (dmd_alloc_composite afuel nd s).state.dmd_composite_page + 1 := by omega
      rw [hmod] at ih1
      have key := cycles_mapped_composite descs flag nd nb p _ hat hc hnd hnb hc16
        (by rw [hadark]; exact hdark) (by rw [habright]; exact hbright) (descs p).delay _ ih1
      rw [hadark, habright] at key
      unfold dmd_transition_loop
      rw [if_pos hin, Run.andThen_done _ _ c1]
      simp only
      have htr : (dmd_transition_frame descs afuel flag nd nb s).trace
          = Event.task_sleep (descs p).delay ::
            (dmd_transition_composite descs flag nd nb
              (dmd_alloc_composite afuel nd s).state).trace := by
        rw [dmd_transition_frame_eq descs afuel flag nd nb p s h ha]
      rw [htr, List.cons_append]
      exact key

/-- The optional initializer keeps the visible pages. -/
theorem dmd_transition_init_visible (t : dmd_transition_t) (hc : TransitionContract t)
    (s : DmdState) :
    (dmd_transition_init t s).state.dmd_dark_page = s.dmd_dark_page
    ∧ (dmd_transition_init t s).state.dmd_bright_page = s.dmd_bright_page := by
  unfold dmd_transition_init
  cases h : t.composite_init with
  | none => exact ⟨rfl, rfl⟩
  | some f => exact ⟨(hc.init f h).dark_page s, (hc.init f h).bright_page s⟩

/-- Whatever the number of passes, the calls of `dmd_do_transition` after the
initializer satisfy the mapping check, and the bright page on display in the first
cycle is the one lines 576-612 leave. -/
theorem dmd_do_transition_cycles_mapped (descs : Nat → dmd_transition_t) (fuel p : Nat)
    (s : DmdState) (h : s.dmd_transition = some p) (hc : TransitionContract (descs p))
    (hf : 2 ≤ fuel) (hfree : s.dmd_free_page < DMD_PAGE_COUNT)
    (hlow : s.dmd_low_page < 256) (hhigh : s.dmd_high_page < 256)
    (hdark : s.dmd_dark_page < 256) (hbright : s.dmd_bright_page < 256) :
    ∃ cycles,
      (dmd_do_transition descs fuel s).trace
        = (dmd_transition_init (descs p) (dmd_transition_entry s)).trace ++ cycles
      ∧ cycles_mapped s.dmd_low_page s.dmd_high_page (one_copy_flag s) s.dmd_dark_page
          (dmd_transition_entry s).dmd_bright_page cycles
      ∧ (dmd_transition_entry s).dmd_bright_page
          = (if s.dmd_low_page = s.dmd_high_page then s.dmd_bright_page
             else (s.dmd_dark_page + 1) % 256) := by
  obtain ⟨ed, et, _, efr, eb1, eb2⟩ := dmd_transition_entry_fields s
  have hp : (dmd_transition_entry s).dmd_transition = some p := by rw [et, h]
  obtain ⟨i1, _, i3, i4⟩ := dmd_transition_init_spec (descs p) hc (dmd_transition_entry s)
  obtain ⟨i5, i6⟩ := dmd_transition_init_visible (descs p) hc (dmd_transition_entry s)
  have hb : (dmd_transition_entry s).dmd_bright_page
      = (if s.dmd_low_page = s.dmd_high_page then s.dmd_bright_page
         else (s.dmd_dark_page + 1) % 256) := by
    by_cases he : s.dmd_low_page = s.dmd_high_page
    · rw [if_pos he, eb1 he]
    · rw [if_neg he, eb2 he]
  have hb256 : (dmd_transition_entry s).dmd_bright_page < 256 := by
    rw [hb]; split <;> omega
  have key := dmd_transition_loop_mapped descs fuel (one_copy_flag s) s.dmd_low_page
    s.dmd_high_page p hc hf hlow hhigh fuel
    (dmd_transition_init (descs p) (dmd_transition_entry s)).state (by rw [i3, hp])
    (by rw [i4, efr]; exact hfree) (by rw [i5, ed]; exact hdark) (by rw [i6]; exact hb256)
  rw [i5, i6, ed] at key
  refine ⟨_, ?_, key, hb⟩
  rw [dmd_do_transition_eq_init]
  simp only [hp]
  rw [Run.andThen_ret_trace, Run.andThen_done _ _ i1]

/-! ## The private pointer of each channel -/

/-- The calls of one two-channel pass satisfy the pointer check when the rest of the
trace does. -/
theorem pointers_threaded_composite (descs : Nat → dmd_transition_t)
    (nd nb p : Nat) (a : DmdState) (hat : a.dmd_transition = some p)
    (hc : TransitionContract (descs p)) (hk : KeepsSecondPointer (descs p))
    (delay : Nat) (rest : List Event)
    (hrest : pointers_threaded (descs p)
      (dmd_transition_composite descs false nd nb a).state.dmd_trans_data_ptr
      (dmd_transition_composite descs false nd nb a).state.dmd_trans_data_ptr2 rest) :
    pointers_threaded (descs p) a.dmd_trans_data_ptr a.dmd_trans_data_ptr2
      (Event.task_sleep delay ::
        ((dmd_transition_composite descs false nd nb a).trace ++ rest)) := by
  obtain ⟨e1, e2, d, he1, he2, hd, _, hF⟩ :=
    dmd_transition_composite_run descs false nd nb p a hat hc
  obtain ⟨e3, e4, b, he3, he4, hb, hrun⟩ := hF rfl
  rw [hrun] at hrest ⊢
  simp only at hrest
  have q1 : e1.dmd_trans_data_ptr = a.dmd_trans_data_ptr := by rw [he1]; rfl
  have q2 : e1.dmd_trans_data_ptr2 = a.dmd_trans_data_ptr2 := by rw [he1]; rfl
  have q3 : e2.dmd_trans_data_ptr = ((descs p).composite_old e1).dmd_trans_data_ptr := by
    rw [he2]; rfl
  have q4 : e2.dmd_trans_data_ptr2 = a.dmd_trans_data_ptr2 := by
    rw [he2, ← q2]; exact hk.old e1
  have q5 : d.dmd_trans_data_ptr2 = a.dmd_trans_data_ptr2 := by
    rw [hd, hk.new, q4]
  have q6 : e3.dmd_trans_data_ptr = a.dmd_trans_data_ptr2 := by
    rw [he3, ← q5]; rfl
  have q7 : e4.dmd_trans_data_ptr = ((descs p).composite_old e3).dmd_trans_data_ptr := by
    rw [he4]; rfl
  simp only [List.cons_append, List.nil_append, pointers_threaded]
  refine ⟨q1, q3, q6, q7, ?_⟩
  rw [← hd, ← hb]
  exact hrest

theorem dmd_transition_loop_pointers (descs : Nat → dmd_transition_t) (afuel : Nat)
    (nd nb p : Nat) (hc : TransitionContract (descs p)) (hk : KeepsSecondPointer (descs p))
    (haf : 2 ≤ afuel) (fuel : Nat) (s : DmdState) (h : s.dmd_transition = some p) :
    pointers_threaded (descs p) s.dmd_trans_data_ptr s.dmd_trans_data_ptr2
      (dmd_transition_loop descs afuel false nd nb fuel s).trace := by
  induction fuel generalizing s with
  | zero =>
    unfold dmd_transition_loop
    split <;> simp [pointers_threaded, Run.ret]
  | succ fuel ih =>
    cases hin : s.dmd_in_transition with
    | false =>
      rw [dmd_transition_loop_idle _ _ _ _ _ _ _ hin]
      simp [pointers_threaded, Run.ret]
    | true =>
      have ha : (dmd_alloc_composite afuel nd s).status = Status.done := by
        rw [dmd_alloc_composite_two afuel nd s haf]
        split <;> rfl
      obtain ⟨_, _, ⟨f, c, hst⟩, _⟩ := dmd_alloc_composite_spec afuel nd s
      obtain ⟨c1, _, c3, _⟩ :=
        dmd_transition_frame_contract descs afuel false nd nb p s h hc ha
      have hat : (dmd_alloc_composite afuel nd s).state.dmd_transition = some p := by
        rw [hst]; exact h
      have hp1 : (dmd_alloc_composite afuel nd s).state.dmd_trans_data_ptr
          = s.dmd_trans_data_ptr := by rw [hst]
      have hp2 : (dmd_alloc_composite afuel nd s).state.dmd_trans_data_ptr2
          = s.dmd_trans_data_ptr2 := by rw [hst]
      have htr : (dmd_transition_frame descs afuel false nd nb s).trace
          = Event.task_sleep (descs p).delay ::
            (dmd_transition_composite descs false nd nb
              (dmd_alloc_composite afuel nd s).state).trace := by
        rw [dmd_transition_frame_eq descs afuel false nd nb p s h ha]
      have hst2 : (dmd_transition_frame descs afuel false nd nb s).state
          = (dmd_transition_composite descs false nd nb
              (dmd_alloc_composite afuel nd s).state).state := by
        rw [dmd_transition_frame_eq descs afuel false nd nb p s h ha]
      have ih1 := ih (dmd_transition_frame descs afuel false nd nb s).state c3
      have key := pointers_threaded_composite descs nd nb p _ hat hc hk (descs p).delay
        (dmd_transition_loop descs afuel false nd nb fuel
          (dmd_transition_frame descs afuel false nd nb s).state).trace
        (by rw [← hst2]; exact ih1)
      rw [hp1, hp2] at key
      unfold dmd_transition_loop
      rw [if_pos hin, Run.andThen_done _ _ c1]
      simp only
      rw [htr, List.cons_append]
      exact key

/-- Lines 576-612 leave the private pointer null, and the second one too when the
one-copy flag is false. -/
theorem dmd_transition_entry_pointers (s : DmdState) :
    (dmd_transition_entry s).dmd_trans_data_ptr = 0
    ∧ (one_copy_flag s = false → (dmd_transition_entry s).dmd_trans_data_ptr2 = 0) := by
  unfold dmd_transition_entry
  simp only
  split
  · rename_i hf
    refine ⟨rfl, fun hn => ?_⟩
    have : one_copy_flag s = true := hf
    rw [this] at hn
    cases hn
  · unfold dmd_transition_normalize
    simp only
    split
    · exact ⟨rfl, fun _ => rfl⟩
    · exact ⟨rfl, fun _ => rfl⟩

theorem two_step_keeps_second : KeepsSecondPointer two_step where
  old := fun _ => rfl
  new := fun _ => by simp only [two_step]; split <;> rfl

theorem primed_step_contract : TransitionContract primed_step where
  init := fun f hf => by
    have e : f = fun s => { s with dmd_trans_data_ptr := 1 } := by
      have h1 : (some fun s : DmdState => { s with dmd_trans_data_ptr := 1 }) = some f := hf
      exact (Option.some.inj h1).symm
    subst e
    exact
      { free_page := fun _ => rfl, low_page := fun _ => rfl, high_page := fun _ => rfl,
        dark_page := fun _ => rfl, bright_page := fun _ => rfl,
        composite_page := fun _ => rfl, transition := fun _ => rfl }
  old := two_step_contract.old
  new := two_step_contract.new

theorem primed_step_keeps_second : KeepsSecondPointer primed_step where
  old := two_step_keeps_second.old
  new := two_step_keeps_second.new

/-- C23, as the claim has it, fails when the descriptor has an initializer that uses
the pointer: `primed_step` keeps the engine's variables and `dmd_trans_data_ptr2`, and
in the first cycle of a two-channel transition the dark channel is entered with the
value 1 its initializer stored while the bright channel is entered with null. -/
theorem dmd_trans_data_ptr_first_cycle_after_init :
    TransitionContract primed_step
    ∧ KeepsSecondPointer primed_step
    ∧ one_copy_flag mono_to_color = false
    ∧ (dmd_do_transition (fun _ => primed_step) 2 mono_to_color).status = Status.done
    ∧ (dmd_do_transition (fun _ => primed_step) 2 mono_to_color).trace.map
          (fun e => (e.call, e.data_ptr))
        = [(Call.init, some 0), (Call.sleep 1, none),
           (Call.old Channel.dark, some 1), (Call.new Channel.dark, some 1),
           (Call.old Channel.bright, some 0), (Call.new Channel.bright, some 0)] :=
  ⟨primed_step_contract, primed_step_keeps_second, by decide, by decide, by decide⟩

/-- C23 (amended): in two-channel mode, with a descriptor whose callbacks keep the
engine's variables and leave `dmd_trans_data_ptr2` alone, `dmd_do_transition` clears
both pointers before the initializer runs, and through the cycles each channel sees
only its own pointer: in the first cycle the dark channel is entered with what the
initializer left in `dmd_trans_data_ptr` and the bright channel with what it left in
`dmd_trans_data_ptr2` (both null when there is no initializer), in every cycle
`composite_new` of a channel is entered with what `composite_old` of that channel
left, and in the next cycle `composite_old` of a channel is entered with what
`composite_new` of that channel left. -/
theorem dmd_trans_data_ptr_per_channel (descs : Nat → dmd_transition_t) (fuel p : Nat)
    (s : DmdState) (h : s.dmd_transition = some p) (hc : TransitionContract (descs p))
    (hk : KeepsSecondPointer (descs p)) (hf : 2 ≤ fuel) (hflag : one_copy_flag s = false) :
    (dmd_transition_entry s).dmd_trans_data_ptr = 0
    ∧ (dmd_transition_entry s).dmd_trans_data_ptr2 = 0
    ∧ ((descs p).composite_init = none →
        (dmd_transition_init (descs p) (dmd_transition_entry s)).state.dmd_trans_data_ptr = 0
        ∧ (dmd_transition_init (descs p) (dmd_transition_entry s)).state.dmd_trans_data_ptr2
            = 0)
    ∧ ∃ cycles,
        (dmd_do_transition descs fuel s).trace
          = (dmd_transition_init (descs p) (dmd_transition_entry s)).trace ++ cycles
        ∧ pointers_threaded (descs p)
            (dmd_transition_init (descs p) (dmd_transition_entry s)).state.dmd_trans_data_ptr
            (dmd_transition_init (descs p) (dmd_transition_entry s)).state.dmd_trans_data_ptr2
            cycles := by
  obtain ⟨p1, p2⟩ := dmd_transition_entry_pointers s
  have p2 := p2 hflag
  have hp : (dmd_transition_entry s).dmd_transition = some p := by
    rw [(dmd_transition_entry_fields s).2.1, h]
  obtain ⟨i1, _, i3, _⟩ := dmd_transition_init_spec (descs p) hc (dmd_transition_entry s)
  refine ⟨p1, p2, ?_,
    (dmd_transition_loop descs fuel (one_copy_flag s) s.dmd_low_page s.dmd_high_page fuel
      (dmd_transition_init (descs p) (dmd_transition_entry s)).state).trace, ?_, ?_⟩
  · intro hn
    unfold dmd_transition_init
    rw [hn]
    exact ⟨p1, p2⟩
  · rw [dmd_do_transition_eq_init]
    simp only [hp]
    rw [Run.andThen_ret_trace, Run.andThen_done _ _ i1]
  · rw [hflag]
    exact dmd_transition_loop_pointers descs fuel s.dmd_low_page s.dmd_high_page p hc hk hf
      fuel _ (by rw [i3, hp])

theorem dmd_trans_data_ptr_per_channel_witness :
    mono_to_color.dmd_transition = some 0
    ∧ one_copy_flag mono_to_color = false
    ∧ ∃ cycles,
        (dmd_do_transition (fun _ => two_step) 2 mono_to_color).trace
          = (dmd_transition_init two_step (dmd_transition_entry mono_to_color)).trace ++ cycles
        ∧ pointers_threaded two_step
            (dmd_transition_init two_step
              (dmd_transition_entry mono_to_color)).state.dmd_trans_data_ptr
            (dmd_transition_init two_step
              (dmd_transition_entry mono_to_color)).state.dmd_trans_data_ptr2
            cycles :=
  ⟨rfl, by decide,
    (dmd_trans_data_ptr_per_channel (fun _ => two_step) 2 0 mono_to_color rfl
      two_step_contract two_step_keeps_second (by decide) (by decide)).2.2.2⟩

/-! ## The composite pages and the pages on display -/

/-- When the retry loop ends normally it has made one attempt, or two when the first
page was `new_dark_page`. -/
theorem dmd_alloc_composite_done_eq (afuel nd : Nat) (s : DmdState)
    (h : (dmd_alloc_composite afuel nd s).status = Status.done) :
    ∃ c, (c = s.dmd_free_page ∨ (s.dmd_free_page = nd ∧ c = (s.dmd_free_page + 2) % 256 % 16))
      ∧ c ≠ nd
      ∧ (dmd_alloc_composite afuel nd s).state
          = { s with dmd_free_page := (c + 2) % 256 % 16, dmd_composite_page := c } := by
  have e := dmd_alloc_composite_mono afuel (afuel + 2) nd s (by omega) h
  rw [← e, dmd_alloc_composite_two (afuel + 2) nd s (by omega)]
  by_cases hc : s.dmd_free_page = nd
  · rw [if_pos hc]
    exact ⟨_, Or.inr ⟨hc, rfl⟩, by omega, rfl⟩
  · rw [if_neg hc]
    exact ⟨_, Or.inl rfl, hc, rfl⟩

/-- The callbacks of one pass write pages that are not on display, when the composite
page chosen for the pass is an even page different from the dark page on display. -/
theorem writes_hidden_composite (descs : Nat → dmd_transition_t) (flag : Bool)
    (nd nb p : Nat) (a : DmdState) (hat : a.dmd_transition = some p)
    (hc : TransitionContract (descs p))
    (ha16 : a.dmd_composite_page < 16) (haeven : a.dmd_composite_page % 2 = 0)
    (hdeven : a.dmd_dark_page % 2 = 0) (hne : a.dmd_composite_page ≠ a.dmd_dark_page)
    (hb : a.dmd_bright_page = a.dmd_dark_page ∨ a.dmd_bright_page = a.dmd_dark_page + 1) :
    ∀ e ∈ (dmd_transition_composite descs flag nd nb a).trace, e.writes_hidden := by
  obtain ⟨e1, e2, d, he1, he2, hd, hT, hF⟩ :=
    dmd_transition_composite_run descs flag nd nb p a hat hc
  have q1 : e1.dmd_dark_page = a.dmd_dark_page := by rw [he1]; rfl
  have q2 : e1.dmd_bright_page = a.dmd_bright_page := by rw [he1]; rfl
  have q3 : e1.dmd_composite_page = a.dmd_composite_page := by rw [he1]; rfl
  have q4 : e1.dmd_high_page = a.dmd_composite_page := by
    rw [he1]
    show a.dmd_composite_page % 256 = _
    omega
  have s1 : e2.dmd_dark_page = a.dmd_dark_page := by
    rw [he2, ← q1]; exact hc.old.dark_page e1
  have s2 : e2.dmd_bright_page = a.dmd_bright_page := by
    rw [he2, ← q2]; exact hc.old.bright_page e1
  have s3 : e2.dmd_composite_page = a.dmd_composite_page := by
    rw [he2, ← q3]; exact hc.old.composite_page e1
  have s4 : e2.dmd_high_page = a.dmd_composite_page := by
    rw [he2, ← q4]; exact hc.old.high_page e1
  have w1 : (Event.composite_old Channel.dark e1).writes_hidden := by
    simp only [Event.writes_hidden, DMD_PAGE_COUNT, true_or, or_true, true_and, q1, q2, q3, q4]
    omega
  have w2 : (Event.composite_new Channel.dark e2).writes_hidden := by
    simp only [Event.writes_hidden, DMD_PAGE_COUNT, true_or, or_true, true_and, s1, s2, s3, s4]
    omega
  cases flag with
  | true =>
    rw [hT rfl]
    intro e he
    simp only [List.mem_cons, List.mem_singleton, List.not_mem_nil, or_false] at he
    rcases he with rfl | rfl
    · exact w1
    · exact w2
  | false =>
    obtain ⟨e3, e4, b, he3, he4, hb4, hrun⟩ := hF rfl
    rw [hrun]
    have t1 : d.dmd_dark_page = a.dmd_dark_page := by rw [hd, hc.new.dark_page, s1]
    have t2 : d.dmd_bright_page = a.dmd_bright_page := by rw [hd, hc.new.bright_page, s2]
    have t3 : d.dmd_composite_page = a.dmd_composite_page := by
      rw [hd, hc.new.composite_page, s3]
    have r1 : e3.dmd_dark_page = a.dmd_dark_page := by rw [he3, ← t1]; rfl
    have r2 : e3.dmd_bright_page = a.dmd_bright_page := by rw [he3, ← t2]; rfl
    have r3 : e3.dmd_composite_page = a.dmd_composite_page := by rw [he3, ← t3]; rfl
    have r4 : e3.dmd_high_page = a.dmd_composite_page + 1 := by
      rw [he3]
      show (d.dmd_composite_page + 1) % 256 = _
      rw [t3]; omega
    have u1 : e4.dmd_dark_page = a.dmd_dark_page := by
      rw [he4, ← r1]; exact hc.old.dark_page e3
    have u2 : e4.dmd_bright_page = a.dmd_bright_page := by
      rw [he4, ← r2]; exact hc.old.bright_page e3
    have u3 : e4.dmd_composite_page = a.dmd_composite_page := by
      rw [he4, ← r3]; exact hc.old.composite_page e3
    have u4 : e4.dmd_high_page = a.dmd_composite_page + 1 := by
      rw [he4, ← r4]; exact hc.old.high_page e3
    have w3 : (Event.composite_old Channel.bright e3).writes_hidden := by
      simp only [Event.writes_hidden, DMD_PAGE_COUNT, true_or, or_true, true_and, r1, r2, r3, r4]
      omega
    have w4 : (Event.composite_new Channel.bright e4).writes_hidden := by
      simp only [Event.writes_hidden, DMD_PAGE_COUNT, true_or, or_true, true_and, u1, u2, u3, u4]
      omega
    intro e he
    simp only [List.mem_cons, List.mem_singleton, List.not_mem_nil, or_false] at he
    rcases he with rfl | rfl | rfl | rfl
    · exact w1
    · exact w2
    · exact w3
    · exact w4

/-- One pass of the loop body: its callbacks write pages that are not on display, and
when it ends normally the pages on display are the pair allocated last. -/
theorem dmd_transition_frame_hidden (descs : Nat → dmd_transition_t) (afuel : Nat)
    (flag : Bool) (nd nb p : Nat) (hc : TransitionContract (descs p)) (s : DmdState)
    (h : s.dmd_transition = some p)
    (hfree : s.dmd_free_page < 16) (hfe : s.dmd_free_page % 2 = 0)
    (hde : s.dmd_dark_page % 2 = 0)
    (hb : s.dmd_bright_page = s.dmd_dark_page ∨ s.dmd_bright_page = s.dmd_dark_page + 1)
    (hne : s.dmd_free_page ≠ s.dmd_dark_page)
    (hne2 : s.dmd_free_page = nd → (s.dmd_free_page + 2) % 16 ≠ s.dmd_dark_page) :
    (∀ e ∈ (dmd_transition_frame descs afuel flag nd nb s).trace, e.writes_hidden)
    ∧ ((dmd_transition_frame descs afuel flag nd nb s).status = Status.done →
        (dmd_transition_frame descs afuel flag nd nb s).state.dmd_transition = some p
        ∧ (dmd_transition_frame descs afuel flag nd nb s).state.dmd_free_page < 16
        ∧ (dmd_transition_frame descs afuel flag nd nb s).state.dmd_free_page % 2 = 0
        ∧ (dmd_transition_frame descs afuel flag nd nb s).state.dmd_dark_page
            = ((dmd_transition_frame descs afuel flag nd nb s).state.dmd_free_page + 14) % 16
        ∧ ((dmd_transition_frame descs afuel flag nd nb s).state.dmd_bright_page
              = (dmd_transition_frame descs afuel flag nd nb s).state.dmd_dark_page
            ∨ (dmd_transition_frame descs afuel flag nd nb s).state.dmd_bright_page
              = (dmd_transition_frame descs afuel flag nd nb s).state.dmd_dark_page + 1)) := by
  have halloc : (dmd_alloc_composite afuel nd s).status = Status.done →
      (dmd_alloc_composite afuel nd s).state.dmd_transition = some p
      ∧ (dmd_alloc_composite afuel nd s).state.dmd_composite_page < 16
      ∧ (dmd_alloc_composite afuel nd s).state.dmd_composite_page % 2 = 0
      ∧ (dmd_alloc_composite afuel nd s).state.dmd_composite_page ≠ s.dmd_dark_page
      ∧ (dmd_alloc_composite afuel nd s).state.dmd_dark_page = s.dmd_dark_page
      ∧ (dmd_alloc_composite afuel nd s).state.dmd_bright_page = s.dmd_bright_page
      ∧ (dmd_alloc_composite afuel nd s).state.dmd_free_page
          = ((dmd_alloc_composite afuel nd s).state.dmd_composite_page + 2) % 16 := by
    intro ha
    obtain ⟨c, hcc, _, hst⟩ := dmd_alloc_composite_done_eq afuel nd s ha
    rw [hst]
    refine ⟨h, ?_, ?_, ?_, rfl, rfl, ?_⟩
    · show c < 16
      rcases hcc with rfl | ⟨_, rfl⟩ <;> omega
    · show c % 2 = 0
      rcases hcc with rfl | ⟨_, rfl⟩ <;> omega
    · show c ≠ s.dmd_dark_page
      rcases hcc with rfl | ⟨hnd, rfl⟩
      · exact hne
      · have := hne2 hnd
        omega
    · show (c + 2) % 256 % 16 = (c + 2) % 16
      omega
  refine ⟨?_, ?_⟩
  · intro e he
    simp only [dmd_transition_frame, h] at he
    rcases Run.mem_andThen he with he | ⟨_, he⟩
    · simp only [List.mem_singleton] at he
      subst he
      exact True.intro
    · rcases Run.mem_andThen he with he | ⟨ha, he⟩
      · rw [(dmd_alloc_composite_spec afuel nd s).1] at he
        cases he
      · obtain ⟨a1, a2, a3, a4, a5, a6, _⟩ := halloc ha
        exact writes_hidden_composite descs flag nd nb p _ a1 hc a2 a3 (by rw [a5]; exact hde)
          (by rw [a5]; exact a4) (by rw [a5, a6]; exact hb) e he
  · intro hd
    have ha := dmd_transition_frame_done _ _ _ _ _ _ hd
    obtain ⟨_, a2, a3, _, _, _, a7⟩ := halloc ha
    obtain ⟨_, _, c3, c4, _, c6, c7, _⟩ :=
      dmd_transition_frame_contract descs afuel flag nd nb p s h hc ha
    rw [c4, c6, c7, a7]
    refine ⟨c3, ?_, ?_, ?_, ?_⟩
    · omega
    · omega
    · omega
    · cases flag
      · right
        simp only [Bool.false_eq_true, if_false]
        omega
      · left
        rfl

/-- The main loop: its callbacks write pages that are not on display, and when it is
entered with the flag set and ends normally the pages on display are the pair
allocated last. -/
theorem dmd_transition_loop_hidden (descs : Nat → dmd_transition_t) (afuel : Nat)
    (flag : Bool) (nd nb p : Nat) (hc : TransitionContract (descs p)) (fuel : Nat)
    (s : DmdState) (h : s.dmd_transition = some p)
    (hfree : s.dmd_free_page < 16) (hfe : s.dmd_free_page % 2 = 0)
    (hd16 : s.dmd_dark_page < 16) (hde : s.dmd_dark_page % 2 = 0)
    (hb : s.dmd_bright_page = s.dmd_dark_page ∨ s.dmd_bright_page = s.dmd_dark_page + 1)
    (hne : s.dmd_free_page ≠ s.dmd_dark_page)
    (hne2 : s.dmd_free_page = nd → (s.dmd_free_page + 2) % 16 ≠ s.dmd_dark_page) :
    (∀ e ∈ (dmd_transition_loop descs afuel flag nd nb fuel s).trace, e.writes_hidden)
    ∧ ((dmd_transition_loop descs afuel flag nd nb fuel s).status = Status.done →
        s.dmd_in_transition = true →
        (dmd_transition_loop descs afuel flag nd nb fuel s).state.dmd_free_page < 16
        ∧ (dmd_transition_loop descs afuel flag nd nb fuel s).state.dmd_free_page % 2 = 0
        ∧ (dmd_transition_loop descs afuel flag nd nb fuel s).state.dmd_dark_page
            = ((dmd_transition_loop descs afuel flag nd nb fuel s).state.dmd_free_page + 14) % 16
        ∧ ((dmd_transition_loop descs afuel flag nd nb fuel s).state.dmd_bright_page
              = (dmd_transition_loop descs afuel flag nd nb fuel s).state.dmd_dark_page
            ∨ (dmd_transition_loop descs afuel flag nd nb fuel s).state.dmd_bright_page
              = (dmd_transition_loop descs afuel flag nd nb fuel s).state.dmd_dark_page + 1)) := by
  induction fuel generalizing s with
  | zero =>
    refine ⟨?_, ?_⟩
    · intro e he
      unfold dmd_transition_loop at he
      split at he <;> cases he
    · intro hd hin
      simp [dmd_transition_loop, hin] at hd
  | succ fuel ih =>
    cases hin : s.dmd_in_transition with
    | false =>
      rw [dmd_transition_loop_idle _ _ _ _ _ _ _ hin]
      exact ⟨fun e he => (by cases he), fun _ hc2 => (by cases hc2)⟩
    | true =>
      obtain ⟨f1, f2⟩ := dmd_transition_frame_hidden descs afuel flag nd nb p hc s h hfree hfe
        hde hb hne hne2
      have hnext := fun (hfd : (dmd_transition_frame descs afuel flag nd nb s).status
          = Status.done) =>
        ih (dmd_transition_frame descs afuel flag nd nb s).state (f2 hfd).1 (f2 hfd).2.1
          (f2 hfd).2.2.1
          (by rw [(f2 hfd).2.2.2.1]; omega)
          (by have g2 := (f2 hfd).2.1; have g3 := (f2 hfd).2.2.1
              rw [(f2 hfd).2.2.2.1]; omega)
          (f2 hfd).2.2.2.2
          (by have g2 := (f2 hfd).2.1; have g3 := (f2 hfd).2.2.1
              rw [(f2 hfd).2.2.2.1]; omega)
          (fun _ => by
            have g2 := (f2 hfd).2.1
            have g3 := (f2 hfd).2.2.1
            rw [(f2 hfd).2.2.2.1]; omega)
      unfold dmd_transition_loop
      rw [if_pos hin]
      refine ⟨?_, ?_⟩
      · intro e he
        rcases Run.mem_andThen he with he | ⟨hfd, he⟩
        · exact f1 e he
        · exact (hnext hfd).1 e he
      · intro hd _
        obtain ⟨hfd, hld⟩ := Run.andThen_status_done _ _ hd
        rw [Run.andThen_done _ _ hfd]
        simp only
        cases hin1 : (dmd_transition_frame descs afuel flag nd nb s).state.dmd_in_transition with
        | false =>
          rw [dmd_transition_loop_idle _ _ _ _ _ _ _ hin1]
          exact (f2 hfd).2
        | true => exact (hnext hfd).2 hld hin1

/-- The call of the initializer is not a compositor call. -/
theorem dmd_transition_init_hidden (t : dmd_transition_t) (s : DmdState) :
    ∀ e ∈ (dmd_transition_init t s).trace, e.writes_hidden := by
  unfold dmd_transition_init
  cases h : t.composite_init with
  | none => exact fun e he => (by cases he)
  | some f =>
    intro e he
    simp only [List.mem_singleton] at he
    subst he
    exact True.intro

/-- A transition started by the caller pattern: the image on display is the pair
allocated before the new image.  Its callbacks write pages that are not on display,
and when it ends normally after at least one cycle the pages on display are the pair
allocated last. -/
theorem dmd_do_transition_hidden (descs : Nat → dmd_transition_t) (fuel p : Nat)
    (hc : TransitionContract (descs p)) (s : DmdState)
    (h : s.dmd_transition = some p)
    (hfree : s.dmd_free_page < 16) (hfe : s.dmd_free_page % 2 = 0)
    (hdark : s.dmd_dark_page = (s.dmd_free_page + 12) % 16)
    (hb : s.dmd_bright_page = s.dmd_dark_page ∨ s.dmd_bright_page = s.dmd_dark_page + 1)
    (hlow : s.dmd_low_page = (s.dmd_free_page + 14) % 16) :
    (∀ e ∈ (dmd_do_transition descs fuel s).trace, e.writes_hidden)
    ∧ ((dmd_do_transition descs fuel s).status = Status.done →
        (∃ ch e, Event.composite_new ch e ∈ (dmd_do_transition descs fuel s).trace) →
        (dmd_do_transition descs fuel s).state.dmd_transition = none
        ∧ (dmd_do_transition descs fuel s).state.dmd_free_page < 16
        ∧ (dmd_do_transition descs fuel s).state.dmd_free_page % 2 = 0
        ∧ (dmd_do_transition descs fuel s).state.dmd_dark_page
            = ((dmd_do_transition descs fuel s).state.dmd_free_page + 14) % 16
        ∧ ((dmd_do_transition descs fuel s).state.dmd_bright_page
              = (dmd_do_transition descs fuel s).state.dmd_dark_page
            ∨ (dmd_do_transition descs fuel s).state.dmd_bright_page
              = (dmd_do_transition descs fuel s).state.dmd_dark_page + 1)) := by
  obtain ⟨ed, et, ein, efr, eb1, eb2⟩ := dmd_transition_entry_fields s
  have hp : (dmd_transition_entry s).dmd_transition = some p := by rw [et, h]
  obtain ⟨i1, _, i3, i4⟩ := dmd_transition_init_spec (descs p) hc (dmd_transition_entry s)
  obtain ⟨i5, i6⟩ := dmd_transition_init_visible (descs p) hc (dmd_transition_entry s)
  have i8 := dmd_transition_init_hidden (descs p) (dmd_transition_entry s)
  have hbe : (dmd_transition_entry s).dmd_bright_page = s.dmd_dark_page
      ∨ (dmd_transition_entry s).dmd_bright_page = s.dmd_dark_page + 1 := by
    by_cases he : s.dmd_low_page = s.dmd_high_page
    · rw [eb1 he]; exact hb
    · rw [eb2 he]; right; omega
  obtain ⟨l1, l2⟩ := dmd_transition_loop_hidden descs fuel (one_copy_flag s) s.dmd_low_page
    s.dmd_high_page p hc fuel (dmd_transition_init (descs p) (dmd_transition_entry s)).state
    (by rw [i3, hp]) (by rw [i4, efr]; exact hfree) (by rw [i4, efr]; exact hfe)
    (by rw [i5, ed, hdark]; omega) (by rw [i5, ed, hdark]; omega)
    (by rw [i6, i5, ed]; exact hbe) (by rw [i4, efr, i5, ed, hdark]; omega)
    (fun hnd => by rw [i4, efr, hlow] at hnd; omega)
  rw [dmd_do_transition_eq_init]
  simp only [hp]
  refine ⟨?_, ?_⟩
  · intro e he
    rw [Run.andThen_ret_trace] at he
    rcases Run.mem_andThen he with he | ⟨_, he⟩
    · exact i8 e he
    · exact l1 e he
  · intro hd hcycle
    obtain ⟨h1, _⟩ := Run.andThen_status_done _ _ hd
    obtain ⟨_, h3⟩ := Run.andThen_status_done _ _ h1
    rw [Run.andThen_ret_trace, Run.andThen_done _ _ i1] at hcycle
    simp only at hcycle
    have hin : (dmd_transition_init (descs p) (dmd_transition_entry s)).state.dmd_in_transition
        = true := by
      by_contra hne
      have hfalse : (dmd_transition_init (descs p)
          (dmd_transition_entry s)).state.dmd_in_transition = false := by
        simpa using hne
      obtain ⟨ch, e, he⟩ := hcycle
      rw [dmd_transition_loop_idle _ _ _ _ _ _ _ hfalse] at he
      simp only [Run.ret, List.append_nil] at he
      exact dmd_transition_init_new _ _ _ _ he
    obtain ⟨m1, m2, m3, m4⟩ := l2 h3 hin
    rw [Run.andThen_done _ _ h1]
    rw [Run.andThen_done _ _ i1]
    exact ⟨rfl, m1, m2, m3, m4⟩

/-- What a round of the caller pattern leaves at the show. -/
theorem pattern_draw_fields (two : Bool) (store : Nat → Nat → Nat) (trans : Option Nat)
    (s : DmdState) (hfree : s.dmd_free_page < 16) :
    (pattern_draw two store trans s).dmd_free_page = (s.dmd_free_page + 2) % 16
    ∧ (pattern_draw two store trans s).dmd_low_page = s.dmd_free_page
    ∧ (pattern_draw two store trans s).dmd_high_page
        = (if two then s.dmd_free_page + 1 else s.dmd_free_page)
    ∧ (pattern_draw two store trans s).dmd_dark_page = s.dmd_dark_page
    ∧ (pattern_draw two store trans s).dmd_bright_page = s.dmd_bright_page
    ∧ (trans = none → (pattern_draw two store trans s).dmd_transition = s.dmd_transition)
    ∧ (∀ p, trans = some p → (pattern_draw two store trans s).dmd_transition = some p
        ∧ (pattern_draw two store trans s).dmd_in_transition = true) := by
  have e1 : (s.dmd_free_page + 2) % 256 % 16 = (s.dmd_free_page + 2) % 16 := by omega
  have e2 : s.dmd_free_page % 256 = s.dmd_free_page := by omega
  have e3 : (s.dmd_free_page + 1) % 256 = s.dmd_free_page + 1 := by omega
  cases two <;> cases trans <;>
    simp [pattern_draw, dmd_alloc_low, dmd_alloc_low_high, dmd_alloc, dmd_sched_transition,
      wpc_dmd_set_low_page, wpc_dmd_set_high_page, wpc_dmd_get_low_page, e1, e2, e3]

/-- Without a pending transition the show of a round is a cut to the new image. -/
theorem pattern_show_cut (descs : Nat → dmd_transition_t) (fuel : Nat) (two : Bool)
    (t : DmdState) (hnone : t.dmd_transition = none) :
    (pattern_show descs fuel two t).trace = []
    ∧ (pattern_show descs fuel two t).state.dmd_transition = none
    ∧ (pattern_show descs fuel two t).state.dmd_free_page = t.dmd_free_page
    ∧ (pattern_show descs fuel two t).state.dmd_dark_page = t.dmd_low_page
    ∧ (pattern_show descs fuel two t).state.dmd_bright_page
        = (if two then t.dmd_high_page else t.dmd_low_page) := by
  unfold pattern_show dmd_show2 dmd_show_low
  cases two <;> simp [hnone, Run.ret]

/-- With a pending transition the show of a round runs it. -/
theorem pattern_show_transition (descs : Nat → dmd_transition_t) (fuel : Nat) (two : Bool)
    (t : DmdState) (p : Nat) (hp : t.dmd_transition = some p) :
    pattern_show descs fuel two t = dmd_do_transition descs fuel t := by
  unfold pattern_show dmd_show2 dmd_show_low
  cases two <;> simp [hp]

/-- After every round of the caller pattern no transition is pending and the pages
on display are the pair allocated last. -/
theorem PatternReachable.visible {descs : Nat → dmd_transition_t} {s : DmdState}
    (hall : ∀ p, TransitionContract (descs p))
    (hr : PatternReachable descs s) :
    s.dmd_transition = none
    ∧ s.dmd_free_page < 16
    ∧ s.dmd_free_page % 2 = 0
    ∧ s.dmd_dark_page = (s.dmd_free_page + 14) % 16
    ∧ (s.dmd_bright_page = s.dmd_dark_page ∨ s.dmd_bright_page = s.dmd_dark_page + 1) := by
  induction hr with
  | init s0 =>
    have e1 : (dmd_init s0).dmd_free_page = 2 := rfl
    have e2 : (dmd_init s0).dmd_dark_page = 0 := rfl
    have e3 : (dmd_init s0).dmd_bright_page = 0 := rfl
    rw [e1, e2, e3]
    exact ⟨rfl, by decide, by decide, by decide, Or.inl rfl⟩
  | round s two store trans fuel _ hd hcycle ih =>
    obtain ⟨v1, v2, v3, v4, v5⟩ := ih
    obtain ⟨d1, d2, d3, d4, d5, d6, d7⟩ := pattern_draw_fields two store trans s v2
    cases htr : trans with
    | none =>
      subst htr
      have hnone : (pattern_draw two store none s).dmd_transition = none := by
        rw [d6 rfl, v1]
      obtain ⟨_, c2, c3, c4, c5⟩ := pattern_show_cut descs fuel two _ hnone
      rw [c2, c3, c4, c5, d1, d2, d3]
      refine ⟨rfl, by omega, by omega, by omega, ?_⟩
      cases two
      · left; rfl
      · right; rfl
    | some p =>
      subst htr
      obtain ⟨t1, t2⟩ := d7 p rfl
      have hshow := pattern_show_transition descs fuel two _ p t1
      have hcy := hcycle (by simp)
      rw [hshow]
      rw [hshow] at hd hcy
      exact (dmd_do_transition_hidden descs fuel p (hall p) _ t1
        (by rw [d1]; omega) (by rw [d1]; omega) (by rw [d4, d1, v4]; omega)
        (by rw [d5, d4]; exact v5) (by rw [d2, d1]; omega)).2 hd hcy

/-- The animation cycles of the caller pattern.  Take descriptors whose callbacks keep
the engine's variables, and a state reached from `dmd_init` by rounds of allocate, draw,
optionally `dmd_sched_transition`, show, in which every scheduled transition has ended
after a `composite_new` call.  Every compositor callback of the next round's show is
entered with the page mapped high being `dmd_composite_page` or the page after it, and
neither of them is `dmd_dark_page` or `dmd_bright_page`.  This says nothing of the
pages written before the first cycle. -/
theorem dmd_pattern_cycles_hidden (descs : Nat → dmd_transition_t)
    (hall : ∀ p, TransitionContract (descs p))
    (s : DmdState) (hr : PatternReachable descs s)
    (two : Bool) (store : Nat → Nat → Nat) (trans : Option Nat) (fuel : Nat) :
    ∀ e ∈ (pattern_show descs fuel two (pattern_draw two store trans s)).trace,
      e.writes_hidden := by
  obtain ⟨v1, v2, v3, v4, v5⟩ := hr.visible hall
  obtain ⟨d1, d2, d3, d4, d5, d6, d7⟩ := pattern_draw_fields two store trans s v2
  cases htr : trans with
  | none =>
    subst htr
    have hnone : (pattern_draw two store none s).dmd_transition = none := by
      rw [d6 rfl, v1]
    intro e he
    rw [(pattern_show_cut descs fuel two _ hnone).1] at he
    cases he
  | some p =>
    subst htr
    obtain ⟨t1, t2⟩ := d7 p rfl
    rw [pattern_show_transition descs fuel two _ p t1]
    exact (dmd_do_transition_hidden descs fuel p (hall p) _ t1
      (by rw [d1]; omega) (by rw [d1]; omega) (by rw [d4, d1, v4]; omega)
      (by rw [d5, d4]; exact v5) (by rw [d2, d1]; omega)).1

theorem dmd_pattern_cycles_hidden_sample :
    PatternReachable (fun _ => two_step)
      (pattern_show (fun _ => two_step) 2 false
        (pattern_draw false (fun pg _ => pg) (some 0) (dmd_init power_on))).state
    ∧ ∃ e ∈ (pattern_show (fun _ => two_step) 2 true
          (pattern_draw true (fun pg _ => pg) (some 0)
            (pattern_show (fun _ => two_step) 2 false
              (pattern_draw false (fun pg _ => pg) (some 0) (dmd_init power_on))).state)).trace,
        e.call = Call.new Channel.bright ∧ e.writes_hidden :=
  have hr : PatternReachable (fun _ => two_step)
      (pattern_show (fun _ => two_step) 2 false
        (pattern_draw false (fun pg _ => pg) (some 0) (dmd_init power_on))).state :=
    PatternReachable.round _ false _ (some 0) 2 (PatternReachable.init power_on) (by decide)
      (fun _ => ⟨Channel.dark, _,
        List.mem_cons_of_mem _ (List.mem_cons_of_mem _ (List.mem_cons_self _ _))⟩)
  ⟨hr, _,
    List.mem_cons_of_mem _ (List.mem_cons_of_mem _ (List.mem_cons_of_mem _
      (List.mem_cons_of_mem _ (List.mem_cons_self _ _)))),
    rfl,
    dmd_pattern_cycles_hidden (fun _ => two_step)
      (fun _ => two_step_contract) _ hr true (fun pg _ => pg)
      (some 0) 2 _
      (List.mem_cons_of_mem _ (List.mem_cons_of_mem _ (List.mem_cons_of_mem _
        (List.mem_cons_of_mem _ (List.mem_cons_self _ _)))))⟩

/-! ## Simulator ball tracking -/

theorem sim_ball_init_locations_apply (todo n : Nat) (tbl : Nat → Int) (l : Nat) :
    sim_ball_init_locations todo n tbl l
      = if n ≤ l ∧ l < n + todo then SIM_NO_BALL_HERE else tbl l := by
  induction todo generalizing n tbl with
  | zero =>
    have hf : ¬ (n ≤ l ∧ l < n + 0) := by omega
    simp only [sim_ball_init_locations, if_neg hf]
  | succ todo ih =>
    unfold sim_ball_init_locations
    rw [ih]
    by_cases h1 : n + 1 ≤ l ∧ l < n + 1 + todo
    · have h2 : n ≤ l ∧ l < n + (todo + 1) := by omega
      rw [if_pos h1, if_pos h2]
    · rw [if_neg h1]
      by_cases h3 : l = n
      · have h2 : n ≤ l ∧ l < n + (todo + 1) := by omega
        rw [if_pos h3, if_pos h2]
      · have h2 : ¬ (n ≤ l ∧ l < n + (todo + 1)) := by omega
        rw [if_neg h3, if_neg h2]

theorem sim_ball_init_balls_apply (todo n : Nat) (tbl : Nat → Nat) (b : Nat) :
    sim_ball_init_balls todo n tbl b
      = if n ≤ b ∧ b < n + todo then SIM_LOCATION_NONE else tbl b := by
  induction todo generalizing n tbl with
  | zero =>
    have hf : ¬ (n ≤ b ∧ b < n + 0) := by omega
    simp only [sim_ball_init_balls, if_neg hf]
  | succ todo ih =>
    unfold sim_ball_init_balls
    rw [ih]
    by_cases h1 : n + 1 ≤ b ∧ b < n + 1 + todo
    · have h2 : n ≤ b ∧ b < n + (todo + 1) := by omega
      rw [if_pos h1, if_pos h2]
    · rw [if_neg h1]
      by_cases h3 : b = n
      · have h2 : n ≤ b ∧ b < n + (todo + 1) := by omega
        rw [if_pos h3, if_pos h2]
      · have h2 : ¬ (n ≤ b ∧ b < n + (todo + 1)) := by omega
        rw [if_neg h3, if_neg h2]

/-- After `sim_ball_init` every location is empty and every ball is untracked. -/
theorem sim_ball_init_tables (s : SimBalls) :
    (∀ l, l < MAX_BALL_LOCATIONS → (sim_ball_init s).sim_location_ball l = SIM_NO_BALL_HERE)
    ∧ (∀ b, b < SIM_MAX_BALLS → (sim_ball_init s).sim_ball_location b = SIM_LOCATION_NONE) := by
  refine ⟨fun l hl => ?_, fun b hb => ?_⟩
  · show sim_ball_init_locations MAX_BALL_LOCATIONS 0 s.sim_location_ball l = _
    rw [sim_ball_init_locations_apply, if_pos (by omega)]
  · show sim_ball_init_balls SIM_MAX_BALLS 0 s.sim_ball_location b = _
    rw [sim_ball_init_balls_apply, if_pos (by omega)]

theorem sim_location_toggle_tables (N location : Nat) (s : SimBalls) :
    (sim_location_toggle N location s).sim_ball_location = s.sim_ball_location
    ∧ (sim_location_toggle N location s).sim_location_ball = s.sim_location_ball := by
  unfold sim_location_toggle
  split <;> exact ⟨rfl, rfl⟩

/-- What `sim_ball_move` does to the two tables: the ball's entry and the entry of the
new location are written, and no other entry of either table changes; the entry of
the previous location is among those left as they were. -/
theorem sim_ball_move_tables (N ballno location : Nat) (s : SimBalls)
    (hb : ballno < SIM_MAX_BALLS) (hl : location < MAX_BALL_LOCATIONS) :
    ∃ s1, sim_ball_move N ballno location s = some s1
      ∧ (∀ b, s1.sim_ball_location b = if b = ballno then location else s.sim_ball_location b)
      ∧ (∀ l, s1.sim_location_ball l
          = if l = location then (ballno : Int) else s.sim_location_ball l) := by
  have hc : ballno < SIM_MAX_BALLS ∧ location < MAX_BALL_LOCATIONS := ⟨hb, hl⟩
  unfold sim_ball_move
  rw [if_pos hc]
  refine ⟨_, rfl, fun b => ?_, fun l => ?_⟩
  · simp only
    by_cases hbb : b = ballno
    · rw [if_pos hbb, if_pos hbb]
    · rw [if_neg hbb, if_neg hbb, (sim_location_toggle_tables _ _ _).1]
      split
      · exact congrFun (sim_location_toggle_tables _ _ _).1 b
      · rfl
  · simp only
    by_cases hll : l = location
    · rw [if_pos hll, if_pos hll]
    · rw [if_neg hll, if_neg hll, (sim_location_toggle_tables _ _ _).2]
      split
      · simp only [if_neg hll]
        exact congrFun (sim_location_toggle_tables _ _ _).2 l
      · rfl

/-- C31 (evaluation at the failing input): after `sim_ball_init`, ball 0 is moved to
the free location 5 and then to the free location 7.  The ball's entry says 7 and the
entry of location 7 says 0, but the entry of location 5 still says 0 instead of
`SIM_NO_BALL_HERE`: the two tables are no longer inverse of each other. -/
theorem sim_ball_move_keeps_previous_entry (NUM_SWITCHES : Nat) :
    ∃ s1 s2,
      sim_ball_move NUM_SWITCHES 0 5 (sim_ball_init sim_power_on) = some s1
      ∧ s1.sim_ball_location 0 = 5 ∧ s1.sim_location_ball 5 = 0
      ∧ s1.sim_location_ball 7 = SIM_NO_BALL_HERE
      ∧ sim_ball_move NUM_SWITCHES 0 7 s1 = some s2
      ∧ s2.sim_ball_location 0 = 7 ∧ s2.sim_location_ball 7 = 0
      ∧ s2.sim_location_ball 5 = 0 ∧ s2.sim_location_ball 5 ≠ SIM_NO_BALL_HERE := by
  obtain ⟨i1, _⟩ := sim_ball_init_tables sim_power_on
  obtain ⟨s1, h1, b1, l1⟩ := sim_ball_move_tables NUM_SWITCHES 0 5 (sim_ball_init sim_power_on)
    (by decide) (by decide)
  obtain ⟨s2, h2, b2, l2⟩ := sim_ball_move_tables NUM_SWITCHES 0 7 s1 (by decide) (by decide)
  have e5 : s1.sim_location_ball 5 = 0 := by rw [l1]; rfl
  have e7 : s1.sim_location_ball 7 = SIM_NO_BALL_HERE := by
    rw [l1, if_neg (by decide), i1 7 (by decide)]
  have f5 : s2.sim_location_ball 5 = 0 := by rw [l2, if_neg (by decide), e5]
  refine ⟨s1, s2, h1, by rw [b1]; rfl, e5, e7, h2, by rw [b2]; rfl, by rw [l2]; rfl, f5, ?_⟩
  rw [f5]
  decide

/-! ## Chaos multiball -/

theorem ChaosReachable.clock_targets {s : ChaosState} (n : Nat) (h : ChaosReachable s) :
    ChaosReachable (Nat.iterate chaosmb_sw_clock_target n s) := by
  induction n with
  | zero => exact h
  | succ n ih =>
    rw [Function.iterate_succ_apply']
    exact ChaosReachable.clock_target _ ih

/-- In every reachable state the mode is running, and the level is at most 6 with at
most twice as many clock hits to go, or at most 7 with none to go. -/
theorem ChaosReachable.level_bound {s : ChaosState} (h : ChaosReachable s) :
    s.flag_chaosmb_running = true
    ∧ ((s.chaosmb_level ≤ 6 ∧ s.chaosmb_hits_to_relight ≤ 2 * s.chaosmb_level)
        ∨ (s.chaosmb_level ≤ 7 ∧ s.chaosmb_hits_to_relight = 0)) := by
  have hshot : ∀ (level : Nat) (t : ChaosState), level < 6 →
      (t.flag_chaosmb_running = true
        ∧ ((t.chaosmb_level ≤ 6 ∧ t.chaosmb_hits_to_relight ≤ 2 * t.chaosmb_level)
          ∨ (t.chaosmb_level ≤ 7 ∧ t.chaosmb_hits_to_relight = 0))) →
      ((chaosmb_check_level level t).flag_chaosmb_running = true
        ∧ (((chaosmb_check_level level t).chaosmb_level ≤ 6
            ∧ (chaosmb_check_level level t).chaosmb_hits_to_relight
                ≤ 2 * (chaosmb_check_level level t).chaosmb_level)
          ∨ ((chaosmb_check_level level t).chaosmb_level ≤ 7
            ∧ (chaosmb_check_level level t).chaosmb_hits_to_relight = 0))) := by
    intro level t hl ⟨hf, hb⟩
    unfold chaosmb_check_level
    split
    · rename_i hc
      refine ⟨hf, Or.inl ?_⟩
      simp only [chaosmb_score_jackpot]
      omega
    · exact ⟨hf, hb⟩
  induction h with
  | start s0 h0 =>
    simp [chaosmb_start, multiball_mode_start, h0]
  | left_ramp_exit s _ ih => exact hshot 0 s (by decide) ih
  | right_ramp s _ ih => exact hshot 1 s (by decide) ih
  | piano s _ ih => exact hshot 2 s (by decide) ih
  | hitchhiker s _ ih => exact hshot 3 s (by decide) ih
  | power_payoff s _ ih => exact hshot 4 s (by decide) ih
  | dead_end s _ ih => exact hshot 5 s (by decide) ih
  | clock_target s _ ih =>
    obtain ⟨hf, hb⟩ := ih
    unfold chaosmb_sw_clock_target
    split
    · simp only
      split
      · refine ⟨hf, Or.inr ⟨?_, by assumption⟩⟩
        simp only
        omega
      · refine ⟨hf, Or.inl ?_⟩
        simp only
        omega
    · exact ⟨hf, hb⟩

/-- C32 (evaluation at the failing input): the mode is started and the jackpot is
collected three times, each time on the shot on display, with the clock hits that
relight it in between.  The state reached is among those of the claim, the mode is
running with no clock hit to go, and `chaosmb_level` is 6: the display effect reads
`chaosmb_shots` outside its six entries.  On the way the shots on display are the
left ramp, the piano and the power payoff, every second entry of the table. -/
theorem chaosmb_level_leaves_shots_table :
    ChaosReachable chaos_third_relight
    ∧ chaos_third_relight.flag_chaosmb_running = true
    ∧ chaos_third_relight.chaosmb_hits_to_relight = 0
    ∧ chaos_third_relight.chaosmb_level = 6
    ∧ chaosmb_shots.length = 6
    ∧ chaosmb_running_deff_pass chaos_third_relight = none
    ∧ chaosmb_running_deff_pass (chaosmb_start chaos_power_on)
        = some (DeffText.shoot "LEFT RAMP")
    ∧ chaosmb_running_deff_pass
        (Nat.iterate chaosmb_sw_clock_target 2
          (chaosmb_sw_left_ramp_exit (chaosmb_start chaos_power_on)))
        = some (DeffText.shoot "PIANO") := by
  refine ⟨?_, by decide, by decide, by decide, rfl, by decide, rfl, rfl⟩
  exact ChaosReachable.clock_targets 10
    (ChaosReachable.power_payoff _
      (ChaosReachable.clock_targets 6
        (ChaosReachable.piano _
          (ChaosReachable.clock_targets 2
            (ChaosReachable.left_ramp_exit _ (ChaosReachable.start chaos_power_on rfl))))))

/-! ## Runs that end after `k` cycles -/

/-- A run in which the flag is found set before each of the first `k` passes and clear
after pass `k`: `dmd_do_transition` returns, and its calls are those of the initializer
followed by those of the `k` passes. -/
theorem dmd_do_transition_frames_run (descs : Nat → dmd_transition_t) (fuel p k : Nat)
    (s : DmdState) (h : s.dmd_transition = some p) (hc : TransitionContract (descs p))
    (hf : 2 ≤ fuel) (hk : k ≤ fuel)
    (hrun : ∀ j, j < k →
      (dmd_transition_frames descs fuel (one_copy_flag s) s.dmd_low_page s.dmd_high_page j
        (dmd_transition_init (descs p) (dmd_transition_entry s)).state).state.dmd_in_transition
        = true)
    (hend :
      (dmd_transition_frames descs fuel (one_copy_flag s) s.dmd_low_page s.dmd_high_page k
        (dmd_transition_init (descs p) (dmd_transition_entry s)).state).state.dmd_in_transition
        = false) :
    (dmd_do_transition descs fuel s).status = Status.done
    ∧ (dmd_do_transition descs fuel s).trace
        = (dmd_transition_init (descs p) (dmd_transition_entry s)).trace
          ++ (dmd_transition_frames descs fuel (one_copy_flag s) s.dmd_low_page
              s.dmd_high_page k
              (dmd_transition_init (descs p) (dmd_transition_entry s)).state).trace
    ∧ (dmd_do_transition descs fuel s).trace.map Event.call
        = init_calls (descs p)
          ++ (List.replicate k (cycle_calls (one_copy_flag s) (descs p).delay)).flatten := by
  have hp : (dmd_transition_entry s).dmd_transition = some p := by
    rw [(dmd_transition_entry_fields s).2.1, h]
  obtain ⟨i1, i2, i3, _⟩ := dmd_transition_init_spec (descs p) hc (dmd_transition_entry s)
  have hi : (dmd_transition_init (descs p) (dmd_transition_entry s)).state.dmd_transition
      = some p := by rw [i3, hp]
  have hloop := dmd_transition_loop_frames descs fuel (one_copy_flag s) s.dmd_low_page
    s.dmd_high_page p hc hf k fuel _ hi hk hrun hend
  obtain ⟨f1, f2, _⟩ := dmd_transition_frames_calls descs fuel (one_copy_flag s)
    s.dmd_low_page s.dmd_high_page p hc hf k _ hi
  have htrace : (dmd_do_transition descs fuel s).trace
      = (dmd_transition_init (descs p) (dmd_transition_entry s)).trace
        ++ (dmd_transition_frames descs fuel (one_copy_flag s) s.dmd_low_page
            s.dmd_high_page k
            (dmd_transition_init (descs p) (dmd_transition_entry s)).state).trace := by
    rw [dmd_do_transition_eq_init]
    simp only [hp]
    rw [Run.andThen_ret_trace, Run.andThen_done _ _ i1, hloop]
  refine ⟨?_, htrace, ?_⟩
  · rw [dmd_do_transition_eq_init]
    simp only [hp]
    have h1 : ((dmd_transition_init (descs p) (dmd_transition_entry s)).andThen
        (dmd_transition_loop descs fuel (one_copy_flag s) s.dmd_low_page s.dmd_high_page
          fuel)).status = Status.done := by
      rw [Run.andThen_done _ _ i1, hloop]
      exact f1
    rw [Run.andThen_done _ _ h1]
    rfl
  · rw [htrace, List.map_append, i2, f2]

/-- C6: `one_copy_flag` is true iff on entry `dmd_dark_page = dmd_bright_page` and
`dmd_low_page = dmd_high_page`.  Take a descriptor that keeps the engine's variables
and a run in which the flag is found set before each of the first `k` passes and clear
after pass `k`.  Then `dmd_do_transition` returns and its calls are the initializer (if
any) followed by exactly `k` cycles.  When `one_copy_flag` is true each cycle is the
sleep, `composite_old` and `composite_new` on the dark channel, once, and no
bright-channel callback is called in the whole transition; when it is false each cycle
is the sleep and the pair twice, on the dark channel and then on the bright channel. -/
theorem dmd_one_copy_flag_cycles (descs : Nat → dmd_transition_t) (fuel p k : Nat)
    (s : DmdState) (h : s.dmd_transition = some p) (hc : TransitionContract (descs p))
    (hf : 2 ≤ fuel) (hk : k ≤ fuel)
    (hrun : ∀ j, j < k →
      (dmd_transition_frames descs fuel (one_copy_flag s) s.dmd_low_page s.dmd_high_page j
        (dmd_transition_init (descs p) (dmd_transition_entry s)).state).state.dmd_in_transition
        = true)
    (hend :
      (dmd_transition_frames descs fuel (one_copy_flag s) s.dmd_low_page s.dmd_high_page k
        (dmd_transition_init (descs p) (dmd_transition_entry s)).state).state.dmd_in_transition
        = false) :
    (one_copy_flag s = true
      ↔ s.dmd_dark_page = s.dmd_bright_page ∧ s.dmd_low_page = s.dmd_high_page)
    ∧ (dmd_do_transition descs fuel s).status = Status.done
    ∧ (one_copy_flag s = true →
        (dmd_do_transition descs fuel s).trace.map Event.call
          = init_calls (descs p)
            ++ (List.replicate k
                [Call.sleep (descs p).delay, Call.old Channel.dark,
                 Call.new Channel.dark]).flatten
        ∧ ∀ ev ∈ (dmd_do_transition descs fuel s).trace,
            ev.call ≠ Call.old Channel.bright ∧ ev.call ≠ Call.new Channel.bright)
    ∧ (one_copy_flag s = false →
        (dmd_do_transition descs fuel s).trace.map Event.call
          = init_calls (descs p)
            ++ (List.replicate k
                [Call.sleep (descs p).delay, Call.old Channel.dark, Call.new Channel.dark,
                 Call.old Channel.bright, Call.new Channel.bright]).flatten) := by
  obtain ⟨hst, _, htr⟩ := dmd_do_transition_frames_run descs fuel p k s h hc hf hk hrun hend
  refine ⟨?_, hst, ?_, ?_⟩
  · simp only [one_copy_flag, Bool.and_eq_true, decide_eq_true_eq]
    exact And.comm
  · intro hflag
    rw [hflag] at htr
    refine ⟨htr, ?_⟩
    intro ev hev
    have hm : ev.call ∈ (dmd_do_transition descs fuel s).trace.map Event.call :=
      List.mem_map_of_mem _ hev
    rw [htr] at hm
    have hcases : ev.call = Call.init ∨ ev.call = Call.sleep (descs p).delay
        ∨ ev.call = Call.old Channel.dark ∨ ev.call = Call.new Channel.dark := by
      rcases List.mem_append.mp hm with hm | hm
      · left
        unfold init_calls at hm
        split at hm <;> simp at hm
        exact hm
      · right
        simp only [List.mem_flatten, List.mem_replicate] at hm
        obtain ⟨l, ⟨_, rfl⟩, hl⟩ := hm
        simpa [cycle_calls] using hl
    rcases hcases with e | e | e | e <;> rw [e] <;> exact ⟨by simp, by simp⟩
  · intro hflag
    rw [hflag] at htr
    exact htr

theorem dmd_one_copy_flag_cycles_witness :
    (one_copy_flag mono_to_mono = true
      ∧ (dmd_do_transition (fun _ => two_step) 2 mono_to_mono).status = Status.done
      ∧ (dmd_do_transition (fun _ => two_step) 2 mono_to_mono).trace.map Event.call
          = [Call.sleep 1, Call.old Channel.dark, Call.new Channel.dark,
             Call.sleep 1, Call.old Channel.dark, Call.new Channel.dark])
    ∧ (one_copy_flag mono_to_color = false
      ∧ (dmd_do_transition (fun _ => two_step) 2 mono_to_color).status = Status.done
      ∧ (dmd_do_transition (fun _ => two_step) 2 mono_to_color).trace.map Event.call
          = [Call.sleep 1, Call.old Channel.dark, Call.new Channel.dark,
             Call.old Channel.bright, Call.new Channel.bright,
             Call.sleep 1, Call.old Channel.dark, Call.new Channel.dark,
             Call.old Channel.bright, Call.new Channel.bright]) :=
  ⟨⟨by decide,
      (dmd_one_copy_flag_cycles (fun _ => two_step) 2 0 2 mono_to_mono rfl two_step_contract
        (by decide) (by decide) (fun j hj => by interval_cases j <;> rfl) rfl).2.1,
      ((dmd_one_copy_flag_cycles (fun _ => two_step) 2 0 2 mono_to_mono rfl two_step_contract
        (by decide) (by decide) (fun j hj => by interval_cases j <;> rfl) rfl).2.2.1
        (by decide)).1⟩,
    ⟨by decide,
      (dmd_one_copy_flag_cycles (fun _ => two_step) 2 0 2 mono_to_color rfl two_step_contract
        (by decide) (by decide) (fun j hj => by interval_cases j <;> rfl) rfl).2.1,
      (dmd_one_copy_flag_cycles (fun _ => two_step) 2 0 2 mono_to_color rfl two_step_contract
        (by decide) (by decide) (fun j hj => by interval_cases j <;> rfl) rfl).2.2.2
        (by decide)⟩⟩

/-- C7: take a descriptor that keeps the engine's variables, the cursor below
`DMD_PAGE_COUNT`, and a run in which `dmd_in_transition` is found set before each of the
first `k` passes and clear after pass `k`, with `k` at least 1: the flag is cleared
during cycle `k`.  Then `dmd_do_transition` returns, with every bound of at least `k`
and 2 passes giving the same run, and it ends with `dmd_dark_page` on the composite page
of cycle `k`, `dmd_bright_page` on the same page when `one_copy_flag` is true and on the
next one otherwise, `dmd_transition` null and `dmd_in_transition` false;
`dmd_sched_transition t` then stores `t` and sets the flag. -/
theorem dmd_do_transition_publishes (descs : Nat → dmd_transition_t) (fuel p k : Nat)
    (s : DmdState) (h : s.dmd_transition = some p) (hc : TransitionContract (descs p))
    (hfree : s.dmd_free_page < DMD_PAGE_COUNT)
    (hf : 2 ≤ fuel) (hk1 : 1 ≤ k) (hk : k ≤ fuel)
    (hrun : ∀ j, j < k →
      (dmd_transition_frames descs fuel (one_copy_flag s) s.dmd_low_page s.dmd_high_page j
        (dmd_transition_init (descs p) (dmd_transition_entry s)).state).state.dmd_in_transition
        = true)
    (hend :
      (dmd_transition_frames descs fuel (one_copy_flag s) s.dmd_low_page s.dmd_high_page k
        (dmd_transition_init (descs p) (dmd_transition_entry s)).state).state.dmd_in_transition
        = false) :
    (dmd_do_transition descs fuel s).status = Status.done
    ∧ (∀ fuel2, fuel ≤ fuel2 → dmd_do_transition descs fuel2 s = dmd_do_transition descs fuel s)
    ∧ (dmd_do_transition descs fuel s).trace.map Event.call
        = init_calls (descs p)
          ++ (List.replicate k (cycle_calls (one_copy_flag s) (descs p).delay)).flatten
    ∧ (dmd_do_transition descs fuel s).state.dmd_composite_page
        = (dmd_transition_frames descs fuel (one_copy_flag s) s.dmd_low_page s.dmd_high_page k
            (dmd_transition_init (descs p)
              (dmd_transition_entry s)).state).state.dmd_composite_page
    ∧ (∃ e, last_callback (dmd_do_transition descs fuel s).trace = some e
        ∧ e.dmd_composite_page = (dmd_do_transition descs fuel s).state.dmd_composite_page)
    ∧ (dmd_do_transition descs fuel s).state.dmd_composite_page < DMD_PAGE_COUNT
    ∧ (dmd_do_transition descs fuel s).state.dmd_dark_page
        = (dmd_do_transition descs fuel s).state.dmd_composite_page
    ∧ (dmd_do_transition descs fuel s).state.dmd_bright_page
        = (if one_copy_flag s then (dmd_do_transition descs fuel s).state.dmd_composite_page
           else (dmd_do_transition descs fuel s).state.dmd_composite_page + 1)
    ∧ (dmd_do_transition descs fuel s).state.dmd_transition = none
    ∧ (dmd_do_transition descs fuel s).state.dmd_in_transition = false
    ∧ (∀ t, (dmd_sched_transition t (dmd_do_transition descs fuel s).state).dmd_transition = t
        ∧ (dmd_sched_transition t (dmd_do_transition descs fuel s).state).dmd_in_transition
            = true) := by
  obtain ⟨hst, _, htr⟩ := dmd_do_transition_frames_run descs fuel p k s h hc hf hk hrun hend
  have hcycle : ∃ ch e, Event.composite_new ch e ∈ (dmd_do_transition descs fuel s).trace := by
    obtain ⟨k0, rfl⟩ : ∃ k0, k = k0 + 1 := ⟨k - 1, by omega⟩
    have hm : Call.new Channel.dark ∈ (dmd_do_transition descs fuel s).trace.map Event.call := by
      rw [htr, List.replicate_succ, List.flatten_cons]
      refine List.mem_append_right _ (List.mem_append_left _ ?_)
      cases one_copy_flag s <;> simp [cycle_calls]
    obtain ⟨ev, hev, hcall⟩ := List.mem_map.mp hm
    cases ev with
    | composite_init e => cases hcall
    | task_sleep d => cases hcall
    | composite_old ch e => cases hcall
    | composite_new ch e => exact ⟨ch, e, hev⟩
  obtain ⟨c1, c2, c3, c4, c5, c6, c7, c8⟩ :=
    dmd_do_transition_final descs fuel p s h hc hfree hst hcycle
  refine ⟨hst, c1, htr, ?_, c4, c5, c2, c3, c6, c7, c8⟩
  have hp : (dmd_transition_entry s).dmd_transition = some p := by
    rw [(dmd_transition_entry_fields s).2.1, h]
  obtain ⟨i1, _, i3, _⟩ := dmd_transition_init_spec (descs p) hc (dmd_transition_entry s)
  have hi : (dmd_transition_init (descs p) (dmd_transition_entry s)).state.dmd_transition
      = some p := by rw [i3, hp]
  have hloop := dmd_transition_loop_frames descs fuel (one_copy_flag s) s.dmd_low_page
    s.dmd_high_page p hc hf k fuel _ hi hk hrun hend
  obtain ⟨f1, _, _⟩ := dmd_transition_frames_calls descs fuel (one_copy_flag s)
    s.dmd_low_page s.dmd_high_page p hc hf k _ hi
  rw [dmd_do_transition_eq_init]
  simp only [hp]
  have h1 : ((dmd_transition_init (descs p) (dmd_transition_entry s)).andThen
      (dmd_transition_loop descs fuel (one_copy_flag s) s.dmd_low_page s.dmd_high_page
        fuel)).status = Status.done := by
    rw [Run.andThen_done _ _ i1, hloop]
    exact f1
  rw [Run.andThen_done _ _ h1]
  simp only [Run.ret]
  rw [Run.andThen_done _ _ i1, hloop]

theorem dmd_do_transition_publishes_witness :
    mono_to_color.dmd_transition = some 0
    ∧ mono_to_color.dmd_free_page < DMD_PAGE_COUNT
    ∧ one_copy_flag mono_to_color = false
    ∧ (dmd_do_transition (fun _ => two_step) 2 mono_to_color).status = Status.done
    ∧ (dmd_do_transition (fun _ => two_step) 2 mono_to_color).state.dmd_composite_page = 8
    ∧ (dmd_do_transition (fun _ => two_step) 2 mono_to_color).state.dmd_dark_page
        = (dmd_do_transition (fun _ => two_step) 2 mono_to_color).state.dmd_composite_page
    ∧ (dmd_do_transition (fun _ => two_step) 2 mono_to_color).state.dmd_bright_page
        = (if one_copy_flag mono_to_color then
            (dmd_do_transition (fun _ => two_step) 2 mono_to_color).state.dmd_composite_page
           else (dmd_do_transition (fun _ => two_step) 2 mono_to_color).state.dmd_composite_page + 1)
    ∧ (dmd_do_transition (fun _ => two_step) 2 mono_to_color).state.dmd_transition = none
    ∧ (dmd_do_transition (fun _ => two_step) 2 mono_to_color).state.dmd_in_transition = false
    ∧ dmd_do_transition (fun _ => two_step) 7 mono_to_color
        = dmd_do_transition (fun _ => two_step) 2 mono_to_color :=
  have key := dmd_do_transition_publishes (fun _ => two_step) 2 0 2 mono_to_color rfl
    two_step_contract (by decide) (by decide) (by decide) (by decide)
    (fun j hj => by interval_cases j <;> rfl) rfl
  ⟨rfl, by decide, by decide, key.1, by decide, key.2.2.2.2.2.2.1, key.2.2.2.2.2.2.2.1,
    key.2.2.2.2.2.2.2.2.1, key.2.2.2.2.2.2.2.2.2.1, key.2.1 7 (by decide)⟩

/-- C22: take a descriptor that keeps the engine's variables, the cursor below
`DMD_PAGE_COUNT`, `U8` page numbers, and a run in which the flag is found set before
each of the first `k` passes and clear after pass `k`.  Then `dmd_do_transition`
returns, and its calls after the initializer are exactly `k` cycles with this mapping.
In the dark-channel cycle `composite_old` is entered with `dmd_high_page` on the
composite page and `dmd_low_page` on the dark page on display (the outgoing dark page
in the first cycle, the composite page of the previous cycle afterwards), and
`composite_new` with the same high page and `dmd_low_page` on `new_dark_page`; in
two-channel mode the bright-channel cycle enters `composite_old` with `dmd_high_page`
on the page after the composite page and `dmd_low_page` on the bright page on display,
and `composite_new` with the same high page and `dmd_low_page` on `new_bright_page`.
`new_dark_page` and `new_bright_page` are `dmd_low_page` and `dmd_high_page` on entry
to `dmd_do_transition`. -/
theorem dmd_do_transition_page_mapping (descs : Nat → dmd_transition_t) (fuel p k : Nat)
    (s : DmdState) (h : s.dmd_transition = some p) (hc : TransitionContract (descs p))
    (hf : 2 ≤ fuel) (hfree : s.dmd_free_page < DMD_PAGE_COUNT)
    (hlow : s.dmd_low_page < 256) (hhigh : s.dmd_high_page < 256)
    (hdark : s.dmd_dark_page < 256) (hbright : s.dmd_bright_page < 256)
    (hk : k ≤ fuel)
    (hrun : ∀ j, j < k →
      (dmd_transition_frames descs fuel (one_copy_flag s) s.dmd_low_page s.dmd_high_page j
        (dmd_transition_init (descs p) (dmd_transition_entry s)).state).state.dmd_in_transition
        = true)
    (hend :
      (dmd_transition_frames descs fuel (one_copy_flag s) s.dmd_low_page s.dmd_high_page k
        (dmd_transition_init (descs p) (dmd_transition_entry s)).state).state.dmd_in_transition
        = false) :
    (dmd_do_transition descs fuel s).status = Status.done
    ∧ ∃ cycles,
      (dmd_do_transition descs fuel s).trace
        = (dmd_transition_init (descs p) (dmd_transition_entry s)).trace ++ cycles
      ∧ cycles.map Event.call
          = (List.replicate k
              (if one_copy_flag s = true then
                [Call.sleep (descs p).delay, Call.old Channel.dark, Call.new Channel.dark]
               else
                [Call.sleep (descs p).delay, Call.old Channel.dark, Call.new Channel.dark,
                 Call.old Channel.bright, Call.new Channel.bright])).flatten
      ∧ cycles_mapped s.dmd_low_page s.dmd_high_page (one_copy_flag s) s.dmd_dark_page
          (dmd_transition_entry s).dmd_bright_page cycles
      ∧ (dmd_transition_entry s).dmd_bright_page
          = (if s.dmd_low_page = s.dmd_high_page then s.dmd_bright_page
             else (s.dmd_dark_page + 1) % 256) := by
  obtain ⟨hst, htrace, _⟩ := dmd_do_transition_frames_run descs fuel p k s h hc hf hk hrun hend
  obtain ⟨cycles, hcy, hmap, hb⟩ := dmd_do_transition_cycles_mapped descs fuel p s h hc hf hfree
    hlow hhigh hdark hbright
  have hp : (dmd_transition_entry s).dmd_transition = some p := by
    rw [(dmd_transition_entry_fields s).2.1, h]
  obtain ⟨_, _, i3, _⟩ := dmd_transition_init_spec (descs p) hc (dmd_transition_entry s)
  have hi : (dmd_transition_init (descs p) (dmd_transition_entry s)).state.dmd_transition
      = some p := by rw [i3, hp]
  obtain ⟨_, f2, _⟩ := dmd_transition_frames_calls descs fuel (one_copy_flag s)
    s.dmd_low_page s.dmd_high_page p hc hf k _ hi
  have hceq : cycles
      = (dmd_transition_frames descs fuel (one_copy_flag s) s.dmd_low_page s.dmd_high_page k
          (dmd_transition_init (descs p) (dmd_transition_entry s)).state).trace := by
    rw [hcy] at htrace
    exact List.append_cancel_left htrace
  refine ⟨hst, cycles, hcy, ?_, hmap, hb⟩
  rw [hceq, f2]
  rfl

theorem dmd_do_transition_page_mapping_witness :
    mono_to_color.dmd_transition = some 0
    ∧ mono_to_color.dmd_free_page < DMD_PAGE_COUNT
    ∧ (mono_to_color.dmd_low_page, mono_to_color.dmd_high_page) = (4, 5)
    ∧ (mono_to_color.dmd_dark_page, (dmd_transition_entry mono_to_color).dmd_bright_page)
        = (2, 3)
    ∧ (dmd_do_transition (fun _ => two_step) 2 mono_to_color).status = Status.done
    ∧ ∃ cycles,
        (dmd_do_transition (fun _ => two_step) 2 mono_to_color).trace
          = (dmd_transition_init two_step (dmd_transition_entry mono_to_color)).trace ++ cycles
        ∧ cycles.map Event.call
            = [Call.sleep 1, Call.old Channel.dark, Call.new Channel.dark,
               Call.old Channel.bright, Call.new Channel.bright,
               Call.sleep 1, Call.old Channel.dark, Call.new Channel.dark,
               Call.old Channel.bright, Call.new Channel.bright]
        ∧ cycles_mapped mono_to_color.dmd_low_page mono_to_color.dmd_high_page
            (one_copy_flag mono_to_color) mono_to_color.dmd_dark_page
            (dmd_transition_entry mono_to_color).dmd_bright_page cycles :=
  have key := dmd_do_transition_page_mapping (fun _ => two_step) 2 0 2 mono_to_color rfl
    two_step_contract (by decide) (by decide) (by decide) (by decide) (by decide)
    (by decide) (by decide) (fun j hj => by interval_cases j <;> rfl) rfl
  ⟨rfl, by decide, by decide, by decide, key.1,
    match key.2 with
    | ⟨cycles, h1, h2, h3, _⟩ => ⟨cycles, h1, h2, h3⟩⟩

end FreeWPC
